import Mathlib

/-!
# Replication connection layer (`go/objectserver/repconn.go`)

A shallow embedding of the replication connection of the object server: the
framed message codec (`SendMessage`, `RecvMessage`), the raw byte channel
(`Read`, `Write`, `Flush`), the lifecycle operation `Close` and the handshake
`NewRepConn`, together with the parts of the Go standard library the code
drives (`net.Conn`, `bufio.Reader`, `bufio.Writer`, `io.ReadFull`,
`encoding/binary` and `encoding/json`).

State is passed explicitly: every operation takes the connection and returns the
connection it leaves behind.  The transport is a scripted environment: the
script says what the network delivers and when, and how each transport write
ends.  Time is counted in nanoseconds, as `time.Duration` does.
-/

namespace Objectserver

set_option linter.unusedVariables false

/-! ## Bytes, errors, time -/

/-- A Go `byte`. -/
abbrev Byte := Fin 256

/-- The error values the layer can hand back. -/
inductive Error
  /-- The error `io.EOF`. -/
  | EOF
  /-- The error `io.ErrUnexpectedEOF`. -/
  | ErrUnexpectedEOF
  /-- The error `io.ErrShortWrite`. -/
  | ErrShortWrite
  /-- The error for use of a closed network connection -/
  | ErrClosed
  /-- The i/o timeout: the deadline passed. -/
  | ErrTimeout
  /-- A read without deadline on a stream that stays silent for ever -/
  | ErrBlocked
  /-- Any other transport failure (reset, broken pipe) -/
  | ErrNet
  /-- Failure of `json.Marshal` (unsupported type or value). -/
  | ErrMarshal
  /-- A `json.SyntaxError`. -/
  | ErrSyntax
  /-- A `json.UnmarshalTypeError`. -/
  | ErrUnmarshalType
  /-- Rejection of the URL by `http.NewRequest`. -/
  | ErrURL
  /-- Failure of the dialer. -/
  | ErrDial
  /-- Failure of the handshake request. -/
  | ErrRequest
  /-- The sentinel `RepUnmountedError` ("Device unmounted") -/
  | RepUnmountedError
deriving DecidableEq, Repr

/-- One `time.Second`, in nanoseconds. -/
def Second : Nat := 1000000000

/-- One `time.Minute`. -/
def Minute : Nat := 60 * Second

/-- The input window: `const repITimeout = time.Minute * 10`. -/
def repITimeout : Nat := Minute * 10

/-- The output window: `const repOTimeout = time.Minute`. -/
def repOTimeout : Nat := Minute

/-! ## The transport (`net.Conn`) -/

/-- What the network hands to the local end, in order.  `t` is the moment the
item becomes available. -/
inductive InEvent
  /-- A segment of bytes arrives. -/
  | data (t : Nat) (bytes : List Byte)
  /-- The peer closes its sending side. -/
  | eof (t : Nat)
  /-- The transport breaks. -/
  | fail (t : Nat) (e : Error)
deriving DecidableEq, Repr

/-- The arrival time of an item. -/
def InEvent.time : InEvent → Nat
  | .data t _ => t
  | .eof t => t
  | .fail t _ => t

/-- How one transport write ends: everything is accepted, or `n` bytes are
accepted and the write fails with `e`. -/
inductive WOutcome
  | ok
  | fail (n : Nat) (e : Error)
deriving DecidableEq, Repr

/-- The calls a transport has received, each I/O call stamped with the deadline
in force when it was issued. -/
inductive Event
  | setDeadline (t : Nat)
  | read (deadline : Option Nat) (n : Nat)
  | write (deadline : Option Nat) (n : Nat)
  | close
deriving DecidableEq, Repr

/-- A `net.Conn`.
* `closed`: `Close` has been called on it;
* `deadline`: the deadline last requested with `SetDeadline` (it covers reads
  and writes alike); `none` is Go's zero time, no deadline;
* `incoming`: what the network will still deliver;
* `outcomes`: how the coming transport writes end (all succeed once the list
  is used up);
* `delivered`: every byte the transport has accepted so far;
* `log`: the calls received, oldest first. -/
structure Conn where
  closed : Bool
  deadline : Option Nat
  incoming : List InEvent
  outcomes : List WOutcome
  delivered : List Byte
  log : List Event
deriving DecidableEq, Repr

/-- The call `c.SetDeadline(t)`.  On a closed connection Go answers with an error,
which the callers in this file drop; every later I/O call on a closed
connection fails before a deadline is looked at, so recording the request is
all that can be observed. -/
def Conn.SetDeadline (c : Conn) (t : Nat) : Conn :=
  { c with deadline := some t, log := c.log ++ [Event.setDeadline t] }

/-- The call `c.Close()`; closing again changes nothing but the log. -/
def Conn.Close (c : Conn) : Conn :=
  { c with closed := true, log := c.log ++ [Event.close] }

/-- Whether an item that becomes available at `t` is seen by a call running
under deadline `d`. -/
def beforeDeadline (t : Nat) : Option Nat → Bool
  | none => true
  | some d => decide (t < d)

/-- The call `c.Read(p)` with `len(p) = cap`: the bytes obtained and the error.
A read returns the bytes of the next segment (at most `cap` of them, the rest
stays queued), or fails: at once on a closed connection, with a timeout when
the next item is not there before the deadline. -/
def Conn.Read (c : Conn) (cap : Nat) : Conn × List Byte × Option Error :=
  if c.closed then
    ({ c with log := c.log ++ [Event.read c.deadline 0] }, [], some Error.ErrClosed)
  else
    match c.incoming with
    | [] =>
      ({ c with log := c.log ++ [Event.read c.deadline 0] }, [],
        some (if c.deadline.isSome then Error.ErrTimeout else Error.ErrBlocked))
    | InEvent.data t bytes :: rest =>
      if beforeDeadline t c.deadline then
        ({ c with
            incoming := if bytes.length ≤ cap then rest
                        else InEvent.data t (bytes.drop cap) :: rest,
            log := c.log ++ [Event.read c.deadline (bytes.take cap).length] },
          bytes.take cap, none)
      else
        ({ c with log := c.log ++ [Event.read c.deadline 0] }, [], some Error.ErrTimeout)
    | InEvent.eof t :: _ =>
      ({ c with log := c.log ++ [Event.read c.deadline 0] }, [],
        some (if beforeDeadline t c.deadline then Error.EOF else Error.ErrTimeout))
    | InEvent.fail t e :: _ =>
      ({ c with log := c.log ++ [Event.read c.deadline 0] }, [],
        some (if beforeDeadline t c.deadline then e else Error.ErrTimeout))

/-- The call `c.Write(p)`: the number of bytes accepted and the error.  A write
accepts all of `p`, or fails after accepting part of it. -/
def Conn.Write (c : Conn) (p : List Byte) : Conn × Nat × Option Error :=
  if c.closed then
    ({ c with log := c.log ++ [Event.write c.deadline 0] }, 0, some Error.ErrClosed)
  else
    match c.outcomes with
    | [] =>
      ({ c with delivered := c.delivered ++ p,
                log := c.log ++ [Event.write c.deadline p.length] }, p.length, none)
    | WOutcome.ok :: rest =>
      ({ c with outcomes := rest, delivered := c.delivered ++ p,
                log := c.log ++ [Event.write c.deadline p.length] }, p.length, none)
    | WOutcome.fail n e :: rest =>
      ({ c with outcomes := rest, delivered := c.delivered ++ p.take n,
                log := c.log ++ [Event.write c.deadline (p.take n).length] },
        (p.take n).length, some e)

/-! ## `bufio` -/

/-- The buffer size of `bufio.NewReader` and `bufio.NewWriter`. -/
def defaultBufSize : Nat := 4096

/-- A `bufio.Writer`: `buf` is `b.buf[0:b.n]`, `err` the sticky error. -/
structure Writer where
  buf : List Byte
  err : Option Error
deriving DecidableEq, Repr

/-- The method `b.Available()`. -/
def Writer.Available (b : Writer) : Nat := defaultBufSize - b.buf.length

/-- The method `b.Buffered()`. -/
def Writer.Buffered (b : Writer) : Nat := b.buf.length

/-- The method `(*bufio.Writer).Flush` above a transport. -/
def Writer.Flush (b : Writer) (c : Conn) : Writer × Conn × Option Error :=
  match b.err with
  | some e => (b, c, some e)
  | none =>
    if b.buf.length = 0 then (b, c, none)
    else
      match c.Write b.buf with
      | (c1, n, err) =>
        match (if n < b.buf.length ∧ err = none then some Error.ErrShortWrite else err) with
        | some e => ({ buf := b.buf.drop n, err := some e }, c1, some e)
        | none => ({ buf := [], err := none }, c1, none)

/-- The measure that shrinks with every turn of the loop in `Writer.Write`. -/
def Writer.writeMeasure (b : Writer) (p : List Byte) : Nat :=
  if b.err.isSome then 0 else 2 * p.length + (if b.buf.length = 0 then 0 else 1) + 1

/-- The loop and tail of `(*bufio.Writer).Write`; `nn` counts the bytes taken
from the caller so far.  While `p` does not fit into the free space, a writer
with an empty buffer hands `p` to the transport directly, and a writer with
pending bytes fills its buffer and flushes it. -/
def Writer.writeLoop (b : Writer) (c : Conn) (p : List Byte) (nn : Nat) :
    Writer × Conn × Nat × Option Error :=
  if hcond : p.length > b.Available ∧ b.err = none then
    if hbuf : b.Buffered = 0 then
      match hw : c.Write p with
      | (c1, n, err) => Writer.writeLoop { b with err := err } c1 (p.drop n) (nn + n)
    else
      match hf : Writer.Flush { b with buf := b.buf ++ p.take b.Available } c with
      | (b2, c2, _) =>
        Writer.writeLoop b2 c2 (p.drop (min b.Available p.length)) (nn + min b.Available p.length)
  else
    match b.err with
    | some e => (b, c, nn, some e)
    | none => ({ b with buf := b.buf ++ p }, c, nn + p.length, none)
termination_by b.writeMeasure p
decreasing_by
  all_goals simp_wf
  · obtain ⟨hlen, herr⟩ := hcond
    have hn : err = none → n = p.length := by
      intro he
      unfold Conn.Write at hw
      split at hw
      · simp at hw; rw [← hw.2.2] at he; simp at he
      · split at hw <;> simp at hw
        · exact hw.2.1.symm
        · exact hw.2.1.symm
        · rw [← hw.2.2] at he; simp at he
    unfold Writer.writeMeasure
    cases err with
    | some e => simp [herr]
    | none =>
      have := hn rfl
      simp [herr, Writer.Buffered] at *
      subst this
      simp [hbuf]; omega
  · obtain ⟨hlen, herr⟩ := hcond
    unfold Writer.writeMeasure
    simp only [Writer.Buffered] at hbuf
    have hne : (b.buf ++ List.take b.Available p).length ≠ 0 := by
      simp; intro h; simp [h] at hbuf
    unfold Writer.Flush at hf
    simp only [herr, hne, if_false] at hf
    split at hf
    · simp at hf
      rw [← hf.1]; simp [herr]
    · simp at hf
      have hb : b.buf ≠ [] := by
        intro h; simp [h] at hbuf
      rw [← hf.1]; simp [herr, hb]
      simp only [Writer.Available] at hlen ⊢
      omega

/-- The method `(*bufio.Writer).Write`: bytes accepted and error. -/
def Writer.Write (b : Writer) (c : Conn) (p : List Byte) : Writer × Conn × Nat × Option Error :=
  Writer.writeLoop b c p 0

/-- A `bufio.Reader`: `buf` is the unread part `b.buf[b.r:b.w]` of its buffer.
The transport never returns bytes together with an error, so the reader's
pending error `b.err` is nil between calls and is left out. -/
structure Reader where
  buf : List Byte
deriving DecidableEq, Repr

/-- The method `(*bufio.Reader).Read` with `len(p) = k`: the bytes copied into
`p` and the error.  Buffered bytes are served first; an empty buffer causes
one transport read, into `p` itself when `p` is at least as large as the
buffer. -/
def Reader.Read (b : Reader) (c : Conn) (k : Nat) : Reader × Conn × List Byte × Option Error :=
  if k = 0 then (b, c, [], none)
  else if b.buf.length = 0 then
    if k ≥ defaultBufSize then
      match c.Read k with
      | (c1, bytes, err) => (b, c1, bytes, err)
    else
      match c.Read defaultBufSize with
      | (c1, bytes, err) =>
        if bytes.length = 0 then (b, c1, [], err)
        else ({ buf := bytes.drop k }, c1, bytes.take k, none)
  else ({ buf := b.buf.drop k }, c, b.buf.take k, none)

/-- The loop and tail of `io.ReadAtLeast(r, buf, min)` for `min = len(buf)`, which
is `io.ReadFull`: `need` is `min - n`, `acc` the bytes stored in `buf` so far.
The result carries the bytes stored and the error. -/
def readFullLoop (b : Reader) (c : Conn) (need : Nat) (acc : List Byte) :
    Reader × Conn × List Byte × Option Error :=
  if hneed : need = 0 then (b, c, acc, none)
  else
    match hr : b.Read c need with
    | (b1, c1, bytes, some e) =>
      if bytes.length ≥ need then (b1, c1, acc ++ bytes, none)
      else if (acc ++ bytes).length > 0 ∧ e = Error.EOF then
        (b1, c1, acc ++ bytes, some Error.ErrUnexpectedEOF)
      else (b1, c1, acc ++ bytes, some e)
    | (b1, c1, bytes, none) => readFullLoop b1 c1 (need - bytes.length) (acc ++ bytes)
termination_by need + c.incoming.length
decreasing_by
  simp_wf
  have key : ∀ cap, 0 < cap → (c.Read cap).2.2 = none →
      (c.Read cap).1.incoming.length ≤ c.incoming.length ∧ (c.Read cap).2.1.length ≤ cap ∧
      ((c.Read cap).2.1.length = 0 → (c.Read cap).1.incoming.length < c.incoming.length) := by
    intro cap hcap
    unfold Conn.Read
    split
    · simp
    · split
      · simp
      · rename_i t bs rest hinc
        split
        · intro _
          refine ⟨?_, ?_, ?_⟩
          · simp only [hinc]; split <;> simp
          · simp
          · intro h0
            have hc0 : ¬ (cap = 0) := by omega
            simp [hc0] at h0
            simp [h0, hinc]
        · simp
      · simp
      · simp
  unfold Reader.Read at hr
  simp only [hneed, if_false] at hr
  split at hr
  · split at hr
    · simp only [Prod.mk.injEq] at hr
      obtain ⟨_, h2, h3, h4⟩ := hr
      have := key need (by omega) h4
      rw [h2, h3] at this
      omega
    · split at hr
      · rename_i h0
        simp only [Prod.mk.injEq] at hr
        obtain ⟨_, h2, h3, h4⟩ := hr
        have := key defaultBufSize (by decide) h4
        rw [h2] at this
        subst h3
        have := this.2.2 h0
        simp
        omega
      · rename_i h0
        simp only [Prod.mk.injEq] at hr
        obtain ⟨_, h2, h3, _⟩ := hr
        cases hq : (c.Read defaultBufSize).2.2 with
        | none =>
          have := key defaultBufSize (by decide) hq
          rw [h2] at this
          subst h3
          simp
          omega
        | some e =>
          exfalso
          apply h0
          revert hq
          unfold Conn.Read
          split
          · simp
          · split
            · simp
            · split <;> simp
            · simp
            · simp
  · rename_i hne
    simp only [Prod.mk.injEq] at hr
    obtain ⟨_, h2, h3, _⟩ := hr
    subst h2 h3
    simp
    omega

/-- The function `io.ReadFull(r, buf)` with `len(buf) = k`. -/
def ReadFull (b : Reader) (c : Conn) (k : Nat) : Reader × Conn × List Byte × Option Error :=
  readFullLoop b c k []

/-- A `bufio.ReadWriter`: a reader and a writer over the same transport. -/
structure ReadWriter where
  Reader : Objectserver.Reader
  Writer : Objectserver.Writer
deriving DecidableEq, Repr

/-! ## `encoding/binary` and `encoding/json` -/

/-- The method `binary.BigEndian.PutUint32`, as used by `binary.Write` for a
`uint32`; each `byte(v >> s)` keeps the low eight bits. -/
def PutUint32 (v : Nat) : List Byte :=
  [Fin.ofNat (v / 2 ^ 24), Fin.ofNat (v / 2 ^ 16), Fin.ofNat (v / 2 ^ 8), Fin.ofNat v]

/-- The method `binary.BigEndian.Uint32`, as used by `binary.Read` for a `*uint32`,
on the four bytes read. -/
def Uint32 (bs : List Byte) : Nat :=
  (bs.getD 3 0).val + (bs.getD 2 0).val * 2 ^ 8 + (bs.getD 1 0).val * 2 ^ 16 +
    (bs.getD 0 0).val * 2 ^ 24

/-- What `encoding/json` does at one Go type: `Marshal v` is `json.Marshal(v)`,
and `Unmarshal data d` is `json.Unmarshal(data, &d)`, giving the destination as
the call leaves it (a failing call may have stored part of the input) and the
error. -/
class GoJSON (α : Type) where
  Marshal : α → Except Error (List Byte)
  Unmarshal : List Byte → α → α × Option Error

/-! ## The connection -/

/-- The type `RepConn`: the buffered reader and writer, the transport and the
liveness flag. -/
structure RepConn where
  rw : ReadWriter
  c : Conn
  Disconnected : Bool
deriving DecidableEq, Repr

/-- The method `Close`: set the flag, close the transport. -/
def RepConn.Close (r : RepConn) : RepConn :=
  { r with Disconnected := true, c := r.c.Close }

/-- The call `r.rw.Write(p)` on the embedded writer. -/
def RepConn.rwWrite (r : RepConn) (p : List Byte) : RepConn × Nat × Option Error :=
  match r.rw.Writer.Write r.c p with
  | (w, c1, n, err) => ({ r with rw := { r.rw with Writer := w }, c := c1 }, n, err)

/-- The call `r.rw.Flush()` on the embedded writer. -/
def RepConn.rwFlush (r : RepConn) : RepConn × Option Error :=
  match r.rw.Writer.Flush r.c with
  | (w, c1, err) => ({ r with rw := { r.rw with Writer := w }, c := c1 }, err)

/-- The call `io.ReadFull(r.rw, data)` with `len(data) = k` on the embedded reader. -/
def RepConn.rwReadFull (r : RepConn) (k : Nat) : RepConn × List Byte × Option Error :=
  match ReadFull r.rw.Reader r.c k with
  | (b, c1, bytes, err) => ({ r with rw := { r.rw with Reader := b }, c := c1 }, bytes, err)

/-- The method `SendMessage`, called at time `now`. -/
def RepConn.SendMessage {α : Type} [GoJSON α] (r : RepConn) (now : Nat) (v : α) :
    RepConn × Option Error :=
  let r0 := { r with c := r.c.SetDeadline (now + repOTimeout) }
  match GoJSON.Marshal v with
  | Except.error e => (r0.Close, some e)
  | Except.ok jsoned =>
    match r0.rwWrite (PutUint32 (jsoned.length % 2 ^ 32)) with
    | (r1, _, some e) => (r1.Close, some e)
    | (r1, _, none) =>
      match r1.rwWrite jsoned with
      | (r2, _, some e) => (r2.Close, some e)
      | (r2, _, none) =>
        match r2.rwFlush with
        | (r3, some e) => (r3.Close, some e)
        | (r3, none) => (r3, none)

/-- The method `RecvMessage`, called at time `now` with the destination `v`: the
connection, the destination as the call leaves it, and the error. -/
def RepConn.RecvMessage {α : Type} [GoJSON α] (r : RepConn) (now : Nat) (v : α) :
    RepConn × α × Option Error :=
  let r0 := { r with c := r.c.SetDeadline (now + repITimeout) }
  match r0.rwReadFull 4 with
  | (r1, _, some e) => (r1.Close, v, some e)
  | (r1, bs, none) =>
    match r1.rwReadFull (Uint32 bs) with
    | (r2, _, some e) => (r2.Close, v, some e)
    | (r2, data, none) =>
      match GoJSON.Unmarshal data v with
      | (v1, some e) => (r2.Close, v1, some e)
      | (v1, none) => (r2, v1, none)

/-- The method `Write`, called at time `now`: bytes accepted and error. -/
def RepConn.Write (r : RepConn) (now : Nat) (data : List Byte) : RepConn × Nat × Option Error :=
  let r0 := { r with c := r.c.SetDeadline (now + repOTimeout) }
  match r0.rwWrite data with
  | (r1, l, some e) => (r1.Close, l, some e)
  | (r1, l, none) => (r1, l, none)

/-- The method `Flush`, called at time `now`. -/
def RepConn.Flush (r : RepConn) (now : Nat) : RepConn × Option Error :=
  let r0 := { r with c := r.c.SetDeadline (now + repOTimeout) }
  match r0.rwFlush with
  | (r1, some e) => (r1.Close, some e)
  | (r1, none) => (r1, none)

/-- The method `Read`, called at time `now` with `len(data) = k`: the bytes stored
in `data` (their number is the count `l` returned) and the error. -/
def RepConn.Read (r : RepConn) (now : Nat) (k : Nat) : RepConn × List Byte × Option Error :=
  let r0 := { r with c := r.c.SetDeadline (now + repITimeout) }
  match r0.rwReadFull k with
  | (r1, bytes, some e) => (r1.Close, bytes, some e)
  | (r1, bytes, none) => (r1, bytes, none)

/-! ## Establishment -/

/-- The world `NewRepConn` talks to.
* `NewRequest url`: the host of the parsed URL, as `http.NewRequest` leaves it in
  `req.URL.Host`, or its error;
* `repDialer host`: the package variable `repDialer`, giving a transport or an
  error;
* `Do url c`: the exchange `hc.Do(req)` over the transport `c`: the transport
  afterwards and the reply status or the error;
* `Do_closed`: a `httputil.ClientConn` reads and writes its transport and never
  closes it. -/
structure Network where
  NewRequest : String → Except Error String
  repDialer : String → Except Error Conn
  Do : String → Conn → Conn × Except Error Int
  Do_closed : ∀ url c, (Do url c).1.closed = c.closed

/-- What a call of `NewRepConn` leaves behind: the two results, and the transport
the dialer opened (if it got that far) in the state it is left in. -/
structure Established where
  conn : Option RepConn
  err : Option Error
  transport : Option Conn

/-- The URL `fmt.Sprintf("http://%s:%d/%s/%s", ip, port, device, partition)`. -/
def repURL (ip : String) (port : Int) (device partition : String) : String :=
  "http://" ++ ip ++ ":" ++ toString port ++ "/" ++ device ++ "/" ++ partition

/-- The function `NewRepConn`.  The status test is Go's `resp.StatusCode/100 != 2`
on an `int`, a division that truncates towards zero. -/
def NewRepConn (net : Network) (ip : String) (port : Int) (device partition : String) :
    Established :=
  match net.NewRequest (repURL ip port device partition) with
  | Except.error e => { conn := none, err := some e, transport := none }
  | Except.ok host =>
    match net.repDialer host with
    | Except.error e => { conn := none, err := some e, transport := none }
    | Except.ok conn =>
      match net.Do (repURL ip port device partition) conn with
      | (conn1, Except.error e) => { conn := none, err := some e, transport := some conn1 }
      | (conn1, Except.ok status) =>
        if Int.tdiv status 100 ≠ 2 then
          { conn := none, err := some Error.RepUnmountedError, transport := some conn1 }
        else
          { conn := some { rw := { Reader := { buf := [] }, Writer := { buf := [], err := none } },
                           c := conn1, Disconnected := false },
            err := none, transport := some conn1 }

/-! ## Auxiliary notions used in the statements -/

/-- The bytes a sequence of reads under deadline `d` can obtain from the items
`inc`: those of the leading segments that arrive before `d`, up to the first
item that is late or is not a segment. -/
def availAt (d : Option Nat) : List InEvent → List Byte
  | InEvent.data t bytes :: rest =>
    if beforeDeadline t d then bytes ++ availAt d rest else []
  | _ => []

/-- The bytes a connection can still obtain under its present deadline: the
unread part of the reader's buffer, then what the transport yields (nothing
once it is closed). -/
def RepConn.unread (r : RepConn) : List Byte :=
  r.rw.Reader.buf ++ (if r.c.closed then [] else availAt r.c.deadline r.c.incoming)

/-- The incoming stream of a connection, deadlines aside: the unread part of the
reader's buffer followed by the bytes of all leading segments. -/
def RepConn.stream (r : RepConn) : List Byte :=
  r.rw.Reader.buf ++ availAt none r.c.incoming

/-- The list `l2` extends `l1` by events that all satisfy `P`. -/
def LogExt (P : Event → Prop) (l1 l2 : List Event) : Prop :=
  ∃ evs, l2 = l1 ++ evs ∧ ∀ e ∈ evs, P e

/-- A transport write issued under deadline `d`. -/
def Event.isWriteUnder (d : Option Nat) (e : Event) : Prop :=
  ∃ n, e = Event.write d n

/-- A transport read issued under deadline `d`. -/
def Event.isReadUnder (d : Option Nat) (e : Event) : Prop :=
  ∃ n, e = Event.read d n

/-- The frame `SendMessage` puts on the wire for an encoded payload. -/
def frame (jsoned : List Byte) : List Byte :=
  PutUint32 (jsoned.length % 2 ^ 32) ++ jsoned

/-- The deadline `d2` is no earlier than `d1`. -/
def dle (d1 d2 : Option Nat) : Prop :=
  ∀ t, beforeDeadline t d1 = true → beforeDeadline t d2 = true

/-- The bytes obtainable from the items `inc` under deadline `d` on a transport
whose closed flag is `cl`. -/
def availC (cl : Bool) (d : Option Nat) (inc : List InEvent) : List Byte :=
  if cl then [] else availAt d inc

/-- The view `(cl, d)` is one of those the reads of `c` respect: the transport
closed as it is, or open under a deadline no earlier than that of `c`. -/
def Sees (c : Conn) (cl : Bool) (d : Option Nat) : Prop :=
  (cl = false ∧ dle c.deadline d) ∨ (cl = true ∧ c.closed = true)

/-- The bytes a call running under deadline `d` can obtain from the connection:
the unread part of the reader's buffer, then what the transport yields. -/
def RepConn.readable (r : RepConn) (d : Option Nat) : List Byte :=
  r.rw.Reader.buf ++ availC r.c.closed d r.c.incoming

/-- The connection `r1` is `r` after some transport calls that all satisfy `P`:
the flag, the transport's closed state and its deadline are those of `r`. -/
def RepConn.Step (P : Event → Prop) (r r1 : RepConn) : Prop :=
  r1.Disconnected = r.Disconnected ∧ r1.c.closed = r.c.closed ∧
  r1.c.deadline = r.c.deadline ∧ LogExt P r.c.log r1.c.log

/-- The connection with the transport deadline set to `t`: the first thing each
operation does. -/
def RepConn.setDeadline (r : RepConn) (t : Nat) : RepConn :=
  { r with c := r.c.SetDeadline t }

/-- The fail-fast outcome of an operation that took `r` to `r1` and returned `err`:
the flag is set and the transport closed exactly when an error was returned;
a call without error leaves the flag clear and the transport as it was; so a
call without error on an open transport leaves the transport open. -/
def FailFast (r r1 : RepConn) (err : Option Error) : Prop :=
  ((r1.Disconnected = true ∧ r1.c.closed = true) ↔ err ≠ none) ∧
  (err = none → r1.Disconnected = false ∧ r1.c.closed = r.c.closed) ∧
  (err = none → r.c.closed = false → r1.Disconnected = false ∧ r1.c.closed = false)

/-- The transport log `c1.log` is `c.log` followed by one `SetDeadline(t)` and
then only I/O calls of the kind `io`, each issued under deadline `t`, and
possibly the closing of the transport. -/
def DeadlineFirst (io : Option Nat → Event → Prop) (t : Nat) (c c1 : Conn) : Prop :=
  ∃ evs, c1.log = c.log ++ Event.setDeadline t :: evs ∧
    ∀ e ∈ evs, io (some t) e ∨ e = Event.close

/-! ## `unicode/utf8` and `strconv` -/

/-- A Go `string`: a sequence of bytes, not necessarily valid UTF-8. -/
abbrev GoString := List Byte

/-- The bytes of an ASCII literal. -/
def ascii (s : String) : List Byte := s.toList.map (fun ch => Fin.ofNat ch.toNat)

/-- The rune `utf8.RuneError`, U+FFFD. -/
def RuneError : Nat := 0xFFFD

/-- The tables `first` and `acceptRanges` of `unicode/utf8` for a lead byte above
ASCII: the length of the sequence and the range the second byte must lie in,
or `none` for a byte that cannot start a sequence. -/
def leadInfo (b : Nat) : Option (Nat × Nat × Nat) :=
  if 0xC2 ≤ b ∧ b ≤ 0xDF then some (2, 0x80, 0xBF)
  else if b = 0xE0 then some (3, 0xA0, 0xBF)
  else if 0xE1 ≤ b ∧ b ≤ 0xEC then some (3, 0x80, 0xBF)
  else if b = 0xED then some (3, 0x80, 0x9F)
  else if 0xEE ≤ b ∧ b ≤ 0xEF then some (3, 0x80, 0xBF)
  else if b = 0xF0 then some (4, 0x90, 0xBF)
  else if 0xF1 ≤ b ∧ b ≤ 0xF3 then some (4, 0x80, 0xBF)
  else if b = 0xF4 then some (4, 0x80, 0x8F)
  else none

/-- A continuation byte, `0x80 .. 0xBF`. -/
def isCont (b : Byte) : Bool := decide (0x80 ≤ b.val ∧ b.val ≤ 0xBF)

/-- The function `utf8.DecodeRune`: the rune and its width in bytes; an invalid or
truncated sequence gives `(RuneError, 1)`, the empty input `(RuneError, 0)`. -/
def DecodeRune : List Byte → Nat × Nat
  | [] => (RuneError, 0)
  | p0 :: rest =>
    if p0.val < 0x80 then (p0.val, 1)
    else
      match leadInfo p0.val with
      | none => (RuneError, 1)
      | some (sz, lo, hi) =>
        if rest.length + 1 < sz then (RuneError, 1)
        else
          match rest with
          | [] => (RuneError, 1)
          | b1 :: rest1 =>
            if b1.val < lo ∨ hi < b1.val then (RuneError, 1)
            else if sz ≤ 2 then (p0.val % 32 * 64 + b1.val % 64, 2)
            else
              match rest1 with
              | [] => (RuneError, 1)
              | b2 :: rest2 =>
                if !isCont b2 then (RuneError, 1)
                else if sz ≤ 3 then
                  (p0.val % 16 * 4096 + b1.val % 64 * 64 + b2.val % 64, 3)
                else
                  match rest2 with
                  | [] => (RuneError, 1)
                  | b3 :: _ =>
                    if !isCont b3 then (RuneError, 1)
                    else
                      (p0.val % 8 * 262144 + b1.val % 64 * 4096 + b2.val % 64 * 64
                        + b3.val % 64, 4)

/-- The function `utf8.EncodeRune` (`utf8.AppendRune`): surrogates and values
above U+10FFFF are written as U+FFFD. -/
def EncodeRune (r : Nat) : List Byte :=
  if r ≤ 0x7F then [Fin.ofNat r]
  else if r ≤ 0x7FF then [Fin.ofNat (0xC0 + r / 64), Fin.ofNat (0x80 + r % 64)]
  else if r > 0x10FFFF ∨ (0xD800 ≤ r ∧ r ≤ 0xDFFF) then [0xEF, 0xBF, 0xBD]
  else if r ≤ 0xFFFF then
    [Fin.ofNat (0xE0 + r / 4096), Fin.ofNat (0x80 + r / 64 % 64), Fin.ofNat (0x80 + r % 64)]
  else
    [Fin.ofNat (0xF0 + r / 262144), Fin.ofNat (0x80 + r / 4096 % 64),
      Fin.ofNat (0x80 + r / 64 % 64), Fin.ofNat (0x80 + r % 64)]

/-- Whether a string is valid UTF-8 (`utf8.Valid`): no position at which a rune
starts decodes to an error of width 1.  `skip` bytes of the input belong to
the rune before. -/
def validFrom : Nat → List Byte → Bool
  | _, [] => true
  | k + 1, _ :: rest => validFrom k rest
  | 0, b :: rest =>
    match DecodeRune (b :: rest) with
    | (c, size) => !(c = RuneError ∧ size = 1) && validFrom (size - 1) rest

/-- The function `utf8.Valid`. -/
def validUTF8 (s : List Byte) : Bool := validFrom 0 s

/-- The decimal digits of `n`, most significant first, before `acc`; `fuel`
bounds the number of digits. -/
def digitsAux : Nat → Nat → List Byte → List Byte
  | 0, _, acc => acc
  | fuel + 1, n, acc =>
    if n < 10 then Fin.ofNat (48 + n) :: acc
    else digitsAux fuel (n / 10) (Fin.ofNat (48 + n % 10) :: acc)

/-- The decimal form of a natural number. -/
def formatNat (n : Nat) : List Byte := digitsAux (n + 1) n []

/-- The function `strconv.AppendInt(dst, i, 10)`. -/
def FormatInt (i : Int) : List Byte :=
  if i < 0 then 0x2D :: formatNat (-i).toNat else formatNat i.toNat

/-- The value of a string of decimal digits read after the value `acc`; `none`
when a byte is not a digit. -/
def parseDigits : Nat → List Byte → Option Nat
  | acc, [] => some acc
  | acc, d :: rest =>
    if 48 ≤ d.val ∧ d.val ≤ 57 then parseDigits (acc * 10 + (d.val - 48)) rest else none

/-- The value of a non-empty string of decimal digits. -/
def parseNat : List Byte → Option Nat
  | [] => none
  | ds => parseDigits 0 ds

/-- The function `strconv.ParseInt(s, 10, 64)`: an optional sign and decimal
digits, within the range of an `int64`. -/
def ParseInt (s : List Byte) : Option Int :=
  match s with
  | [] => none
  | c :: ds =>
    if c.val = 0x2D then
      match parseNat ds with
      | some n => if n ≤ 2 ^ 63 then some (-(n : Int)) else none
      | none => none
    else if c.val = 0x2B then
      match parseNat ds with
      | some n => if n < 2 ^ 63 then some (n : Int) else none
      | none => none
    else
      match parseNat (c :: ds) with
      | some n => if n < 2 ^ 63 then some (n : Int) else none
      | none => none

/-! ## `encoding/json`: encoding -/

/-- The digit `"0123456789abcdef"[n]`. -/
def hexDigit (n : Nat) : Byte := if n < 10 then Fin.ofNat (48 + n) else Fin.ofNat (87 + n)

/-- The table `htmlSafeSet`: the ASCII bytes a string carries unescaped. -/
def htmlSafe (b : Nat) : Bool :=
  decide (0x20 ≤ b ∧ b < 0x80 ∧ b ≠ 0x22 ∧ b ≠ 0x26 ∧ b ≠ 0x3C ∧ b ≠ 0x3E ∧ b ≠ 0x5C)

/-- The escape `appendString` writes for an ASCII byte outside `htmlSafeSet`. -/
def escapeByte (b : Byte) : List Byte :=
  if b.val = 0x5C ∨ b.val = 0x22 then [0x5C, b]
  else if b.val = 0x08 then [0x5C, 0x62]
  else if b.val = 0x0C then [0x5C, 0x66]
  else if b.val = 0x0A then [0x5C, 0x6E]
  else if b.val = 0x0D then [0x5C, 0x72]
  else if b.val = 0x09 then [0x5C, 0x74]
  else [0x5C, 0x75, 0x30, 0x30, hexDigit (b.val / 16), hexDigit (b.val % 16)]

/-- A loop that walks a string rune by rune: `step` looks at the rest of the
input and gives the bytes to emit and the number of input bytes it has used.
`skip` bytes of the input belong to the step before. -/
def chunked (step : List Byte → List Byte × Nat) : Nat → List Byte → List Byte
  | _, [] => []
  | k + 1, _ :: rest => chunked step k rest
  | 0, b :: rest => (step (b :: rest)).1 ++ chunked step ((step (b :: rest)).2 - 1) rest

/-- One turn of the loop of `appendString` (with `escapeHTML` set) on the rest of
the source: an ASCII byte is copied or escaped; an invalid byte is written as
`\ufffd`; U+2028 and U+2029 are escaped; every other rune is copied. -/
def escapeStep : List Byte → List Byte × Nat
  | [] => ([], 0)
  | b :: rest =>
    if b.val < 0x80 then
      (if htmlSafe b.val then [b] else escapeByte b, 1)
    else
      match DecodeRune ((b :: rest).take 4) with
      | (c, size) =>
        if c = RuneError ∧ size = 1 then ([0x5C, 0x75, 0x66, 0x66, 0x66, 0x64], 1)
        else if c = 0x2028 ∨ c = 0x2029 then
          ([0x5C, 0x75, 0x32, 0x30, 0x32, hexDigit (c % 16)], size)
        else ((b :: rest).take size, size)

/-- The text `appendString` puts between the quotes. -/
def escape (s : GoString) : List Byte := chunked escapeStep 0 s

/-- The function `appendString`: a JSON string literal for a Go string. -/
def appendString (s : GoString) : List Byte := 0x22 :: escape s ++ [0x22]

/-- The order `strings.Compare(a, b) <= 0`: bytewise lexicographic. -/
def bytesLE : List Byte → List Byte → Bool
  | [], _ => true
  | _ :: _, [] => false
  | a :: as, b :: bs => if a.val < b.val then true else if b.val < a.val then false else bytesLE as bs

/-- A Go `map[string]string`: `none` is the nil map; in the list of bindings the
first binding of a key is the one that counts. -/
abbrev StringMap := Option (List (GoString × GoString))

/-- The lookup `m[k]` with its presence flag. -/
def StringMap.get? (m : StringMap) (k : GoString) : Option GoString :=
  match m with
  | none => none
  | some l => (l.find? (fun e => e.1 = k)).map (fun e => e.2)

/-- The bindings of a map, each key once. -/
def dedupKeys : List (GoString × GoString) → List (GoString × GoString)
  | [] => []
  | e :: rest => e :: (dedupKeys rest).filter (fun x => x.1 ≠ e.1)

/-- Insertion into a list of bindings sorted by key. -/
def insertSorted (e : GoString × GoString) : List (GoString × GoString) → List (GoString × GoString)
  | [] => [e]
  | x :: rest => if bytesLE e.1 x.1 then e :: x :: rest else x :: insertSorted e rest

/-- The bindings sorted by key, as the map encoder emits them. -/
def sortByKey : List (GoString × GoString) → List (GoString × GoString)
  | [] => []
  | e :: rest => insertSorted e (sortByKey rest)

/-- The values of the fields of the message schemas. -/
inductive Value
  | string (s : GoString)
  | bool (b : Bool)
  | int64 (i : Int)
  | stringMap (m : StringMap)
deriving DecidableEq, Repr

/-- The kinds of field the message schemas use. -/
inductive Kind
  | string | bool | int64 | stringMap
deriving DecidableEq, Repr

/-- The kind of a value. -/
def Value.kind : Value → Kind
  | .string _ => Kind.string
  | .bool _ => Kind.bool
  | .int64 _ => Kind.int64
  | .stringMap _ => Kind.stringMap

/-- A struct field as `encoding/json` sees it. -/
structure Field where
  name : GoString
  kind : Kind
deriving DecidableEq, Repr

/-- The members of an object, joined by commas. -/
def joinMembers : List (List Byte) → List Byte
  | [] => []
  | [m] => m
  | m :: rest => m ++ 0x2C :: joinMembers rest

/-- The encoding of one binding of a map. -/
def encodeBinding (e : GoString × GoString) : List Byte :=
  appendString e.1 ++ 0x3A :: appendString e.2

/-- The encoding of a field value: `true`/`false`, a decimal integer, a string
literal, `null` for a nil map, an object with sorted keys for a map. -/
def encodeValue : Value → List Byte
  | .string s => appendString s
  | .bool b => if b then [0x74, 0x72, 0x75, 0x65] else [0x66, 0x61, 0x6C, 0x73, 0x65]
  | .int64 i => FormatInt i
  | .stringMap none => [0x6E, 0x75, 0x6C, 0x6C]
  | .stringMap (some l) =>
    0x7B :: joinMembers ((sortByKey (dedupKeys l)).map encodeBinding) ++ [0x7D]

/-- The encoding of one struct field. -/
def encodeField (f : Field) (v : Value) : List Byte :=
  appendString f.name ++ 0x3A :: encodeValue v

/-- The encoding of a struct: its fields in declaration order. -/
def encodeStruct (fields : List Field) (vals : List Value) : List Byte :=
  0x7B :: joinMembers (List.zipWith encodeField fields vals) ++ [0x7D]

/-! ## `encoding/json`: decoding -/

/-- The tokens of a JSON text. -/
inductive Token
  | lbrace | rbrace | lbrack | rbrack | colon | comma
  /-- A string literal: the text between the quotes, escapes unresolved. -/
  | str (raw : List Byte)
  /-- A number literal. -/
  | num (lit : List Byte)
  | litTrue | litFalse | litNull
deriving DecidableEq, Repr

/-- The states of the scanner inside a number (`stateNeg`, `state0`, `state1`,
`stateDot`, `stateDot0`, `stateE`, `stateESign`, `stateE0`). -/
inductive NumState
  | neg | zero | int | dot | frac | e | esign | exp
deriving DecidableEq, Repr

/-- The states of the scanner: between tokens, inside a string (plain, after a
backslash, inside `\uXXXX` with `due` digits to come), inside a number, inside
one of the literals `true`, `false`, `null`. -/
inductive Mode
  | value
  | inString (raw : List Byte)
  | inStringEsc (raw : List Byte)
  | inStringEscU (raw : List Byte) (due : Nat)
  | inNumber (st : NumState) (lit : List Byte)
  | inLiteral (tok : Token) (due : List Byte)
deriving DecidableEq, Repr

/-- A decimal digit. -/
def isDigit (b : Byte) : Bool := decide (48 ≤ b.val ∧ b.val ≤ 57)

/-- A hexadecimal digit, either case. -/
def isHex (b : Byte) : Bool :=
  isDigit b || decide (97 ≤ b.val ∧ b.val ≤ 102) || decide (65 ≤ b.val ∧ b.val ≤ 70)

/-- JSON white space: space, tab, carriage return, line feed. -/
def isSpace (b : Byte) : Bool :=
  decide (b.val = 0x20 ∨ b.val = 0x09 ∨ b.val = 0x0D ∨ b.val = 0x0A)

/-- What a byte between tokens does: the tokens it completes and the state it
leaves the scanner in; `none` for a byte that cannot start a token. -/
def beginToken (b : Byte) : Option (List Token × Mode) :=
  if isSpace b then some ([], Mode.value)
  else if b.val = 0x7B then some ([Token.lbrace], Mode.value)
  else if b.val = 0x7D then some ([Token.rbrace], Mode.value)
  else if b.val = 0x5B then some ([Token.lbrack], Mode.value)
  else if b.val = 0x5D then some ([Token.rbrack], Mode.value)
  else if b.val = 0x3A then some ([Token.colon], Mode.value)
  else if b.val = 0x2C then some ([Token.comma], Mode.value)
  else if b.val = 0x22 then some ([], Mode.inString [])
  else if b.val = 0x2D then some ([], Mode.inNumber NumState.neg [b])
  else if b.val = 0x30 then some ([], Mode.inNumber NumState.zero [b])
  else if isDigit b then some ([], Mode.inNumber NumState.int [b])
  else if b.val = 0x74 then some ([], Mode.inLiteral Token.litTrue [0x72, 0x75, 0x65])
  else if b.val = 0x66 then some ([], Mode.inLiteral Token.litFalse [0x61, 0x6C, 0x73, 0x65])
  else if b.val = 0x6E then some ([], Mode.inLiteral Token.litNull [0x75, 0x6C, 0x6C])
  else none

/-- The step of the scanner inside a number; `none` when the byte does not
continue the number. -/
def numStep (st : NumState) (b : Byte) : Option NumState :=
  match st with
  | .neg => if b.val = 0x30 then some .zero else if isDigit b then some .int else none
  | .zero =>
    if b.val = 0x2E then some .dot else if b.val = 0x65 ∨ b.val = 0x45 then some .e else none
  | .int =>
    if isDigit b then some .int else if b.val = 0x2E then some .dot
    else if b.val = 0x65 ∨ b.val = 0x45 then some .e else none
  | .dot => if isDigit b then some .frac else none
  | .frac =>
    if isDigit b then some .frac else if b.val = 0x65 ∨ b.val = 0x45 then some .e else none
  | .e => if b.val = 0x2B ∨ b.val = 0x2D then some .esign else if isDigit b then some .exp else none
  | .esign => if isDigit b then some .exp else none
  | .exp => if isDigit b then some .exp else none

/-- The states in which a number may end. -/
def numFinal : NumState → Bool
  | .zero | .int | .frac | .exp => true
  | _ => false

/-- The byte after a backslash that completes a two-byte escape. -/
def isSimpleEscape (b : Byte) : Bool :=
  decide (b.val = 0x62 ∨ b.val = 0x66 ∨ b.val = 0x6E ∨ b.val = 0x72 ∨ b.val = 0x74 ∨
    b.val = 0x5C ∨ b.val = 0x2F ∨ b.val = 0x22)

/-- The lexical part of the scanner of `encoding/json`: the tokens of a text, or
`none` where the scanner reports a syntax error inside a token. -/
def lex : Mode → List Byte → Option (List Token)
  | Mode.value, [] => some []
  | Mode.inNumber st lit, [] => if numFinal st then some [Token.num lit] else none
  | _, [] => none
  | Mode.value, b :: rest =>
    match beginToken b with
    | none => none
    | some (toks, m) => (lex m rest).map (fun ts => toks ++ ts)
  | Mode.inString raw, b :: rest =>
    if b.val = 0x22 then (lex Mode.value rest).map (fun ts => Token.str raw :: ts)
    else if b.val = 0x5C then lex (Mode.inStringEsc (raw ++ [b])) rest
    else if b.val < 0x20 then none
    else lex (Mode.inString (raw ++ [b])) rest
  | Mode.inStringEsc raw, b :: rest =>
    if isSimpleEscape b then lex (Mode.inString (raw ++ [b])) rest
    else if b.val = 0x75 then lex (Mode.inStringEscU (raw ++ [b]) 4) rest
    else none
  | Mode.inStringEscU raw due, b :: rest =>
    if isHex b then
      (if due ≤ 1 then lex (Mode.inString (raw ++ [b])) rest
       else lex (Mode.inStringEscU (raw ++ [b]) (due - 1)) rest)
    else none
  | Mode.inNumber st lit, b :: rest =>
    match numStep st b with
    | some st1 => lex (Mode.inNumber st1 (lit ++ [b])) rest
    | none =>
      if numFinal st then
        match beginToken b with
        | none => none
        | some (toks, m) => (lex m rest).map (fun ts => Token.num lit :: toks ++ ts)
      else none
  | Mode.inLiteral tok due, b :: rest =>
    match due with
    | [] => none
    | d :: due1 =>
      if b = d then
        (if due1 = [] then (lex Mode.value rest).map (fun ts => tok :: ts)
         else lex (Mode.inLiteral tok due1) rest)
      else none

/-- The entries of the scanner's `parseState` stack. -/
inductive Frame
  | object | array
deriving DecidableEq, Repr

/-- What the scanner expects next. -/
inductive Expect
  | value | valueOrEnd | keyOrEnd | key | colon | endValue
deriving DecidableEq, Repr

/-- The nesting limit `maxNestingDepth` of the scanner. -/
def maxNestingDepth : Nat := 10000

/-- A token that is a value by itself. -/
def Token.isScalar : Token → Bool
  | .str _ | .num _ | .litTrue | .litFalse | .litNull => true
  | _ => false

/-- The structural part of the scanner: whether the tokens form exactly one JSON
value, nested no deeper than `maxNestingDepth`. -/
def wellFormed : Expect → List Frame → List Token → Bool
  | Expect.endValue, [], [] => true
  | _, _, [] => false
  | ex, stack, tok :: rest =>
    match ex with
    | Expect.value | Expect.valueOrEnd =>
      if tok.isScalar then wellFormed Expect.endValue stack rest
      else if tok = Token.lbrace then
        decide (stack.length < maxNestingDepth) &&
          wellFormed Expect.keyOrEnd (Frame.object :: stack) rest
      else if tok = Token.lbrack then
        decide (stack.length < maxNestingDepth) &&
          wellFormed Expect.valueOrEnd (Frame.array :: stack) rest
      else if tok = Token.rbrack ∧ ex = Expect.valueOrEnd then
        match stack with
        | Frame.array :: s => wellFormed Expect.endValue s rest
        | _ => false
      else false
    | Expect.keyOrEnd | Expect.key =>
      match tok with
      | Token.str _ => wellFormed Expect.colon stack rest
      | Token.rbrace =>
        if ex = Expect.keyOrEnd then
          match stack with
          | Frame.object :: s => wellFormed Expect.endValue s rest
          | _ => false
        else false
      | _ => false
    | Expect.colon =>
      if tok = Token.colon then wellFormed Expect.value stack rest else false
    | Expect.endValue =>
      match stack, tok with
      | Frame.object :: _, Token.comma => wellFormed Expect.key stack rest
      | Frame.array :: _, Token.comma => wellFormed Expect.value stack rest
      | Frame.object :: s, Token.rbrace => wellFormed Expect.endValue s rest
      | Frame.array :: s, Token.rbrack => wellFormed Expect.endValue s rest
      | _, _ => false

/-- The function `checkValid`: the tokens of a text that is one JSON value, or
`none` for a syntax error. -/
def checkValid (data : List Byte) : Option (List Token) :=
  match lex Mode.value data with
  | none => none
  | some toks => if wellFormed Expect.value [] toks then some toks else none

/-- The value of a hexadecimal digit. -/
def hexVal (b : Byte) : Nat :=
  if isDigit b then b.val - 48
  else if 97 ≤ b.val ∧ b.val ≤ 102 then b.val - 87
  else b.val - 55

/-- The function `getu4` on the four digits after `\u`. -/
def getu4 (h1 h2 h3 h4 : Byte) : Nat :=
  hexVal h1 * 4096 + hexVal h2 * 256 + hexVal h3 * 16 + hexVal h4

/-- The byte a two-byte escape stands for. -/
def simpleEscape (c : Byte) : Byte :=
  if c.val = 0x62 then 0x08
  else if c.val = 0x66 then 0x0C
  else if c.val = 0x6E then 0x0A
  else if c.val = 0x72 then 0x0D
  else if c.val = 0x74 then 0x09
  else c

/-- One turn of the loop of `unquoteBytes` on the rest of the text between the
quotes of a string literal the scanner has accepted: an escape is resolved, a
UTF-16 surrogate pair written as two `\u` escapes gives one rune, a lone
surrogate and a byte that is not valid UTF-8 give U+FFFD.  (A truncated escape
cannot occur in a literal the scanner has accepted; it ends the walk.) -/
def unquoteStep : List Byte → List Byte × Nat
  | [] => ([], 0)
  | b :: rest =>
    if b.val = 0x5C then
      match rest with
      | [] => ([], 1)
      | c :: rest1 =>
        if c.val = 0x75 then
          match rest1 with
          | h1 :: h2 :: h3 :: h4 :: rest2 =>
            if 0xD800 ≤ getu4 h1 h2 h3 h4 ∧ getu4 h1 h2 h3 h4 < 0xE000 then
              match rest2 with
              | e1 :: e2 :: g1 :: g2 :: g3 :: g4 :: _ =>
                if e1.val = 0x5C ∧ e2.val = 0x75 ∧ getu4 h1 h2 h3 h4 < 0xDC00 ∧
                    0xDC00 ≤ getu4 g1 g2 g3 g4 ∧ getu4 g1 g2 g3 g4 < 0xE000 then
                  (EncodeRune ((getu4 h1 h2 h3 h4 - 0xD800) * 1024
                      + (getu4 g1 g2 g3 g4 - 0xDC00) + 0x10000), 12)
                else ([0xEF, 0xBF, 0xBD], 6)
              | _ => ([0xEF, 0xBF, 0xBD], 6)
            else (EncodeRune (getu4 h1 h2 h3 h4), 6)
          | _ => ([], (b :: rest).length)
        else ([simpleEscape c], 2)
    else if b.val < 0x80 then ([b], 1)
    else
      match DecodeRune (b :: rest) with
      | (rr, size) => (EncodeRune rr, size)

/-- The function `unquoteBytes` on the text between the quotes. -/
def unquote (raw : List Byte) : GoString := chunked unquoteStep 0 raw

/-- One turn of the loop of `foldName`, as far as a comparison with an ASCII field
name can tell: an ASCII letter is upper-cased, and the two runes outside ASCII
whose simple case folding reaches ASCII, U+017F and U+212A, become `S` and `K`;
every other rune folds to a rune outside ASCII and is kept as it is. -/
def foldStep : List Byte → List Byte × Nat
  | [] => ([], 0)
  | b :: rest =>
    if 97 ≤ b.val ∧ b.val ≤ 122 then ([Fin.ofNat (b.val - 32)], 1)
    else if b.val = 0xC5 ∧ rest.take 1 = [0xBF] then ([0x53], 2)
    else if b.val = 0xE2 ∧ rest.take 2 = [0x84, 0xAA] then ([0x4B], 3)
    else ([b], 1)

/-- The function `foldName`. -/
def foldName (s : List Byte) : List Byte := chunked foldStep 0 s

/-- The field an object key selects: the field of that exact name, else the first
field whose folded name is the folded key. -/
def lookupField (fields : List Field) (key : GoString) : Option Nat :=
  match fields.findIdx? (fun f => decide (f.name = key)) with
  | some i => some i
  | none => fields.findIdx? (fun f => decide (foldName f.name = foldName key))

/-- The state of the decoder as it walks the tokens of a valid text.
* `vals`: the destination's fields;
* `savedError`: the first type error met (`d.savedError`);
* `skip`: above 0 inside a value that is skipped, with the number of open
  brackets;
* `depth`: 0 outside the top-level value, 1 inside the top-level object, 2
  inside an object stored into a map field;
* `field`: at depth 1 and 2, the field the last top-level key selected;
* `wantKey`: the next string is an object key;
* `mapKey`: at depth 2, the key whose value comes next. -/
structure Decoder where
  vals : List Value
  savedError : Option Error
  skip : Nat
  depth : Nat
  field : Option Nat
  wantKey : Bool
  mapKey : GoString
deriving DecidableEq, Repr

/-- The method `d.saveError`: only the first error is kept. -/
def Decoder.saveError (d : Decoder) (e : Error) : Decoder :=
  match d.savedError with
  | none => { d with savedError := some e }
  | some _ => d

/-- Start skipping a composite value whose opening bracket was just read. -/
def Decoder.skipValue (d : Decoder) : Decoder := { d with skip := 1 }

/-- Whether a token opens an object or an array. -/
def Token.opens : Token → Bool
  | .lbrace | .lbrack => true
  | _ => false

/-- Whether a token closes an object or an array. -/
def Token.closes : Token → Bool
  | .rbrace | .rbrack => true
  | _ => false

/-- The binding `m[k] = v` on the list of bindings of a map. -/
def bind (k v : GoString) (l : List (GoString × GoString)) : List (GoString × GoString) :=
  (k, v) :: l

/-- Store `m[k] = v` into the map field `i`. -/
def Decoder.storeBinding (d : Decoder) (i : Nat) (k v : GoString) : Decoder :=
  match d.vals.get? i with
  | some (Value.stringMap (some l)) =>
    { d with vals := d.vals.set i (Value.stringMap (some (bind k v l))) }
  | _ => d

/-- The value token `tok` arrives for the struct field `d.field` (`d.value` and
`literalStore` on a struct field): a literal of the field's kind is stored, `null`
clears a map and is ignored elsewhere, an object opens a map field's map, and
anything else is a type error that leaves the field alone.  The value of a key
that names no field is skipped. -/
def Decoder.storeField (fields : List Field) (d : Decoder) (tok : Token) : Decoder :=
  match d.field with
  | none => if tok.opens then d.skipValue else d
  | some i =>
    match fields.get? i with
    | none => if tok.opens then d.skipValue else d
    | some f =>
      match tok, f.kind with
      | Token.str raw, Kind.string => { d with vals := d.vals.set i (Value.string (unquote raw)) }
      | Token.litTrue, Kind.bool => { d with vals := d.vals.set i (Value.bool true) }
      | Token.litFalse, Kind.bool => { d with vals := d.vals.set i (Value.bool false) }
      | Token.num lit, Kind.int64 =>
        match ParseInt lit with
        | some n => { d with vals := d.vals.set i (Value.int64 n) }
        | none => d.saveError Error.ErrUnmarshalType
      | Token.litNull, Kind.stringMap => { d with vals := d.vals.set i (Value.stringMap none) }
      | Token.litNull, _ => d
      | Token.lbrace, Kind.stringMap =>
        match d.vals.get? i with
        | some (Value.stringMap none) =>
          { d with vals := d.vals.set i (Value.stringMap (some [])), depth := 2, wantKey := true }
        | _ => { d with depth := 2, wantKey := true }
      | _, _ =>
        if tok.opens then (d.saveError Error.ErrUnmarshalType).skipValue
        else d.saveError Error.ErrUnmarshalType

/-- The value token `tok` arrives for the key `d.mapKey` of a map (`d.value` on a
fresh `string` element, then `SetMapIndex`): a string is stored, `null` stores
the empty string, anything else is a type error and stores the empty string. -/
def Decoder.storeElem (d : Decoder) (tok : Token) : Decoder :=
  match d.field with
  | none => d
  | some i =>
    match tok with
    | Token.str raw => d.storeBinding i d.mapKey (unquote raw)
    | Token.litNull => d.storeBinding i d.mapKey []
    | _ =>
      if tok.opens then
        ((d.saveError Error.ErrUnmarshalType).storeBinding i d.mapKey []).skipValue
      else (d.saveError Error.ErrUnmarshalType).storeBinding i d.mapKey []

/-- One token of a valid text, seen by the decoder of a struct. -/
def Decoder.step (fields : List Field) (d : Decoder) (tok : Token) : Decoder :=
  if d.skip > 0 then
    if tok.opens then { d with skip := d.skip + 1 }
    else if tok.closes then { d with skip := d.skip - 1 }
    else d
  else if d.depth = 0 then
    match tok with
    | Token.lbrace => { d with depth := 1, wantKey := true }
    | Token.lbrack => (d.saveError Error.ErrUnmarshalType).skipValue
    | Token.litNull => d
    | _ => d.saveError Error.ErrUnmarshalType
  else if d.depth = 1 then
    match tok with
    | Token.rbrace => { d with depth := 0 }
    | Token.colon => d
    | Token.comma => { d with wantKey := true }
    | Token.str raw =>
      if d.wantKey then { d with field := lookupField fields (unquote raw), wantKey := false }
      else d.storeField fields tok
    | _ => d.storeField fields tok
  else
    match tok with
    | Token.rbrace => { d with depth := 1, wantKey := false }
    | Token.colon => d
    | Token.comma => { d with wantKey := true }
    | Token.str raw =>
      if d.wantKey then { d with mapKey := unquote raw, wantKey := false }
      else d.storeElem tok
    | _ => d.storeElem tok

/-- The function `json.Unmarshal(data, &v)` for a struct `v` with the given fields
and field values: `checkValid` first, which on a syntax error leaves `v`
untouched; then the walk over the tokens, which stores what fits and returns
the first type error. -/
def unmarshalStruct (fields : List Field) (data : List Byte) (vals : List Value) :
    List Value × Option Error :=
  match checkValid data with
  | none => (vals, some Error.ErrSyntax)
  | some toks =>
    match toks.foldl (Decoder.step fields)
      { vals := vals, savedError := none, skip := 0, depth := 0, field := none,
        wantKey := false, mapKey := [] } with
    | d => (d.vals, d.savedError)

/-! ## The message schemas -/

/-- The type `BeginReplicationRequest`. -/
structure BeginReplicationRequest where
  Device : GoString
  Partition : GoString
  NeedHashes : Bool
deriving DecidableEq, Repr

/-- The type `BeginReplicationResponse`. -/
structure BeginReplicationResponse where
  Hashes : StringMap
deriving DecidableEq, Repr

/-- The type `SyncFileRequest`; `Size` is an `int64`. -/
structure SyncFileRequest where
  Path : GoString
  Xattrs : GoString
  Size : Int
deriving DecidableEq, Repr

/-- The type `SyncFileResponse`. -/
structure SyncFileResponse where
  Exists : Bool
  NewerExists : Bool
  GoAhead : Bool
  Msg : GoString
deriving DecidableEq, Repr

/-- The type `FileUploadResponse`. -/
structure FileUploadResponse where
  Success : Bool
  Msg : GoString
deriving DecidableEq, Repr

/-- The fields of `BeginReplicationRequest`, in declaration order. -/
def BeginReplicationRequest.fields : List Field :=
  [⟨ascii "Device", Kind.string⟩, ⟨ascii "Partition", Kind.string⟩,
   ⟨ascii "NeedHashes", Kind.bool⟩]

/-- The field values of a `BeginReplicationRequest`. -/
def BeginReplicationRequest.values (v : BeginReplicationRequest) : List Value :=
  [Value.string v.Device, Value.string v.Partition, Value.bool v.NeedHashes]

/-- The `BeginReplicationRequest` with the given field values (`d` when they are
not of the kinds of its fields). -/
def BeginReplicationRequest.ofValues (vals : List Value) (d : BeginReplicationRequest) :
    BeginReplicationRequest :=
  match vals with
  | [Value.string a, Value.string b, Value.bool c] => ⟨a, b, c⟩
  | _ => d

/-- The fields of `BeginReplicationResponse`. -/
def BeginReplicationResponse.fields : List Field := [⟨ascii "Hashes", Kind.stringMap⟩]

/-- The field values of a `BeginReplicationResponse`. -/
def BeginReplicationResponse.values (v : BeginReplicationResponse) : List Value :=
  [Value.stringMap v.Hashes]

/-- The `BeginReplicationResponse` with the given field values. -/
def BeginReplicationResponse.ofValues (vals : List Value) (d : BeginReplicationResponse) :
    BeginReplicationResponse :=
  match vals with
  | [Value.stringMap m] => ⟨m⟩
  | _ => d

/-- The fields of `SyncFileRequest`. -/
def SyncFileRequest.fields : List Field :=
  [⟨ascii "Path", Kind.string⟩, ⟨ascii "Xattrs", Kind.string⟩, ⟨ascii "Size", Kind.int64⟩]

/-- The field values of a `SyncFileRequest`. -/
def SyncFileRequest.values (v : SyncFileRequest) : List Value :=
  [Value.string v.Path, Value.string v.Xattrs, Value.int64 v.Size]

/-- The `SyncFileRequest` with the given field values. -/
def SyncFileRequest.ofValues (vals : List Value) (d : SyncFileRequest) : SyncFileRequest :=
  match vals with
  | [Value.string a, Value.string b, Value.int64 c] => ⟨a, b, c⟩
  | _ => d

/-- The fields of `SyncFileResponse`. -/
def SyncFileResponse.fields : List Field :=
  [⟨ascii "Exists", Kind.bool⟩, ⟨ascii "NewerExists", Kind.bool⟩,
   ⟨ascii "GoAhead", Kind.bool⟩, ⟨ascii "Msg", Kind.string⟩]

/-- The field values of a `SyncFileResponse`. -/
def SyncFileResponse.values (v : SyncFileResponse) : List Value :=
  [Value.bool v.Exists, Value.bool v.NewerExists, Value.bool v.GoAhead, Value.string v.Msg]

/-- The `SyncFileResponse` with the given field values. -/
def SyncFileResponse.ofValues (vals : List Value) (d : SyncFileResponse) : SyncFileResponse :=
  match vals with
  | [Value.bool a, Value.bool b, Value.bool c, Value.string m] => ⟨a, b, c, m⟩
  | _ => d

/-- The fields of `FileUploadResponse`. -/
def FileUploadResponse.fields : List Field :=
  [⟨ascii "Success", Kind.bool⟩, ⟨ascii "Msg", Kind.string⟩]

/-- The field values of a `FileUploadResponse`. -/
def FileUploadResponse.values (v : FileUploadResponse) : List Value :=
  [Value.bool v.Success, Value.string v.Msg]

/-- The `FileUploadResponse` with the given field values. -/
def FileUploadResponse.ofValues (vals : List Value) (d : FileUploadResponse) :
    FileUploadResponse :=
  match vals with
  | [Value.bool a, Value.string m] => ⟨a, m⟩
  | _ => d

/-- The codec `encoding/json` at the type `BeginReplicationRequest`: encoding a
struct of strings, booleans, integers and string maps cannot fail. -/
instance : GoJSON BeginReplicationRequest where
  Marshal v := Except.ok (encodeStruct BeginReplicationRequest.fields v.values)
  Unmarshal data d :=
    match unmarshalStruct BeginReplicationRequest.fields data d.values with
    | (vals, err) => (BeginReplicationRequest.ofValues vals d, err)

/-- The codec `encoding/json` at the type `BeginReplicationResponse`. -/
instance : GoJSON BeginReplicationResponse where
  Marshal v := Except.ok (encodeStruct BeginReplicationResponse.fields v.values)
  Unmarshal data d :=
    match unmarshalStruct BeginReplicationResponse.fields data d.values with
    | (vals, err) => (BeginReplicationResponse.ofValues vals d, err)

/-- The codec `encoding/json` at the type `SyncFileRequest`. -/
instance : GoJSON SyncFileRequest where
  Marshal v := Except.ok (encodeStruct SyncFileRequest.fields v.values)
  Unmarshal data d :=
    match unmarshalStruct SyncFileRequest.fields data d.values with
    | (vals, err) => (SyncFileRequest.ofValues vals d, err)

/-- The codec `encoding/json` at the type `SyncFileResponse`. -/
instance : GoJSON SyncFileResponse where
  Marshal v := Except.ok (encodeStruct SyncFileResponse.fields v.values)
  Unmarshal data d :=
    match unmarshalStruct SyncFileResponse.fields data d.values with
    | (vals, err) => (SyncFileResponse.ofValues vals d, err)

/-- The codec `encoding/json` at the type `FileUploadResponse`. -/
instance : GoJSON FileUploadResponse where
  Marshal v := Except.ok (encodeStruct FileUploadResponse.fields v.values)
  Unmarshal data d :=
    match unmarshalStruct FileUploadResponse.fields data d.values with
    | (vals, err) => (FileUploadResponse.ofValues vals d, err)

/-- Two maps are equal as Go maps: both nil or both not, and the same value
under every key. -/
def StringMap.Same (m1 m2 : StringMap) : Prop :=
  m1.isNone = m2.isNone ∧ ∀ k, m1.get? k = m2.get? k

/-- The bytes `chunk` are the UTF-8 encoding of the rune `c`, as `utf8.DecodeRune`
accepts it. -/
def IsRune (chunk : List Byte) (c : Nat) : Prop :=
  (∃ b : Byte, chunk = [b] ∧ b.val < 0x80 ∧ c = b.val) ∨
  (∃ p0 b1 : Byte, chunk = [p0, b1] ∧ 0xC2 ≤ p0.val ∧ p0.val ≤ 0xDF ∧
    0x80 ≤ b1.val ∧ b1.val ≤ 0xBF ∧ c = p0.val % 32 * 64 + b1.val % 64) ∨
  (∃ p0 b1 b2 : Byte, ∃ lo hi : Nat, chunk = [p0, b1, b2] ∧ leadInfo p0.val = some (3, lo, hi) ∧
    lo ≤ b1.val ∧ b1.val ≤ hi ∧ 0x80 ≤ b2.val ∧ b2.val ≤ 0xBF ∧
    c = p0.val % 16 * 4096 + b1.val % 64 * 64 + b2.val % 64) ∨
  (∃ p0 b1 b2 b3 : Byte, ∃ lo hi : Nat, chunk = [p0, b1, b2, b3] ∧
    leadInfo p0.val = some (4, lo, hi) ∧
    lo ≤ b1.val ∧ b1.val ≤ hi ∧ 0x80 ≤ b2.val ∧ b2.val ≤ 0xBF ∧ 0x80 ≤ b3.val ∧ b3.val ≤ 0xBF ∧
    c = p0.val % 8 * 262144 + b1.val % 64 * 4096 + b2.val % 64 * 64 + b3.val % 64)

/-- The digits `ds` are the decimal form of `n`: decimal digits, at least one, no
leading zero except for `0` itself, and reading them gives `n`. -/
def IsDecimal (ds : List Byte) (n : Nat) : Prop :=
  ds ≠ [] ∧ (∀ d ∈ ds, 48 ≤ d.val ∧ d.val ≤ 57) ∧
  (ds.head? = some 48 → ds = [48]) ∧
  ∀ a rest, parseDigits a (ds ++ rest) = parseDigits (a * 10 ^ ds.length + n) rest

/-- The tokens of one binding of an encoded map. -/
def bindingTokens (e : GoString × GoString) : List Token :=
  [Token.str (escape e.1), Token.colon, Token.str (escape e.2)]

/-- The tokens of the bindings of an encoded map, commas between them. -/
def memberTokens : List (GoString × GoString) → List Token
  | [] => []
  | [e] => bindingTokens e
  | e :: rest => bindingTokens e ++ Token.comma :: memberTokens rest

/-- Every key and value of the bindings is valid UTF-8. -/
def validBindings (l : List (GoString × GoString)) : Prop :=
  ∀ e ∈ l, validUTF8 e.1 = true ∧ validUTF8 e.2 = true

/-- The receiving end `r`, at time `now2`, is handed what `s.SendMessage now1 v`
put on the wire: the call succeeds on a writer with nothing pending, the payload
is shorter than `2 ^ 32` bytes, and the bytes `r` can obtain before its input
deadline begin with the bytes that call delivered to the transport of `s`. -/
def Relays {α : Type} [GoJSON α] (s : RepConn) (now1 : Nat) (v : α) (r : RepConn)
    (now2 : Nat) : Prop :=
  (s.SendMessage now1 v).2 = none ∧ s.rw.Writer.buf = [] ∧
  (∃ p, GoJSON.Marshal v = Except.ok p ∧ p.length < 2 ^ 32) ∧
  ∃ X, r.readable (some (now2 + repITimeout))
    = (s.SendMessage now1 v).1.c.delivered.drop s.c.delivered.length ++ X

/-- An open transport on which nothing has happened: no deadline, nothing to
read, every write accepted. -/
def Conn.idle : Conn :=
  { closed := false, deadline := none, incoming := [], outcomes := [], delivered := [],
    log := [] }

/-- A connection as `NewRepConn` builds it, over an idle transport. -/
def RepConn.idle : RepConn :=
  { rw := { Reader := { buf := [] }, Writer := { buf := [], err := none } },
    c := Conn.idle, Disconnected := false }

/-- A connection as `NewRepConn` builds it, over an open transport to which the
network hands the segment `bytes` at time `t`. -/
def RepConn.fed (t : Nat) (bytes : List Byte) : RepConn :=
  { rw := { Reader := { buf := [] }, Writer := { buf := [], err := none } },
    c := { Conn.idle with incoming := [InEvent.data t bytes] }, Disconnected := false }

/-- The request `BeginReplicationRequest{Device: "sdb1", Partition: "42",
NeedHashes: true}`. -/
def BeginReplicationRequest.sample : BeginReplicationRequest :=
  ⟨ascii "sdb1", ascii "42", true⟩

/-- The zero value of `BeginReplicationRequest`. -/
def BeginReplicationRequest.zero : BeginReplicationRequest := ⟨[], [], false⟩

/-- A request whose `Device` is the one byte `0xFF`, which is not valid UTF-8. -/
def BeginReplicationRequest.garbled : BeginReplicationRequest := ⟨[0xFF], [], false⟩

/-- The response `BeginReplicationResponse{Hashes: {"0": "abc123"}}`. -/
def BeginReplicationResponse.sample : BeginReplicationResponse :=
  ⟨some [(ascii "0", ascii "abc123")]⟩

/-- The zero value of `BeginReplicationResponse`: a nil map. -/
def BeginReplicationResponse.zero : BeginReplicationResponse := ⟨none⟩

/-- A response that already holds the binding `{"1": "x"}`. -/
def BeginReplicationResponse.used : BeginReplicationResponse :=
  ⟨some [(ascii "1", ascii "x")]⟩

/-- The payload `json.Marshal` produces for a value. -/
def payloadOf {α : Type} [GoJSON α] (v : α) : List Byte :=
  match GoJSON.Marshal v with
  | Except.ok p => p
  | Except.error _ => []

/-- A network on which building the request and the dial succeed, the dialler
hands out an idle open transport, and the peer answers with `status`. -/
def Network.answering (status : Int) : Network :=
  { NewRequest := fun _ => Except.ok "127.0.0.1:6000",
    repDialer := fun _ => Except.ok Conn.idle,
    Do := fun _ c => (c, Except.ok status),
    Do_closed := fun _ _ => rfl }

/-- A request whose `Device` is `n` times the letter `a`. -/
def BeginReplicationRequest.long (n : Nat) : BeginReplicationRequest :=
  ⟨List.replicate n 0x61, [], false⟩

/-- A value of one of the five message schemas, as it is passed to `SendMessage`
and, by pointer, to `RecvMessage` through their `interface{}` parameter. -/
inductive Message
  | beginRequest (v : BeginReplicationRequest)
  | beginResponse (v : BeginReplicationResponse)
  | syncRequest (v : SyncFileRequest)
  | syncResponse (v : SyncFileResponse)
  | uploadResponse (v : FileUploadResponse)

/-- The call `r.SendMessage(v)` for a value of one of the five schemas. -/
def RepConn.sendAny (r : RepConn) (now : Nat) : Message → RepConn × Option Error
  | .beginRequest v => r.SendMessage now v
  | .beginResponse v => r.SendMessage now v
  | .syncRequest v => r.SendMessage now v
  | .syncResponse v => r.SendMessage now v
  | .uploadResponse v => r.SendMessage now v

/-- The call `r.RecvMessage(&d)` for a destination of one of the five schemas: the
connection, the destination as the call leaves it, and the error. -/
def RepConn.recvAny (r : RepConn) (now : Nat) : Message → RepConn × Message × Option Error
  | .beginRequest d =>
    ((r.RecvMessage now d).1, .beginRequest (r.RecvMessage now d).2.1, (r.RecvMessage now d).2.2)
  | .beginResponse d =>
    ((r.RecvMessage now d).1, .beginResponse (r.RecvMessage now d).2.1, (r.RecvMessage now d).2.2)
  | .syncRequest d =>
    ((r.RecvMessage now d).1, .syncRequest (r.RecvMessage now d).2.1, (r.RecvMessage now d).2.2)
  | .syncResponse d =>
    ((r.RecvMessage now d).1, .syncResponse (r.RecvMessage now d).2.1, (r.RecvMessage now d).2.2)
  | .uploadResponse d =>
    ((r.RecvMessage now d).1, .uploadResponse (r.RecvMessage now d).2.1, (r.RecvMessage now d).2.2)

/-- The payload `json.Marshal` produces for a message. -/
def Message.payload : Message → List Byte
  | .beginRequest v => payloadOf v
  | .beginResponse v => payloadOf v
  | .syncRequest v => payloadOf v
  | .syncResponse v => payloadOf v
  | .uploadResponse v => payloadOf v

/-- Every string of the message (every key and value of its map) is valid UTF-8,
and its `int64` field is in the `int64` range. -/
def Message.Sound : Message → Prop
  | .beginRequest v => validUTF8 v.Device = true ∧ validUTF8 v.Partition = true
  | .beginResponse v =>
    ∀ k x, StringMap.get? v.Hashes k = some x → validUTF8 k = true ∧ validUTF8 x = true
  | .syncRequest v =>
    validUTF8 v.Path = true ∧ validUTF8 v.Xattrs = true ∧ -2 ^ 63 ≤ v.Size ∧ v.Size < 2 ^ 63
  | .syncResponse v => validUTF8 v.Msg = true
  | .uploadResponse v => validUTF8 v.Msg = true

/-- The message `d` is a destination for `a`: of the same schema, and with a map
that holds no binding. -/
def Message.DestinationFor : Message → Message → Prop
  | .beginRequest _, .beginRequest _ => True
  | .beginResponse d, .beginResponse _ => ∀ k, StringMap.get? d.Hashes k = none
  | .syncRequest _, .syncRequest _ => True
  | .syncResponse _, .syncResponse _ => True
  | .uploadResponse _, .uploadResponse _ => True
  | _, _ => False

/-- Two messages are of the same schema and equal field by field; maps are equal
as maps. -/
def Message.Equal : Message → Message → Prop
  | .beginRequest x, .beginRequest y => x = y
  | .beginResponse x, .beginResponse y => StringMap.Same x.Hashes y.Hashes
  | .syncRequest x, .syncRequest y => x = y
  | .syncResponse x, .syncResponse y => x = y
  | .uploadResponse x, .uploadResponse y => x = y
  | _, _ => False

/-- A connection as `NewRepConn` builds it, over an open transport to which the
network hands the segment `b1` at time `t1` and the segment `b2` at time `t2`. -/
def RepConn.fedTwice (t1 : Nat) (b1 : List Byte) (t2 : Nat) (b2 : List Byte) : RepConn :=
  { rw := { Reader := { buf := [] }, Writer := { buf := [], err := none } },
    c := { Conn.idle with incoming := [InEvent.data t1 b1, InEvent.data t2 b2] },
    Disconnected := false }

/-! ## The transport and the buffered writer -/

theorem LogExt.refl (P : Event → Prop) (l : List Event) : LogExt P l l :=
  ⟨[], by simp, by simp⟩

theorem LogExt.trans {P : Event → Prop} {l1 l2 l3 : List Event}
    (h1 : LogExt P l1 l2) (h2 : LogExt P l2 l3) : LogExt P l1 l3 := by
  obtain ⟨e1, rfl, p1⟩ := h1
  obtain ⟨e2, rfl, p2⟩ := h2
  refine ⟨e1 ++ e2, by simp, ?_⟩
  intro e he
  rcases List.mem_append.mp he with h | h
  · exact p1 e h
  · exact p2 e h

theorem LogExt.single {P : Event → Prop} (l : List Event) (e : Event) (h : P e) :
    LogExt P l (l ++ [e]) :=
  ⟨[e], rfl, by simpa using h⟩

theorem LogExt.mono {P Q : Event → Prop} {l1 l2 : List Event} (hPQ : ∀ e, P e → Q e)
    (h : LogExt P l1 l2) : LogExt Q l1 l2 := by
  obtain ⟨evs, rfl, p⟩ := h
  exact ⟨evs, rfl, fun e he => hPQ e (p e he)⟩

/-- A transport write leaves everything but `outcomes`, `delivered` and `log`
alone, and logs one write under the deadline in force. -/
theorem Conn.Write_frame (c : Conn) (p : List Byte) :
    (c.Write p).1.closed = c.closed ∧ (c.Write p).1.deadline = c.deadline ∧
    (c.Write p).1.incoming = c.incoming ∧
    LogExt (Event.isWriteUnder c.deadline) c.log (c.Write p).1.log := by
  unfold Conn.Write
  split
  · exact ⟨rfl, rfl, rfl, LogExt.single _ _ ⟨_, rfl⟩⟩
  · split
    · exact ⟨rfl, rfl, rfl, LogExt.single _ _ ⟨_, rfl⟩⟩
    · exact ⟨rfl, rfl, rfl, LogExt.single _ _ ⟨_, rfl⟩⟩
    · exact ⟨rfl, rfl, rfl, LogExt.single _ _ ⟨_, rfl⟩⟩

/-- A transport write without error has accepted all of `p`. -/
theorem Conn.Write_ok (c : Conn) (p : List Byte) (h : (c.Write p).2.2 = none) :
    (c.Write p).2.1 = p.length ∧ (c.Write p).1.delivered = c.delivered ++ p ∧
    c.closed = false := by
  unfold Conn.Write at h ⊢
  split at h
  · simp at h
  · rename_i hc
    split at h
    · rename_i ho; simp [hc, ho]
    · rename_i ho; simp [hc, ho]
    · simp at h

/-- Every transport write on a closed connection fails. -/
theorem Conn.netWrite_of_closed (c : Conn) (p : List Byte) (h : c.closed = true) :
    (c.Write p).2.2 = some Error.ErrClosed ∧ (c.Write p).2.1 = 0 ∧
    (c.Write p).1.delivered = c.delivered := by
  unfold Conn.Write
  simp [h]

/-- The buffered writer's flush leaves the transport's `closed`, `deadline` and
`incoming` alone and logs only writes under the deadline in force. -/
theorem Writer.Flush_frame (b : Writer) (c : Conn) :
    (b.Flush c).2.1.closed = c.closed ∧ (b.Flush c).2.1.deadline = c.deadline ∧
    (b.Flush c).2.1.incoming = c.incoming ∧
    LogExt (Event.isWriteUnder c.deadline) c.log (b.Flush c).2.1.log := by
  have hw := Conn.Write_frame c b.buf
  rcases hcw : c.Write b.buf with ⟨c1, n, err⟩
  rw [hcw] at hw
  simp only [Writer.Flush, hcw]
  split
  · exact ⟨rfl, rfl, rfl, LogExt.refl _ _⟩
  · split
    · exact ⟨rfl, rfl, rfl, LogExt.refl _ _⟩
    · split <;> exact hw

/-- A flush that reports no error has handed the whole buffer to the transport
and left the buffer empty. -/
theorem Writer.Flush_ok (b : Writer) (c : Conn) (h : (b.Flush c).2.2 = none) :
    (b.Flush c).1 = { buf := [], err := none } ∧ b.err = none ∧
    (b.Flush c).2.1.delivered = c.delivered ++ b.buf := by
  have hw := Conn.Write_ok c b.buf
  rcases hcw : c.Write b.buf with ⟨c1, n, err⟩
  rw [hcw] at hw
  simp only [] at hw
  simp only [Writer.Flush, hcw] at h ⊢
  rcases b with ⟨buf, berr⟩
  cases berr with
  | some e => simp at h
  | none =>
    by_cases h0 : buf.length = 0
    · have hb : buf = [] := List.length_eq_zero.mp h0
      simp [hb]
    · simp only [h0, if_false] at h ⊢
      cases err with
      | some e =>
        simp at h
      | none =>
        obtain ⟨h1, h2, _⟩ := hw rfl
        have hn : ¬ (n < buf.length) := by simp at h1; omega
        simp [hn, h2]

/-- A flush that reports an error leaves that error in the writer. -/
theorem Writer.Flush_err (b : Writer) (c : Conn) (e : Error) (h : (b.Flush c).2.2 = some e) :
    (b.Flush c).1.err = some e := by
  rcases hcw : c.Write b.buf with ⟨c1, n, err⟩
  simp only [Writer.Flush, hcw] at h ⊢
  rcases b with ⟨buf, berr⟩
  cases berr with
  | some e1 => simp at h; simp [h]
  | none =>
    by_cases h0 : buf.length = 0
    · simp [h0] at h
    · simp only [h0, if_false] at h ⊢
      split at h
      · rename_i e2 herr
        simp at h
        simp only [herr, h]
      · simp at h

/-- On a closed transport a flush succeeds exactly when there is nothing to do:
no sticky error and an empty buffer; it then changes nothing. -/
theorem Writer.bufFlush_of_closed (b : Writer) (c : Conn) (hc : c.closed = true) :
    ((b.Flush c).2.2 = none ↔ b.err = none ∧ b.buf = []) ∧
    ((b.Flush c).2.2 = none → b.Flush c = (b, c, none)) := by
  have hw := Conn.netWrite_of_closed c b.buf hc
  rcases hcw : c.Write b.buf with ⟨c1, n, err⟩
  rw [hcw] at hw
  simp only [] at hw
  obtain ⟨h1, h2, _⟩ := hw
  subst h1 h2
  simp only [Writer.Flush, hcw]
  rcases b with ⟨buf, berr⟩
  cases berr with
  | some e1 => simp
  | none =>
    by_cases h0 : buf.length = 0
    · simp [h0, List.length_eq_zero.mp h0]
    · have hb : buf ≠ [] := fun h => h0 (by simp [h])
      simp [h0, hb]

theorem Writer.writeLoop_fits (b : Writer) (c : Conn) (p : List Byte) (nn : Nat)
    (he : b.err = none) (hfit : p.length ≤ b.Available) :
    b.writeLoop c p nn = ({ b with buf := b.buf ++ p }, c, nn + p.length, none) := by
  rw [Writer.writeLoop]
  have : ¬ (b.Available < p.length) := by omega
  simp [this, he]

theorem Writer.writeLoop_sticky (b : Writer) (c : Conn) (p : List Byte) (nn : Nat) (e : Error)
    (he : b.err = some e) :
    b.writeLoop c p nn = (b, c, nn, some e) := by
  rw [Writer.writeLoop]
  simp [he]

theorem Writer.writeLoop_direct (b : Writer) (c : Conn) (p : List Byte) (nn : Nat)
    (hcond : p.length > b.Available ∧ b.err = none) (hbuf : b.Buffered = 0) :
    b.writeLoop c p nn =
      Writer.writeLoop { b with err := (c.Write p).2.2 } (c.Write p).1
        (p.drop (c.Write p).2.1) (nn + (c.Write p).2.1) := by
  rw [Writer.writeLoop]
  simp only [hcond, hbuf, and_self, dite_true]

theorem Writer.writeLoop_fill (b : Writer) (c : Conn) (p : List Byte) (nn : Nat)
    (hcond : p.length > b.Available ∧ b.err = none) (hbuf : ¬ b.Buffered = 0) :
    b.writeLoop c p nn =
      Writer.writeLoop (Writer.Flush { b with buf := b.buf ++ p.take b.Available } c).1
        (Writer.Flush { b with buf := b.buf ++ p.take b.Available } c).2.1
        (p.drop (min b.Available p.length)) (nn + min b.Available p.length) := by
  rw [Writer.writeLoop]
  simp only [hcond, hbuf, and_self, dite_true, dite_false]

theorem Writer.writeLoop_frame (b : Writer) (c : Conn) (p : List Byte) (nn : Nat) :
    (b.writeLoop c p nn).2.1.closed = c.closed ∧ (b.writeLoop c p nn).2.1.deadline = c.deadline ∧
    (b.writeLoop c p nn).2.1.incoming = c.incoming ∧
    LogExt (Event.isWriteUnder c.deadline) c.log (b.writeLoop c p nn).2.1.log := by
  induction b, c, p, nn using Writer.writeLoop.induct with
  | case1 b c p nn hcond hbuf c1 n err hw ih =>
    rw [Writer.writeLoop_direct b c p nn hcond hbuf, hw]
    have h1 := Conn.Write_frame c p
    rw [hw] at h1
    simp only [] at h1 ⊢
    obtain ⟨i1, i2, i3, i4⟩ := ih
    obtain ⟨j1, j2, j3, j4⟩ := h1
    refine ⟨by rw [i1, j1], by rw [i2, j2], by rw [i3, j3], ?_⟩
    rw [j2] at i4
    exact j4.trans i4
  | case2 b c p nn hcond hbuf b2 c2 snd hf ih =>
    rw [Writer.writeLoop_fill b c p nn hcond hbuf, hf]
    have h1 := Writer.Flush_frame { buf := b.buf ++ List.take b.Available p, err := b.err } c
    rw [hf] at h1
    simp only [] at h1 ⊢
    obtain ⟨i1, i2, i3, i4⟩ := ih
    obtain ⟨j1, j2, j3, j4⟩ := h1
    refine ⟨by rw [i1, j1], by rw [i2, j2], by rw [i3, j3], ?_⟩
    rw [j2] at i4
    exact j4.trans i4
  | case3 b c p nn hcond e he =>
    rw [Writer.writeLoop_sticky b c p nn e he]
    exact ⟨rfl, rfl, rfl, LogExt.refl _ _⟩
  | case4 b c p nn hcond he =>
    rw [Writer.writeLoop_fits b c p nn he (by simp [he] at hcond; omega)]
    exact ⟨rfl, rfl, rfl, LogExt.refl _ _⟩

/-- A buffered write that reports no error has lost no byte: what the transport
has accepted plus what is still buffered is what was there before plus `p`. -/
theorem Writer.writeLoop_ok (b : Writer) (c : Conn) (p : List Byte) (nn : Nat)
    (h : (b.writeLoop c p nn).2.2.2 = none) :
    (b.writeLoop c p nn).1.err = none ∧ b.err = none ∧
    (b.writeLoop c p nn).2.1.delivered ++ (b.writeLoop c p nn).1.buf
      = c.delivered ++ b.buf ++ p ∧
    (b.writeLoop c p nn).2.2.1 = nn + p.length := by
  induction b, c, p, nn using Writer.writeLoop.induct with
  | case1 b c p nn hcond hbuf c1 n err hw ih =>
    rw [Writer.writeLoop_direct b c p nn hcond hbuf, hw] at h ⊢
    simp only [] at h ⊢
    obtain ⟨i1, i2, i3, i4⟩ := ih h
    simp only [] at i2
    subst i2
    have h1 := Conn.Write_ok c p (by rw [hw])
    rw [hw] at h1
    simp only [] at h1
    obtain ⟨j1, j2, _⟩ := h1
    subst j1
    have hb : b.buf = [] := List.length_eq_zero.mp hbuf
    refine ⟨i1, hcond.2, ?_, ?_⟩
    · rw [i3, j2]; simp [hb]
    · rw [i4]; simp
  | case2 b c p nn hcond hbuf b2 c2 snd hf ih =>
    rw [Writer.writeLoop_fill b c p nn hcond hbuf, hf] at h ⊢
    simp only [] at h ⊢
    obtain ⟨i1, i2, i3, i4⟩ := ih h
    have hs : snd = none := by
      cases snd with
      | none => rfl
      | some e =>
        have := Writer.Flush_err _ c e (by rw [hf])
        rw [hf] at this
        simp only [] at this
        rw [this] at i2
        cases i2
    subst hs
    have h1 := Writer.Flush_ok _ c (by rw [hf])
    rw [hf] at h1
    simp only [] at h1
    obtain ⟨j1, _, j3⟩ := h1
    subst j1
    refine ⟨i1, hcond.2, ?_, ?_⟩
    · rw [i3, j3]
      have hlt : b.Available ≤ p.length := by omega
      simp only [Nat.min_eq_left hlt, List.append_nil, List.append_assoc, List.take_append_drop]
    · rw [i4]
      have hlt : b.Available ≤ p.length := by omega
      simp only [Nat.min_eq_left hlt, List.length_drop]
      omega
  | case3 b c p nn hcond e he =>
    rw [Writer.writeLoop_sticky b c p nn e he] at h
    simp at h
  | case4 b c p nn hcond he =>
    rw [Writer.writeLoop_fits b c p nn he (by simp [he] at hcond; omega)]
    simp [he]

/-- A buffered write that reports an error leaves that error in the writer. -/
theorem Writer.writeLoop_err (b : Writer) (c : Conn) (p : List Byte) (nn : Nat) (e : Error)
    (h : (b.writeLoop c p nn).2.2.2 = some e) :
    (b.writeLoop c p nn).1.err = some e := by
  induction b, c, p, nn using Writer.writeLoop.induct with
  | case1 b c p nn hcond hbuf c1 n err hw ih =>
    rw [Writer.writeLoop_direct b c p nn hcond hbuf, hw] at h ⊢
    exact ih h
  | case2 b c p nn hcond hbuf b2 c2 snd hf ih =>
    rw [Writer.writeLoop_fill b c p nn hcond hbuf, hf] at h ⊢
    exact ih h
  | case3 b c p nn hcond e1 he =>
    rw [Writer.writeLoop_sticky b c p nn e1 he] at h ⊢
    simp at h
    simp [he, h]
  | case4 b c p nn hcond he =>
    rw [Writer.writeLoop_fits b c p nn he (by simp [he] at hcond; omega)] at h
    simp at h

/-- On a closed transport a buffered write succeeds exactly when it needs no
transport write: no sticky error and `p` fits into the free space; it then
only appends `p` to the buffer. -/
theorem Writer.writeLoop_of_closed (b : Writer) (c : Conn) (p : List Byte) (nn : Nat)
    (hc : c.closed = true) :
    (b.writeLoop c p nn).2.2.2 = none ↔ (b.err = none ∧ p.length ≤ b.Available) := by
  constructor
  · intro h
    by_cases hcond : p.length > b.Available ∧ b.err = none
    · exfalso
      by_cases hbuf : b.Buffered = 0
      · rw [Writer.writeLoop_direct b c p nn hcond hbuf] at h
        have hw := (Conn.netWrite_of_closed c p hc).1
        rw [Writer.writeLoop_sticky _ _ _ _ _ hw] at h
        simp at h
      · rw [Writer.writeLoop_fill b c p nn hcond hbuf] at h
        have hne : ¬ ((Writer.Flush { b with buf := b.buf ++ p.take b.Available } c).2.2 = none) := by
          rw [(Writer.bufFlush_of_closed _ c hc).1]
          simp only [Writer.Buffered] at hbuf
          intro hh
          have := hh.2
          simp at this
          simp [this.1] at hbuf
        cases hq : (Writer.Flush { b with buf := b.buf ++ p.take b.Available } c).2.2 with
        | none => exact hne hq
        | some e =>
          have := Writer.Flush_err _ c e hq
          rw [Writer.writeLoop_sticky _ _ _ _ _ this] at h
          simp at h
    · cases he : b.err with
      | none => exact ⟨rfl, by simp [he] at hcond; omega⟩
      | some e =>
        rw [Writer.writeLoop_sticky b c p nn e he] at h
        simp at h
  · rintro ⟨he, hfit⟩
    rw [Writer.writeLoop_fits b c p nn he hfit]

theorem dle_refl (d : Option Nat) : dle d d := fun _ h => h

theorem dle_none (d : Option Nat) : dle d none := fun _ _ => rfl

/-- A transport read leaves everything but `incoming` and `log` alone, and logs
one read under the deadline in force. -/
theorem Conn.netRead_frame (c : Conn) (cap : Nat) :
    (c.Read cap).1.closed = c.closed ∧ (c.Read cap).1.deadline = c.deadline ∧
    (c.Read cap).1.outcomes = c.outcomes ∧ (c.Read cap).1.delivered = c.delivered ∧
    LogExt (Event.isReadUnder c.deadline) c.log (c.Read cap).1.log := by
  unfold Conn.Read
  split
  · exact ⟨rfl, rfl, rfl, rfl, LogExt.single _ _ ⟨_, rfl⟩⟩
  · split
    · exact ⟨rfl, rfl, rfl, rfl, LogExt.single _ _ ⟨_, rfl⟩⟩
    · split <;> exact ⟨rfl, rfl, rfl, rfl, LogExt.single _ _ ⟨_, rfl⟩⟩
    · exact ⟨rfl, rfl, rfl, rfl, LogExt.single _ _ ⟨_, rfl⟩⟩
    · exact ⟨rfl, rfl, rfl, rfl, LogExt.single _ _ ⟨_, rfl⟩⟩

/-- A transport read that fails obtains nothing and consumes nothing; on an open
transport it fails only when no byte is to be had under the deadline. -/
theorem Conn.netRead_err (c : Conn) (cap : Nat) (e : Error) (h : (c.Read cap).2.2 = some e) :
    (c.Read cap).2.1 = [] ∧ (c.Read cap).1.incoming = c.incoming ∧
    (c.closed = false → availAt c.deadline c.incoming = []) := by
  unfold Conn.Read at h ⊢
  split
  · rename_i hc; simp [hc]
  · rename_i hc
    split
    · rename_i hi; simp [hi, availAt]
    · rename_i t bs rest hi
      simp only [hc, hi] at h
      split
      · rename_i hb; simp [hb] at h
      · rename_i hb; simp [hi, availAt, hb]
    · rename_i hi; simp [hi, availAt]
    · rename_i hi; simp [hi, availAt]

/-- A transport read that succeeds hands over the first bytes of the stream, at
most `cap` of them, and leaves the rest of the stream in place. -/
theorem Conn.netRead_ok (c : Conn) (cap : Nat) (h : (c.Read cap).2.2 = none) :
    c.closed = false ∧ (c.Read cap).2.1.length ≤ cap ∧
    ∀ d, dle c.deadline d →
      availAt d c.incoming = (c.Read cap).2.1 ++ availAt d (c.Read cap).1.incoming := by
  unfold Conn.Read at h ⊢
  split
  · rename_i hc; simp [hc] at h
  · rename_i hc
    split
    · rename_i hi; simp [hc, hi] at h
    · rename_i t bs rest hi
      simp only [hc, hi] at h
      split
      · rename_i hb
        refine ⟨by simpa using hc, by simp, ?_⟩
        intro d hd
        have hb2 := hd t hb
        simp only [hi]
        by_cases hl : bs.length ≤ cap
        · simp [hl, availAt, hb2, List.take_of_length_le hl]
        · simp only [hl, if_false, availAt, hb2, if_true]
          rw [← List.append_assoc, List.take_append_drop]
      · rename_i hb; simp [hb] at h
    · rename_i hi; simp [hc, hi] at h
    · rename_i hi; simp [hc, hi] at h

theorem Reader.Read_buffered (b : Reader) (c : Conn) (k : Nat) (hk : k ≠ 0) (hb : b.buf ≠ []) :
    b.Read c k = ({ buf := b.buf.drop k }, c, b.buf.take k, none) := by
  have h0 : ¬ (b.buf.length = 0) := fun h => hb (List.length_eq_zero.mp h)
  simp [Reader.Read, hk, h0]

theorem Reader.Read_large (b : Reader) (c : Conn) (k : Nat) (hk : k ≠ 0) (hb : b.buf = [])
    (hbig : k ≥ defaultBufSize) :
    b.Read c k = (b, (c.Read k).1, (c.Read k).2.1, (c.Read k).2.2) := by
  simp [Reader.Read, hk, hb, hbig]

theorem Reader.Read_small_none (b : Reader) (c : Conn) (k : Nat) (hk : k ≠ 0) (hb : b.buf = [])
    (hbig : ¬ k ≥ defaultBufSize) (hz : (c.Read defaultBufSize).2.1 = []) :
    b.Read c k = (b, (c.Read defaultBufSize).1, [], (c.Read defaultBufSize).2.2) := by
  simp [Reader.Read, hk, hb, hbig, hz]

theorem Reader.Read_small_some (b : Reader) (c : Conn) (k : Nat) (hk : k ≠ 0) (hb : b.buf = [])
    (hbig : ¬ k ≥ defaultBufSize) (hz : (c.Read defaultBufSize).2.1 ≠ []) :
    b.Read c k = ({ buf := (c.Read defaultBufSize).2.1.drop k }, (c.Read defaultBufSize).1,
      (c.Read defaultBufSize).2.1.take k, none) := by
  simp [Reader.Read, hk, hb, hbig, hz]

/-- The bufio reader's `Read` leaves the transport's `closed`, `deadline`,
`outcomes` and `delivered` alone and logs only reads under the deadline in force. -/
theorem Reader.Read_frame (b : Reader) (c : Conn) (k : Nat) :
    (b.Read c k).2.1.closed = c.closed ∧ (b.Read c k).2.1.deadline = c.deadline ∧
    (b.Read c k).2.1.outcomes = c.outcomes ∧ (b.Read c k).2.1.delivered = c.delivered ∧
    LogExt (Event.isReadUnder c.deadline) c.log (b.Read c k).2.1.log := by
  by_cases hk : k = 0
  · have hz : b.Read c k = (b, c, [], none) := by simp [Reader.Read, hk]
    rw [hz]
    exact ⟨rfl, rfl, rfl, rfl, LogExt.refl _ _⟩
  by_cases hb : b.buf = []
  · by_cases hbig : k ≥ defaultBufSize
    · rw [Reader.Read_large b c k hk hb hbig]
      exact Conn.netRead_frame c k
    · by_cases hz : (c.Read defaultBufSize).2.1 = []
      · rw [Reader.Read_small_none b c k hk hb hbig hz]
        exact Conn.netRead_frame c defaultBufSize
      · rw [Reader.Read_small_some b c k hk hb hbig hz]
        exact Conn.netRead_frame c defaultBufSize
  · rw [Reader.Read_buffered b c k hk hb]
    exact ⟨rfl, rfl, rfl, rfl, LogExt.refl _ _⟩

/-- A failing `Read` of the bufio reader: the buffer was empty, nothing was
obtained, nothing consumed, and an open transport had nothing to give. -/
theorem Reader.Read_err (b : Reader) (c : Conn) (k : Nat) (e : Error)
    (h : (b.Read c k).2.2.2 = some e) :
    b.buf = [] ∧ (b.Read c k).2.2.1 = [] ∧ (b.Read c k).1 = b ∧
    (b.Read c k).2.1.incoming = c.incoming ∧
    (c.closed = false → availAt c.deadline c.incoming = []) := by
  by_cases hk : k = 0
  · simp [Reader.Read, hk] at h
  by_cases hb : b.buf = []
  · by_cases hbig : k ≥ defaultBufSize
    · rw [Reader.Read_large b c k hk hb hbig] at h ⊢
      have := Conn.netRead_err c k e h
      exact ⟨hb, this.1, rfl, this.2.1, this.2.2⟩
    · by_cases hz : (c.Read defaultBufSize).2.1 = []
      · rw [Reader.Read_small_none b c k hk hb hbig hz] at h ⊢
        have := Conn.netRead_err c defaultBufSize e h
        exact ⟨hb, rfl, rfl, this.2.1, this.2.2⟩
      · rw [Reader.Read_small_some b c k hk hb hbig hz] at h
        cases h
  · rw [Reader.Read_buffered b c k hk hb] at h
    cases h

/-- A successful `Read` of the bufio reader with `k > 0`: it hands over the first
bytes of the unread input, at most `k`, and keeps the rest. -/
theorem Reader.Read_ok (b : Reader) (c : Conn) (k : Nat) (hk : k ≠ 0)
    (h : (b.Read c k).2.2.2 = none) :
    (b.Read c k).2.2.1.length ≤ k ∧
    (∀ d, dle c.deadline d →
      b.buf ++ availAt d c.incoming
        = (b.Read c k).2.2.1 ++ ((b.Read c k).1.buf ++ availAt d (b.Read c k).2.1.incoming)) ∧
    (c.closed = true → b.buf = (b.Read c k).2.2.1 ++ (b.Read c k).1.buf) := by
  by_cases hb : b.buf = []
  · by_cases hbig : k ≥ defaultBufSize
    · rw [Reader.Read_large b c k hk hb hbig] at h ⊢
      obtain ⟨h1, h2, h3⟩ := Conn.netRead_ok c k h
      refine ⟨h2, ?_, ?_⟩
      · intro d hd
        simp only [hb, List.nil_append]
        exact h3 d hd
      · intro hc; rw [h1] at hc; cases hc
    · obtain ⟨h1, h2, h3⟩ : c.closed = false ∧ (c.Read defaultBufSize).2.1.length ≤ defaultBufSize ∧
          ∀ d, dle c.deadline d → availAt d c.incoming
            = (c.Read defaultBufSize).2.1 ++ availAt d (c.Read defaultBufSize).1.incoming := by
        apply Conn.netRead_ok
        by_cases hz : (c.Read defaultBufSize).2.1 = []
        · rw [Reader.Read_small_none b c k hk hb hbig hz] at h
          exact h
        · cases hq : (c.Read defaultBufSize).2.2 with
          | none => rfl
          | some e => exact absurd (Conn.netRead_err c defaultBufSize e hq).1 hz
      by_cases hz : (c.Read defaultBufSize).2.1 = []
      · rw [Reader.Read_small_none b c k hk hb hbig hz]
        refine ⟨by simp, ?_, ?_⟩
        · intro d hd
          have := h3 d hd
          rw [hz] at this
          simpa [hb] using this
        · intro hc; rw [h1] at hc; cases hc
      · rw [Reader.Read_small_some b c k hk hb hbig hz]
        refine ⟨by simp, ?_, ?_⟩
        · intro d hd
          simp only [hb, List.nil_append]
          rw [h3 d hd, ← List.append_assoc, List.take_append_drop]
        · intro hc; rw [h1] at hc; cases hc
  · rw [Reader.Read_buffered b c k hk hb]
    refine ⟨by simp, ?_, ?_⟩
    · intro d _
      simp only []
      rw [← List.append_assoc, List.take_append_drop]
    · intro _; simp

/-- A successful `Read` with `k > 0` obtains at least one byte whenever the
buffer holds one. -/
theorem Reader.Read_progress (b : Reader) (c : Conn) (k : Nat) (hk : k ≠ 0) (hb : b.buf ≠ []) :
    (b.Read c k).2.2.2 = none ∧ (b.Read c k).2.2.1 ≠ [] := by
  rw [Reader.Read_buffered b c k hk hb]
  refine ⟨rfl, ?_⟩
  simp only []
  intro h
  have := congrArg List.length h
  simp at this
  rcases this with h1 | h1
  · exact hk h1
  · exact hb h1

theorem Sees.self (c : Conn) : Sees c c.closed c.deadline := by
  unfold Sees
  cases h : c.closed
  · exact Or.inl ⟨rfl, dle_refl _⟩
  · exact Or.inr ⟨rfl, rfl⟩

theorem Sees.stream (c : Conn) : Sees c false none :=
  Or.inl ⟨rfl, dle_none _⟩

theorem Sees.congr {c c1 : Conn} {cl : Bool} {d : Option Nat} (h : Sees c cl d)
    (h1 : c1.closed = c.closed) (h2 : c1.deadline = c.deadline) : Sees c1 cl d := by
  unfold Sees at h ⊢
  rw [h1, h2]
  exact h

theorem RepConn.unread_eq (r : RepConn) :
    r.unread = r.rw.Reader.buf ++ availC r.c.closed r.c.deadline r.c.incoming := rfl

theorem RepConn.stream_eq (r : RepConn) :
    r.stream = r.rw.Reader.buf ++ availC false none r.c.incoming := rfl

/-- A successful `Read` of the bufio reader splits the unread input, in every
view the reads respect, into the bytes handed over and the rest. -/
theorem Reader.Read_split (b : Reader) (c : Conn) (k : Nat) (hk : k ≠ 0)
    (h : (b.Read c k).2.2.2 = none) (cl : Bool) (d : Option Nat) (hs : Sees c cl d) :
    b.buf ++ availC cl d c.incoming
      = (b.Read c k).2.2.1 ++ ((b.Read c k).1.buf ++ availC cl d (b.Read c k).2.1.incoming) := by
  obtain ⟨_, h2, h3⟩ := Reader.Read_ok b c k hk h
  rcases hs with ⟨rfl, hd⟩ | ⟨rfl, hc⟩
  · simpa [availC] using h2 d hd
  · simpa [availC] using h3 hc

theorem readFullLoop_zero (b : Reader) (c : Conn) (acc : List Byte) :
    readFullLoop b c 0 acc = (b, c, acc, none) := by
  rw [readFullLoop]; simp

theorem readFullLoop_step (b : Reader) (c : Conn) (need : Nat) (acc : List Byte)
    (hneed : need ≠ 0) (h : (b.Read c need).2.2.2 = none) :
    readFullLoop b c need acc =
      readFullLoop (b.Read c need).1 (b.Read c need).2.1 (need - (b.Read c need).2.2.1.length)
        (acc ++ (b.Read c need).2.2.1) := by
  rw [readFullLoop]
  simp only [hneed, dite_false]
  split
  · rename_i b1 c1 bytes e hr
    rw [hr] at h; cases h
  · rename_i b1 c1 bytes hr
    rw [hr]

theorem readFullLoop_fail (b : Reader) (c : Conn) (need : Nat) (acc : List Byte)
    (hneed : need ≠ 0) (e : Error) (h : (b.Read c need).2.2.2 = some e) :
    readFullLoop b c need acc =
      ((b.Read c need).1, (b.Read c need).2.1, acc,
        some (if acc.length > 0 ∧ e = Error.EOF then Error.ErrUnexpectedEOF else e)) := by
  have hb := (Reader.Read_err b c need e h).2.1
  rw [readFullLoop]
  simp only [hneed, dite_false]
  split
  · rename_i b1 c1 bytes e1 hr
    rw [hr] at h hb ⊢
    simp only [Option.some.injEq] at h hb
    subst h hb
    have : ¬ (0 ≥ need) := by omega
    simp only [List.length_nil, this, if_false, List.append_nil]
    split <;> rfl
  · rename_i b1 c1 bytes hr
    rw [hr] at h; cases h

/-- The loop of `io.ReadFull` leaves the transport's `closed`, `deadline`,
`outcomes` and `delivered` alone and logs only reads under the deadline in force. -/
theorem readFullLoop_frame (b : Reader) (c : Conn) (need : Nat) (acc : List Byte) :
    (readFullLoop b c need acc).2.1.closed = c.closed ∧
    (readFullLoop b c need acc).2.1.deadline = c.deadline ∧
    (readFullLoop b c need acc).2.1.outcomes = c.outcomes ∧
    (readFullLoop b c need acc).2.1.delivered = c.delivered ∧
    LogExt (Event.isReadUnder c.deadline) c.log (readFullLoop b c need acc).2.1.log := by
  induction b, c, need, acc using readFullLoop.induct with
  | case1 b c acc =>
    rw [readFullLoop_zero]
    exact ⟨rfl, rfl, rfl, rfl, LogExt.refl _ _⟩
  | case2 b c need acc hneed b1 c1 bytes e hr _ =>
    rw [readFullLoop_fail b c need acc hneed e (by rw [hr])]
    exact Reader.Read_frame b c need
  | case3 b c need acc hneed b1 c1 bytes e hr _ _ =>
    rw [readFullLoop_fail b c need acc hneed e (by rw [hr])]
    exact Reader.Read_frame b c need
  | case4 b c need acc hneed b1 c1 bytes e hr _ _ =>
    rw [readFullLoop_fail b c need acc hneed e (by rw [hr])]
    exact Reader.Read_frame b c need
  | case5 b c need acc hneed b1 c1 bytes hr ih =>
    rw [readFullLoop_step b c need acc hneed (by rw [hr]), hr]
    have h1 := Reader.Read_frame b c need
    rw [hr] at h1
    simp only [] at h1 ⊢
    obtain ⟨i1, i2, i3, i4, i5⟩ := ih
    obtain ⟨j1, j2, j3, j4, j5⟩ := h1
    refine ⟨by rw [i1, j1], by rw [i2, j2], by rw [i3, j3], by rw [i4, j4], ?_⟩
    rw [j2] at i5
    exact j5.trans i5

/-- When the unread input holds `need` bytes, `io.ReadFull` succeeds, returns
exactly the first `need` of them and leaves the rest unread, in every view. -/
theorem readFullLoop_ok (b : Reader) (c : Conn) (need : Nat) (acc : List Byte)
    (h : need ≤ (b.buf ++ availC c.closed c.deadline c.incoming).length) :
    (readFullLoop b c need acc).2.2.2 = none ∧
    (readFullLoop b c need acc).2.2.1
      = acc ++ (b.buf ++ availC c.closed c.deadline c.incoming).take need ∧
    ∀ cl d, Sees c cl d →
      (readFullLoop b c need acc).1.buf ++ availC cl d (readFullLoop b c need acc).2.1.incoming
        = (b.buf ++ availC cl d c.incoming).drop need := by
  induction b, c, need, acc using readFullLoop.induct with
  | case1 b c acc =>
    rw [readFullLoop_zero]
    simp
  | case2 b c need acc hneed b1 c1 bytes e hr hlen =>
    exfalso
    have := (Reader.Read_err b c need e (by rw [hr])).2.1
    rw [hr] at this
    simp only [] at this
    subst this
    simp at hlen
    exact hneed hlen
  | case3 b c need acc hneed b1 c1 bytes e hr _ _ =>
    exfalso
    obtain ⟨hb, _, _, _, ha⟩ := Reader.Read_err b c need e (by rw [hr])
    cases hc : c.closed with
    | true => simp [hb, availC, hc] at h; exact hneed h
    | false => simp [hb, availC, hc, ha hc] at h; exact hneed h
  | case4 b c need acc hneed b1 c1 bytes e hr _ _ =>
    exfalso
    obtain ⟨hb, _, _, _, ha⟩ := Reader.Read_err b c need e (by rw [hr])
    cases hc : c.closed with
    | true => simp [hb, availC, hc] at h; exact hneed h
    | false => simp [hb, availC, hc, ha hc] at h; exact hneed h
  | case5 b c need acc hneed b1 c1 bytes hr ih =>
    have hok : (b.Read c need).2.2.2 = none := by rw [hr]
    have hfr := Reader.Read_frame b c need
    have hlen := (Reader.Read_ok b c need hneed hok).1
    have hsp := Reader.Read_split b c need hneed hok
    rw [readFullLoop_step b c need acc hneed hok, hr]
    rw [hr] at hfr hlen hsp
    simp only [] at hfr hlen hsp ⊢
    obtain ⟨f1, f2, _, _, _⟩ := hfr
    have hself := hsp c.closed c.deadline (Sees.self c)
    rw [f1, f2] at ih
    have hneed2 : need - bytes.length ≤ (b1.buf ++ availC c.closed c.deadline c1.incoming).length := by
      have := congrArg List.length hself
      simp only [List.length_append] at this h ⊢
      omega
    obtain ⟨i1, i2, i3⟩ := ih hneed2
    have ht : ∀ R : List Byte, List.take need (bytes ++ R)
        = bytes ++ List.take (need - bytes.length) R := by
      intro R
      rw [List.take_append_eq_append_take, List.take_of_length_le hlen]
    have hd : ∀ R : List Byte, List.drop need (bytes ++ R)
        = List.drop (need - bytes.length) R := by
      intro R
      rw [List.drop_append_eq_append_drop, List.drop_eq_nil_of_le hlen]
      simp
    refine ⟨i1, ?_, ?_⟩
    · rw [i2, hself, ht, List.append_assoc]
    · intro cl d hs
      rw [i3 cl d (hs.congr f1 f2), hsp cl d hs, hd]

/-- When the unread input holds fewer than `need` bytes, `io.ReadFull` fails. -/
theorem readFullLoop_short (b : Reader) (c : Conn) (need : Nat) (acc : List Byte)
    (h : (b.buf ++ availC c.closed c.deadline c.incoming).length < need) :
    ∃ e, (readFullLoop b c need acc).2.2.2 = some e := by
  induction b, c, need, acc using readFullLoop.induct with
  | case1 b c acc => simp at h
  | case2 b c need acc hneed b1 c1 bytes e hr hlen =>
    rw [readFullLoop_fail b c need acc hneed e (by rw [hr])]
    exact ⟨_, rfl⟩
  | case3 b c need acc hneed b1 c1 bytes e hr _ _ =>
    rw [readFullLoop_fail b c need acc hneed e (by rw [hr])]
    exact ⟨_, rfl⟩
  | case4 b c need acc hneed b1 c1 bytes e hr _ _ =>
    rw [readFullLoop_fail b c need acc hneed e (by rw [hr])]
    exact ⟨_, rfl⟩
  | case5 b c need acc hneed b1 c1 bytes hr ih =>
    have hok : (b.Read c need).2.2.2 = none := by rw [hr]
    have hfr := Reader.Read_frame b c need
    have hsp := Reader.Read_split b c need hneed hok
    rw [readFullLoop_step b c need acc hneed hok, hr]
    rw [hr] at hfr hsp
    simp only [] at hfr hsp ⊢
    obtain ⟨f1, f2, _, _, _⟩ := hfr
    have hself := hsp c.closed c.deadline (Sees.self c)
    rw [f1, f2] at ih
    apply ih
    have := congrArg List.length hself
    simp only [List.length_append] at this h ⊢
    omega

theorem RepConn.Step.stay (P : Event → Prop) (r : RepConn) : RepConn.Step P r r :=
  ⟨rfl, rfl, rfl, LogExt.refl _ _⟩

theorem RepConn.Step.andThen {P : Event → Prop} {r1 r2 r3 : RepConn}
    (h1 : RepConn.Step P r1 r2) (h2 : RepConn.Step P r2 r3) : RepConn.Step P r1 r3 :=
  ⟨h2.1.trans h1.1, h2.2.1.trans h1.2.1, h2.2.2.1.trans h1.2.2.1, h1.2.2.2.trans h2.2.2.2⟩

theorem RepConn.rwWrite_step (r : RepConn) (p : List Byte) :
    RepConn.Step (Event.isWriteUnder r.c.deadline) r (r.rwWrite p).1 ∧
    (r.rwWrite p).1.rw.Reader = r.rw.Reader ∧ (r.rwWrite p).1.c.incoming = r.c.incoming := by
  obtain ⟨h1, h2, h3, h4⟩ := Writer.writeLoop_frame r.rw.Writer r.c p 0
  exact ⟨⟨rfl, h1, h2, h4⟩, rfl, h3⟩

theorem RepConn.rwWrite_ok (r : RepConn) (p : List Byte) (h : (r.rwWrite p).2.2 = none) :
    (r.rwWrite p).1.rw.Writer.err = none ∧ r.rw.Writer.err = none ∧
    (r.rwWrite p).1.c.delivered ++ (r.rwWrite p).1.rw.Writer.buf
      = r.c.delivered ++ r.rw.Writer.buf ++ p ∧
    (r.rwWrite p).2.1 = p.length := by
  have := Writer.writeLoop_ok r.rw.Writer r.c p 0 h
  simpa [RepConn.rwWrite, Writer.Write] using this

theorem RepConn.rwWrite_of_closed (r : RepConn) (p : List Byte) (hc : r.c.closed = true) :
    ((r.rwWrite p).2.2 = none ↔ (r.rw.Writer.err = none ∧ p.length ≤ r.rw.Writer.Available)) ∧
    ((r.rwWrite p).2.2 = none →
      r.rwWrite p = ({ r with rw := { r.rw with Writer := { r.rw.Writer with buf := r.rw.Writer.buf ++ p } } },
        p.length, none)) := by
  have h1 := Writer.writeLoop_of_closed r.rw.Writer r.c p 0 hc
  refine ⟨h1, ?_⟩
  intro h
  obtain ⟨he, hfit⟩ := h1.mp h
  simp [RepConn.rwWrite, Writer.Write, Writer.writeLoop_fits _ _ _ _ he hfit]

theorem RepConn.rwFlush_step (r : RepConn) :
    RepConn.Step (Event.isWriteUnder r.c.deadline) r r.rwFlush.1 ∧
    r.rwFlush.1.rw.Reader = r.rw.Reader ∧ r.rwFlush.1.c.incoming = r.c.incoming := by
  obtain ⟨h1, h2, h3, h4⟩ := Writer.Flush_frame r.rw.Writer r.c
  exact ⟨⟨rfl, h1, h2, h4⟩, rfl, h3⟩

theorem RepConn.rwFlush_ok (r : RepConn) (h : r.rwFlush.2 = none) :
    r.rwFlush.1.rw.Writer = { buf := [], err := none } ∧ r.rw.Writer.err = none ∧
    r.rwFlush.1.c.delivered = r.c.delivered ++ r.rw.Writer.buf :=
  Writer.Flush_ok r.rw.Writer r.c h

theorem RepConn.rwFlush_of_closed (r : RepConn) (hc : r.c.closed = true) :
    (r.rwFlush.2 = none ↔ r.rw.Writer.err = none ∧ r.rw.Writer.buf = []) ∧
    (r.rwFlush.2 = none → r.rwFlush = (r, none)) := by
  obtain ⟨h1, h2⟩ := Writer.bufFlush_of_closed r.rw.Writer r.c hc
  refine ⟨h1, ?_⟩
  intro h
  have := h2 h
  simp [RepConn.rwFlush, this]

theorem RepConn.rwReadFull_step (r : RepConn) (k : Nat) :
    RepConn.Step (Event.isReadUnder r.c.deadline) r (r.rwReadFull k).1 ∧
    (r.rwReadFull k).1.rw.Writer = r.rw.Writer ∧
    (r.rwReadFull k).1.c.outcomes = r.c.outcomes ∧
    (r.rwReadFull k).1.c.delivered = r.c.delivered := by
  obtain ⟨h1, h2, h3, h4, h5⟩ := readFullLoop_frame r.rw.Reader r.c k []
  exact ⟨⟨rfl, h1, h2, h5⟩, rfl, h3, h4⟩

theorem RepConn.rwReadFull_ok (r : RepConn) (k : Nat) (h : k ≤ r.unread.length) :
    (r.rwReadFull k).2.2 = none ∧ (r.rwReadFull k).2.1 = r.unread.take k ∧
    ∀ cl d, Sees r.c cl d →
      (r.rwReadFull k).1.rw.Reader.buf ++ availC cl d (r.rwReadFull k).1.c.incoming
        = (r.rw.Reader.buf ++ availC cl d r.c.incoming).drop k := by
  rw [RepConn.unread_eq] at h ⊢
  have := readFullLoop_ok r.rw.Reader r.c k [] h
  simpa [RepConn.rwReadFull, ReadFull] using this

theorem RepConn.rwReadFull_short (r : RepConn) (k : Nat) (h : r.unread.length < k) :
    ∃ e, (r.rwReadFull k).2.2 = some e := by
  rw [RepConn.unread_eq] at h
  exact readFullLoop_short r.rw.Reader r.c k [] h

theorem RepConn.rwReadFull_iff (r : RepConn) (k : Nat) :
    (r.rwReadFull k).2.2 = none ↔ k ≤ r.unread.length := by
  constructor
  · intro h
    by_contra hlt
    obtain ⟨e, he⟩ := RepConn.rwReadFull_short r k (by omega)
    rw [he] at h; cases h
  · intro h
    exact (RepConn.rwReadFull_ok r k h).1

theorem RepConn.setDeadline_step (P : Event → Prop) (r : RepConn) (t : Nat) :
    (r.setDeadline t).Disconnected = r.Disconnected ∧ (r.setDeadline t).c.closed = r.c.closed ∧
    (r.setDeadline t).c.deadline = some t ∧ (r.setDeadline t).rw = r.rw ∧
    (r.setDeadline t).c.incoming = r.c.incoming ∧ (r.setDeadline t).c.delivered = r.c.delivered ∧
    (r.setDeadline t).c.log = r.c.log ++ [Event.setDeadline t] :=
  ⟨rfl, rfl, rfl, rfl, rfl, rfl, rfl⟩

/-- The shape of `SendMessage`: after setting the deadline it only issues
transport writes; it ends by closing the connection and returning an error,
or, without error, with the pending bytes and the frame delivered and the write
buffer empty. -/
theorem RepConn.SendMessage_cases {α : Type} [GoJSON α] (r : RepConn) (now : Nat) (v : α) :
    ∃ r1, RepConn.Step (Event.isWriteUnder (some (now + repOTimeout)))
        (r.setDeadline (now + repOTimeout)) r1 ∧
      ((∃ e, r.SendMessage now v = (r1.Close, some e)) ∨
       (r.SendMessage now v = (r1, none) ∧
        ∃ jsoned, GoJSON.Marshal v = Except.ok jsoned ∧
          r1.c.delivered = r.c.delivered ++ r.rw.Writer.buf ++ frame jsoned ∧
          r1.rw.Writer = { buf := [], err := none })) := by
  have hr0 : ({ r with c := r.c.SetDeadline (now + repOTimeout) } : RepConn)
      = r.setDeadline (now + repOTimeout) := rfl
  generalize hr0' : r.setDeadline (now + repOTimeout) = r0 at hr0
  have hd0 : r0.c.deadline = some (now + repOTimeout) := by rw [← hr0']; rfl
  have hdel0 : r0.c.delivered = r.c.delivered := by rw [← hr0']; rfl
  have hw0 : r0.rw.Writer = r.rw.Writer := by rw [← hr0']; rfl
  unfold RepConn.SendMessage
  simp only [hr0]
  cases hm : (GoJSON.Marshal v : Except Error (List Byte)) with
  | error e => exact ⟨r0, RepConn.Step.stay _ _, Or.inl ⟨e, rfl⟩⟩
  | ok jsoned =>
    simp only []
    have s1 := (RepConn.rwWrite_step r0 (PutUint32 (jsoned.length % 2 ^ 32))).1
    have k1 := RepConn.rwWrite_ok r0 (PutUint32 (jsoned.length % 2 ^ 32))
    rcases h1 : r0.rwWrite (PutUint32 (jsoned.length % 2 ^ 32)) with ⟨r1, n1, e1⟩
    rw [h1] at s1 k1
    rw [hd0] at s1
    simp only [] at s1 k1
    cases e1 with
    | some e => exact ⟨r1, s1, Or.inl ⟨e, rfl⟩⟩
    | none =>
      simp only []
      have s2 := (RepConn.rwWrite_step r1 jsoned).1
      have k2 := RepConn.rwWrite_ok r1 jsoned
      rcases h2 : r1.rwWrite jsoned with ⟨r2, n2, e2⟩
      rw [h2] at s2 k2
      rw [s1.2.2.1, hd0] at s2
      simp only [] at s2 k2
      cases e2 with
      | some e => exact ⟨r2, s1.andThen s2, Or.inl ⟨e, rfl⟩⟩
      | none =>
        simp only []
        have s3 := (RepConn.rwFlush_step r2).1
        have k3 := RepConn.rwFlush_ok r2
        rcases h3 : r2.rwFlush with ⟨r3, e3⟩
        rw [h3] at s3 k3
        rw [s2.2.2.1, s1.2.2.1, hd0] at s3
        simp only [] at s3 k3
        cases e3 with
        | some e => exact ⟨r3, (s1.andThen s2).andThen s3, Or.inl ⟨e, rfl⟩⟩
        | none =>
          refine ⟨r3, (s1.andThen s2).andThen s3, Or.inr ⟨rfl, jsoned, rfl, ?_, (k3 rfl).1⟩⟩
          rw [(k3 rfl).2.2, (k2 rfl).2.2.1, (k1 rfl).2.2.1, hdel0, hw0]
          simp [frame]

/-- The shape of `Write`: after setting the deadline it only issues transport
writes; it ends by closing the connection and returning an error, or, without
error, with all of `data` accepted and no byte lost. -/
theorem RepConn.Write_cases (r : RepConn) (now : Nat) (data : List Byte) :
    ∃ r1, RepConn.Step (Event.isWriteUnder (some (now + repOTimeout)))
        (r.setDeadline (now + repOTimeout)) r1 ∧
      ((∃ e l, r.Write now data = (r1.Close, l, some e)) ∨
       (r.Write now data = (r1, data.length, none) ∧
        r1.c.delivered ++ r1.rw.Writer.buf = r.c.delivered ++ r.rw.Writer.buf ++ data)) := by
  have hr0 : ({ r with c := r.c.SetDeadline (now + repOTimeout) } : RepConn)
      = r.setDeadline (now + repOTimeout) := rfl
  generalize hr0' : r.setDeadline (now + repOTimeout) = r0 at hr0
  have hd0 : r0.c.deadline = some (now + repOTimeout) := by rw [← hr0']; rfl
  have hdel0 : r0.c.delivered = r.c.delivered := by rw [← hr0']; rfl
  have hw0 : r0.rw.Writer = r.rw.Writer := by rw [← hr0']; rfl
  unfold RepConn.Write
  simp only [hr0]
  have s1 := (RepConn.rwWrite_step r0 data).1
  have k1 := RepConn.rwWrite_ok r0 data
  rcases h1 : r0.rwWrite data with ⟨r1, n1, e1⟩
  rw [h1] at s1 k1
  rw [hd0] at s1
  simp only [] at s1 k1
  cases e1 with
  | some e => exact ⟨r1, s1, Or.inl ⟨e, n1, rfl⟩⟩
  | none =>
    obtain ⟨_, _, k3, k4⟩ := k1 rfl
    subst k4
    refine ⟨r1, s1, Or.inr ⟨rfl, ?_⟩⟩
    rw [k3, hdel0, hw0]

/-- The shape of `Flush`: after setting the deadline it only issues transport
writes; it ends by closing the connection and returning an error, or, without
error, with the pending bytes delivered and the write buffer empty. -/
theorem RepConn.Flush_cases (r : RepConn) (now : Nat) :
    ∃ r1, RepConn.Step (Event.isWriteUnder (some (now + repOTimeout)))
        (r.setDeadline (now + repOTimeout)) r1 ∧
      ((∃ e, r.Flush now = (r1.Close, some e)) ∨
       (r.Flush now = (r1, none) ∧
        r1.c.delivered = r.c.delivered ++ r.rw.Writer.buf ∧
        r1.rw.Writer = { buf := [], err := none })) := by
  have hr0 : ({ r with c := r.c.SetDeadline (now + repOTimeout) } : RepConn)
      = r.setDeadline (now + repOTimeout) := rfl
  generalize hr0' : r.setDeadline (now + repOTimeout) = r0 at hr0
  have hd0 : r0.c.deadline = some (now + repOTimeout) := by rw [← hr0']; rfl
  have hdel0 : r0.c.delivered = r.c.delivered := by rw [← hr0']; rfl
  have hw0 : r0.rw.Writer = r.rw.Writer := by rw [← hr0']; rfl
  unfold RepConn.Flush
  simp only [hr0]
  have s1 := (RepConn.rwFlush_step r0).1
  have k1 := RepConn.rwFlush_ok r0
  rcases h1 : r0.rwFlush with ⟨r1, e1⟩
  rw [h1] at s1 k1
  rw [hd0] at s1
  simp only [] at s1 k1
  cases e1 with
  | some e => exact ⟨r1, s1, Or.inl ⟨e, rfl⟩⟩
  | none =>
    obtain ⟨k2, _, k3⟩ := k1 rfl
    refine ⟨r1, s1, Or.inr ⟨rfl, ?_, k2⟩⟩
    rw [k3, hdel0, hw0]

/-- The shape of `Read`: after setting the deadline it only issues transport
reads; it succeeds exactly when the bytes obtainable under the deadline
number at least `k`, and then returns the first `k` of them and leaves the
rest unread; else it closes the connection and returns an error. -/
theorem RepConn.Read_cases (r : RepConn) (now : Nat) (k : Nat) :
    ∃ r1, RepConn.Step (Event.isReadUnder (some (now + repITimeout)))
        (r.setDeadline (now + repITimeout)) r1 ∧
      ((r.readable (some (now + repITimeout))).length < k ∧
        (∃ e bs, r.Read now k = (r1.Close, bs, some e)) ∨
       (k ≤ (r.readable (some (now + repITimeout))).length ∧
        r.Read now k = (r1, (r.readable (some (now + repITimeout))).take k, none) ∧
        ∀ cl d, Sees (r.setDeadline (now + repITimeout)).c cl d →
          r1.rw.Reader.buf ++ availC cl d r1.c.incoming
            = (r.rw.Reader.buf ++ availC cl d r.c.incoming).drop k)) := by
  have hr0 : ({ r with c := r.c.SetDeadline (now + repITimeout) } : RepConn)
      = r.setDeadline (now + repITimeout) := rfl
  have hU : (r.setDeadline (now + repITimeout)).unread = r.readable (some (now + repITimeout)) := rfl
  have hrd : (r.setDeadline (now + repITimeout)).rw = r.rw := rfl
  have hinc : (r.setDeadline (now + repITimeout)).c.incoming = r.c.incoming := rfl
  have hd0 : (r.setDeadline (now + repITimeout)).c.deadline = some (now + repITimeout) := rfl
  generalize r.readable (some (now + repITimeout)) = U at hU ⊢
  generalize r.setDeadline (now + repITimeout) = r0 at hr0 hU hrd hinc hd0 ⊢
  unfold RepConn.Read
  simp only [hr0]
  have s1 := (RepConn.rwReadFull_step r0 k).1
  have k1 := RepConn.rwReadFull_ok r0 k
  have k2 := RepConn.rwReadFull_short r0 k
  rw [hd0] at s1
  rw [hU] at k1 k2
  rcases h1 : r0.rwReadFull k with ⟨r1, bs, e1⟩
  rw [h1] at s1 k1 k2
  simp only [] at s1 k1 k2
  by_cases hlen : k ≤ U.length
  · obtain ⟨j1, j2, j3⟩ := k1 hlen
    subst j1 j2
    refine ⟨r1, s1, Or.inr ⟨hlen, rfl, ?_⟩⟩
    intro cl d hs
    rw [j3 cl d hs, hrd, hinc]
  · obtain ⟨e, he⟩ := k2 (by omega)
    subst he
    exact ⟨r1, s1, Or.inl ⟨by omega, e, bs, rfl⟩⟩

/-- The frame header read from the input `U`. -/
theorem take_four_length (U : List Byte) (h : 4 ≤ U.length) : (U.take 4).length = 4 := by
  simp [List.length_take]; omega

/-- The shape of `RecvMessage`.  With `U` the bytes obtainable under the new
deadline and `n` the big-endian value of the first four: when `U` holds fewer
than 4 bytes, or fewer than `4 + n`, the call closes the connection and returns
an error with the destination untouched, whatever the decoder; otherwise it
consumes exactly `4 + n` bytes and its outcome is that of decoding the `n`
bytes after the header. -/
theorem RepConn.RecvMessage_cases {α : Type} [GoJSON α] (r : RepConn) (now : Nat) (v : α) :
    ∃ r1, RepConn.Step (Event.isReadUnder (some (now + repITimeout)))
        (r.setDeadline (now + repITimeout)) r1 ∧
      (((r.readable (some (now + repITimeout))).length < 4 ∨
        (r.readable (some (now + repITimeout))).length
          < 4 + Uint32 ((r.readable (some (now + repITimeout))).take 4)) ∧
        (∃ e, ∀ (inst : GoJSON α), @RepConn.RecvMessage α inst r now v = (r1.Close, v, some e)) ∨
       (4 + Uint32 ((r.readable (some (now + repITimeout))).take 4)
          ≤ (r.readable (some (now + repITimeout))).length ∧
        (∀ cl d, Sees (r.setDeadline (now + repITimeout)).c cl d →
          r1.rw.Reader.buf ++ availC cl d r1.c.incoming
            = (r.rw.Reader.buf ++ availC cl d r.c.incoming).drop
                (4 + Uint32 ((r.readable (some (now + repITimeout))).take 4))) ∧
        r.RecvMessage now v =
          match GoJSON.Unmarshal
            (((r.readable (some (now + repITimeout))).drop 4).take
              (Uint32 ((r.readable (some (now + repITimeout))).take 4))) v with
          | (v1, some e) => (r1.Close, v1, some e)
          | (v1, none) => (r1, v1, none))) := by
  have hr0 : ({ r with c := r.c.SetDeadline (now + repITimeout) } : RepConn)
      = r.setDeadline (now + repITimeout) := rfl
  have hU : (r.setDeadline (now + repITimeout)).unread = r.readable (some (now + repITimeout)) := rfl
  have hrd : (r.setDeadline (now + repITimeout)).rw = r.rw := rfl
  have hinc : (r.setDeadline (now + repITimeout)).c.incoming = r.c.incoming := rfl
  have hd0 : (r.setDeadline (now + repITimeout)).c.deadline = some (now + repITimeout) := rfl
  generalize r.readable (some (now + repITimeout)) = U at hU ⊢
  generalize r.setDeadline (now + repITimeout) = r0 at hr0 hU hrd hinc hd0 ⊢
  unfold RepConn.RecvMessage
  simp only [hr0]
  have s1 := (RepConn.rwReadFull_step r0 4).1
  have k1 := RepConn.rwReadFull_ok r0 4
  have k2 := RepConn.rwReadFull_short r0 4
  rw [hd0] at s1
  rw [hU] at k1 k2
  rcases h1 : r0.rwReadFull 4 with ⟨r1, bs, e1⟩
  rw [h1] at s1 k1 k2
  simp only [] at s1 k1 k2
  by_cases hlen : 4 ≤ U.length
  · obtain ⟨j1, j2, j3⟩ := k1 hlen
    subst j1 j2
    simp only []
    have hU1 : r1.unread = U.drop 4 := by
      rw [RepConn.unread_eq, s1.2.1, s1.2.2.1]
      rw [j3 _ _ (Sees.self r0.c), ← RepConn.unread_eq, hU]
    have s2 := (RepConn.rwReadFull_step r1 (Uint32 (U.take 4))).1
    have m1 := RepConn.rwReadFull_ok r1 (Uint32 (U.take 4))
    have m2 := RepConn.rwReadFull_short r1 (Uint32 (U.take 4))
    rw [s1.2.2.1, hd0] at s2
    rw [hU1] at m1 m2
    rcases h2 : r1.rwReadFull (Uint32 (U.take 4)) with ⟨r2, data, e2⟩
    rw [h2] at s2 m1 m2
    simp only [] at s2 m1 m2
    by_cases hlen2 : Uint32 (U.take 4) ≤ (U.drop 4).length
    · obtain ⟨i1, i2, i3⟩ := m1 hlen2
      subst i1 i2
      simp only [List.length_drop] at hlen2
      refine ⟨r2, s1.andThen s2, Or.inr ⟨by omega, ?_, rfl⟩⟩
      intro cl d hs
      have hs1 : Sees r1.c cl d := hs.congr s1.2.1 s1.2.2.1
      rw [i3 cl d hs1, j3 cl d hs, hrd, hinc, List.drop_drop]
    · obtain ⟨e, he⟩ := m2 (by omega)
      subst he
      simp only [List.length_drop] at hlen2
      exact ⟨r2, s1.andThen s2, Or.inl ⟨Or.inr (by omega), e, fun _ => rfl⟩⟩
  · obtain ⟨e, he⟩ := k2 (by omega)
    subst he
    exact ⟨r1, s1, Or.inl ⟨Or.inl (by omega), e, fun _ => rfl⟩⟩

theorem FailFast.of_step {P : Event → Prop} {r r0 r1 : RepConn} {res : RepConn} {err : Option Error}
    (h0 : r0.Disconnected = r.Disconnected ∧ r0.c.closed = r.c.closed)
    (hflag : r.Disconnected = false) (hs : RepConn.Step P r0 r1)
    (hres : (∃ e, res = r1.Close ∧ err = some e) ∨ (res = r1 ∧ err = none)) :
    FailFast r res err := by
  obtain ⟨s1, s2, _, _⟩ := hs
  rcases hres with ⟨e, rfl, rfl⟩ | ⟨rfl, rfl⟩
  · refine ⟨by simp [RepConn.Close, Conn.Close], by simp, by simp⟩
  · refine ⟨?_, fun _ => ⟨by rw [s1, h0.1, hflag], by rw [s2, h0.2]⟩,
      fun _ hc => ⟨by rw [s1, h0.1, hflag], by rw [s2, h0.2, hc]⟩⟩
    simp [s1, h0.1, hflag]

theorem DeadlineFirst.of_steps {io : Option Nat → Event → Prop} {t : Nat} {r r1 : RepConn}
    {c : Conn} (hs : RepConn.Step (io (some t)) (r.setDeadline t) r1)
    (hc : c = r1.c ∨ c = r1.c.Close) : DeadlineFirst io t r.c c := by
  obtain ⟨_, _, _, evs, hlog, hall⟩ := hs
  rcases hc with rfl | rfl
  · refine ⟨evs, ?_, fun e he => Or.inl (hall e he)⟩
    rw [hlog]; simp [RepConn.setDeadline, Conn.SetDeadline]
  · refine ⟨evs ++ [Event.close], ?_, ?_⟩
    · simp [Conn.Close, hlog, RepConn.setDeadline, Conn.SetDeadline]
    · intro e he
      rcases List.mem_append.mp he with h | h
      · exact Or.inl (hall e h)
      · right; simpa using h

/-- C3 (fail-fast).  For every connection whose `Disconnected` flag is false and
each of `SendMessage`, `RecvMessage`, `Read`, `Write` and `Flush`: after the call
the flag is true and the transport closed if and only if the call returned an
error; a call that succeeds leaves the flag false and the transport in the
state it was in; and a call that succeeds on an open transport, which is what
an established connection has, leaves the flag false and the transport open. -/
theorem failFast (r : RepConn) (now : Nat) (h : r.Disconnected = false) :
    (∀ (α : Type) [GoJSON α] (v : α),
      FailFast r (r.SendMessage now v).1 (r.SendMessage now v).2) ∧
    (∀ (α : Type) [GoJSON α] (v : α),
      FailFast r (r.RecvMessage now v).1 (r.RecvMessage now v).2.2) ∧
    (∀ k : Nat, FailFast r (r.Read now k).1 (r.Read now k).2.2) ∧
    (∀ data : List Byte, FailFast r (r.Write now data).1 (r.Write now data).2.2) ∧
    FailFast r (r.Flush now).1 (r.Flush now).2 := by
  refine ⟨?_, ?_, ?_, ?_, ?_⟩
  · intro α _ v
    obtain ⟨r1, hs, hres⟩ := RepConn.SendMessage_cases r now v
    refine @FailFast.of_step _ r (r.setDeadline (now + repOTimeout)) _ _ _ ⟨rfl, rfl⟩ h hs ?_
    rcases hres with ⟨e, he⟩ | ⟨he, _⟩
    · rw [he]; exact Or.inl ⟨e, rfl, rfl⟩
    · rw [he]; exact Or.inr ⟨rfl, rfl⟩
  · intro α _ v
    obtain ⟨r1, hs, hres⟩ := RepConn.RecvMessage_cases r now v
    refine @FailFast.of_step _ r (r.setDeadline (now + repITimeout)) _ _ _ ⟨rfl, rfl⟩ h hs ?_
    rcases hres with ⟨_, e, he⟩ | ⟨_, _, he⟩
    · rw [he]; exact Or.inl ⟨e, rfl, rfl⟩
    · rw [he]
      rcases GoJSON.Unmarshal _ v with ⟨v1, _ | e⟩
      · exact Or.inr ⟨rfl, rfl⟩
      · exact Or.inl ⟨e, rfl, rfl⟩
  · intro k
    obtain ⟨r1, hs, hres⟩ := RepConn.Read_cases r now k
    refine @FailFast.of_step _ r (r.setDeadline (now + repITimeout)) _ _ _ ⟨rfl, rfl⟩ h hs ?_
    rcases hres with ⟨_, e, bs, he⟩ | ⟨_, he, _⟩
    · rw [he]; exact Or.inl ⟨e, rfl, rfl⟩
    · rw [he]; exact Or.inr ⟨rfl, rfl⟩
  · intro data
    obtain ⟨r1, hs, hres⟩ := RepConn.Write_cases r now data
    refine @FailFast.of_step _ r (r.setDeadline (now + repOTimeout)) _ _ _ ⟨rfl, rfl⟩ h hs ?_
    rcases hres with ⟨e, l, he⟩ | ⟨he, _⟩
    · rw [he]; exact Or.inl ⟨e, rfl, rfl⟩
    · rw [he]; exact Or.inr ⟨rfl, rfl⟩
  · obtain ⟨r1, hs, hres⟩ := RepConn.Flush_cases r now
    refine @FailFast.of_step _ r (r.setDeadline (now + repOTimeout)) _ _ _ ⟨rfl, rfl⟩ h hs ?_
    rcases hres with ⟨e, he⟩ | ⟨he, _⟩
    · rw [he]; exact Or.inl ⟨e, rfl, rfl⟩
    · rw [he]; exact Or.inr ⟨rfl, rfl⟩

/-- C8 (sticky flag, idempotent close).  On a connection whose `Disconnected` flag
is true, every operation, with any argument and any I/O outcome, leaves the
flag true; and a second `Close` leaves the flag true and the transport closed
and changes nothing but the transport's record of calls. -/
theorem stickyFlag (r : RepConn) (now : Nat) (h : r.Disconnected = true) :
    (∀ (α : Type) [GoJSON α] (v : α), (r.SendMessage now v).1.Disconnected = true) ∧
    (∀ (α : Type) [GoJSON α] (v : α), (r.RecvMessage now v).1.Disconnected = true) ∧
    (∀ k : Nat, (r.Read now k).1.Disconnected = true) ∧
    (∀ data : List Byte, (r.Write now data).1.Disconnected = true) ∧
    (r.Flush now).1.Disconnected = true ∧
    r.Close.Disconnected = true ∧
    r.Close.Close.Disconnected = true ∧ r.Close.Close.c.closed = true ∧
    r.Close.c.closed = true ∧
    r.Close.Close = { r.Close with c := { r.Close.c with log := r.Close.c.log ++ [Event.close] } } := by
  have key : ∀ {P : Event → Prop} {t : Nat} {r1 res : RepConn},
      RepConn.Step P (r.setDeadline t) r1 → (res = r1.Close ∨ res = r1) →
      res.Disconnected = true := by
    intro P t r1 res hs hres
    rcases hres with rfl | rfl
    · rfl
    · rw [hs.1]; exact h
  refine ⟨?_, ?_, ?_, ?_, ?_, rfl, rfl, rfl, rfl, rfl⟩
  · intro α _ v
    obtain ⟨r1, hs, hres⟩ := RepConn.SendMessage_cases r now v
    apply key hs
    rcases hres with ⟨e, he⟩ | ⟨he, _⟩ <;> rw [he]
    · exact Or.inl rfl
    · exact Or.inr rfl
  · intro α _ v
    obtain ⟨r1, hs, hres⟩ := RepConn.RecvMessage_cases r now v
    apply key hs
    rcases hres with ⟨_, e, he⟩ | ⟨_, _, he⟩ <;> rw [he]
    · exact Or.inl rfl
    · rcases GoJSON.Unmarshal _ v with ⟨v1, _ | e⟩
      · exact Or.inr rfl
      · exact Or.inl rfl
  · intro k
    obtain ⟨r1, hs, hres⟩ := RepConn.Read_cases r now k
    apply key hs
    rcases hres with ⟨_, e, bs, he⟩ | ⟨_, he, _⟩ <;> rw [he]
    · exact Or.inl rfl
    · exact Or.inr rfl
  · intro data
    obtain ⟨r1, hs, hres⟩ := RepConn.Write_cases r now data
    apply key hs
    rcases hres with ⟨e, l, he⟩ | ⟨he, _⟩ <;> rw [he]
    · exact Or.inl rfl
    · exact Or.inr rfl
  · obtain ⟨r1, hs, hres⟩ := RepConn.Flush_cases r now
    apply key hs
    rcases hres with ⟨e, he⟩ | ⟨he, _⟩ <;> rw [he]
    · exact Or.inl rfl
    · exact Or.inr rfl

theorem PutUint32_length (n : Nat) : (PutUint32 n).length = 4 := rfl

theorem Uint32_PutUint32 (n : Nat) : Uint32 (PutUint32 n) = n % 2 ^ 32 := by
  simp [Uint32, PutUint32, Fin.ofNat]
  omega

theorem frame_length (p : List Byte) : (frame p).length = 4 + p.length := by
  simp [frame, PutUint32_length, Nat.add_comm]

/-- Reading a frame back: the header of `frame p ++ X` declares the length of `p`
(when it is below `2 ^ 32`), the declared bytes are `p`, and `X` follows. -/
theorem frame_split (p X : List Byte) (hp : p.length < 2 ^ 32) :
    Uint32 ((frame p ++ X).take 4) = p.length ∧
    ((frame p ++ X).drop 4).take p.length = p ∧
    (frame p ++ X).drop (4 + p.length) = X := by
  have h4 : (frame p ++ X).take 4 = PutUint32 (p.length % 2 ^ 32) := by
    simp [frame, List.take_append_eq_append_take, PutUint32]
  have hd : (frame p ++ X).drop 4 = p ++ X := by
    simp [frame, PutUint32]
  refine ⟨?_, ?_, ?_⟩
  · rw [h4, Uint32_PutUint32, Nat.mod_mod, Nat.mod_eq_of_lt hp]
  · rw [hd]; simp
  · rw [← List.drop_drop, hd]; simp

/-- Receiving a frame: when the bytes obtainable under the new deadline start
with the frame of a payload `p` shorter than `2 ^ 32`, `RecvMessage` hands
exactly `p` to the decoder, its outcome is the decoder's, and exactly the frame
has been consumed. -/
theorem RepConn.RecvMessage_frame {α : Type} [GoJSON α] (r : RepConn) (now : Nat) (v : α)
    (p X : List Byte) (hp : p.length < 2 ^ 32)
    (hU : r.readable (some (now + repITimeout)) = frame p ++ X) :
    ∃ r1, RepConn.Step (Event.isReadUnder (some (now + repITimeout)))
        (r.setDeadline (now + repITimeout)) r1 ∧
      (∀ cl d, Sees (r.setDeadline (now + repITimeout)).c cl d →
          r1.rw.Reader.buf ++ availC cl d r1.c.incoming
            = (r.rw.Reader.buf ++ availC cl d r.c.incoming).drop (4 + p.length)) ∧
      r.RecvMessage now v =
          match GoJSON.Unmarshal p v with
          | (v1, some e) => (r1.Close, v1, some e)
          | (v1, none) => (r1, v1, none) := by
  obtain ⟨f1, f2, f3⟩ := frame_split p X hp
  obtain ⟨r1, hs, hres⟩ := RepConn.RecvMessage_cases r now v
  rw [hU, f1] at hres
  rw [f2] at hres
  rcases hres with ⟨hlt, _⟩ | ⟨_, h2, h3⟩
  · exfalso
    simp only [List.length_append, frame_length] at hlt
    omega
  · exact ⟨r1, hs, h2, h3⟩

/-- C9 (rolling, direction-specific deadlines).  For a call made at time `now`:
`SendMessage`, `Write` and `Flush` first set the transport deadline to
`now + 1 minute` and every transport write they issue runs under that deadline;
`RecvMessage` and `Read` first set it to `now + 10 minutes` and every
transport read they issue runs under that deadline; the earlier deadline plays
no part.  Hence a `RecvMessage` whose frame arrives more than one minute and
less than ten minutes after the call started does not time out: its outcome
is that of decoding the payload. -/
theorem rollingDeadlines (r : RepConn) (now : Nat) :
    repOTimeout = 60 * 1000000000 ∧ repITimeout = 10 * (60 * 1000000000) ∧
    (∀ (α : Type) [GoJSON α] (v : α),
      DeadlineFirst Event.isWriteUnder (now + repOTimeout) r.c (r.SendMessage now v).1.c) ∧
    (∀ data : List Byte,
      DeadlineFirst Event.isWriteUnder (now + repOTimeout) r.c (r.Write now data).1.c) ∧
    DeadlineFirst Event.isWriteUnder (now + repOTimeout) r.c (r.Flush now).1.c ∧
    (∀ (α : Type) [GoJSON α] (v : α),
      DeadlineFirst Event.isReadUnder (now + repITimeout) r.c (r.RecvMessage now v).1.c) ∧
    (∀ k : Nat,
      DeadlineFirst Event.isReadUnder (now + repITimeout) r.c (r.Read now k).1.c) ∧
    (∀ (α : Type) [GoJSON α] (v : α) (t : Nat) (p : List Byte) (rest : List InEvent),
      now + repOTimeout < t → t < now + repITimeout →
      r.c.closed = false → r.rw.Reader.buf = [] → p.length < 2 ^ 32 →
      r.c.incoming = InEvent.data t (frame p) :: rest →
      (r.RecvMessage now v).2 = (GoJSON.Unmarshal p v)) := by
  refine ⟨by decide, by decide, ?_, ?_, ?_, ?_, ?_, ?_⟩
  · intro α _ v
    obtain ⟨r1, hs, hres⟩ := RepConn.SendMessage_cases r now v
    apply DeadlineFirst.of_steps hs
    rcases hres with ⟨e, he⟩ | ⟨he, _⟩ <;> rw [he]
    · exact Or.inr rfl
    · exact Or.inl rfl
  · intro data
    obtain ⟨r1, hs, hres⟩ := RepConn.Write_cases r now data
    apply DeadlineFirst.of_steps hs
    rcases hres with ⟨e, l, he⟩ | ⟨he, _⟩ <;> rw [he]
    · exact Or.inr rfl
    · exact Or.inl rfl
  · obtain ⟨r1, hs, hres⟩ := RepConn.Flush_cases r now
    apply DeadlineFirst.of_steps hs
    rcases hres with ⟨e, he⟩ | ⟨he, _⟩ <;> rw [he]
    · exact Or.inr rfl
    · exact Or.inl rfl
  · intro α _ v
    obtain ⟨r1, hs, hres⟩ := RepConn.RecvMessage_cases r now v
    apply DeadlineFirst.of_steps hs
    rcases hres with ⟨_, e, he⟩ | ⟨_, _, he⟩ <;> rw [he]
    · exact Or.inr rfl
    · rcases GoJSON.Unmarshal _ v with ⟨v1, _ | e⟩
      · exact Or.inl rfl
      · exact Or.inr rfl
  · intro k
    obtain ⟨r1, hs, hres⟩ := RepConn.Read_cases r now k
    apply DeadlineFirst.of_steps hs
    rcases hres with ⟨_, e, bs, he⟩ | ⟨_, he, _⟩ <;> rw [he]
    · exact Or.inr rfl
    · exact Or.inl rfl
  · intro α _ v t p rest _ ht hc hb hp hinc
    have hU : r.readable (some (now + repITimeout))
        = frame p ++ availAt (some (now + repITimeout)) rest := by
      simp [RepConn.readable, availC, hc, hb, hinc, availAt, beforeDeadline, ht]
    obtain ⟨r1, _, _, he⟩ := RepConn.RecvMessage_frame r now v p _ hp hU
    rw [he]
    rcases GoJSON.Unmarshal p v with ⟨v1, _ | e⟩ <;> rfl

/-- C7 (framing correctness).  Let `U` be the bytes the incoming stream supplies
before it ends or the input deadline elapses (after those already buffered).
When `U` has fewer than 4 bytes, or 4 bytes declaring a length `n` and fewer
than `4 + n` bytes in all, `RecvMessage` returns an error, closes the connection
and leaves the destination as it was; the decode step does not run: the result is
the same whatever the decoder. -/
theorem framingShort {α : Type} [GoJSON α] (r : RepConn) (now : Nat) (v : α)
    (h : (r.readable (some (now + repITimeout))).length < 4 ∨
      (r.readable (some (now + repITimeout))).length
        < 4 + Uint32 ((r.readable (some (now + repITimeout))).take 4)) :
    ∃ r1 e, (∀ inst : GoJSON α, @RepConn.RecvMessage α inst r now v = (r1, v, some e)) ∧
      r1.Disconnected = true ∧ r1.c.closed = true := by
  obtain ⟨r1, _, hres⟩ := RepConn.RecvMessage_cases r now v
  rcases hres with ⟨_, e, he⟩ | ⟨hge, _⟩
  · exact ⟨r1.Close, e, he, rfl, rfl⟩
  · exfalso
    rcases h with h | h <;> omega

theorem tdiv_hundred (s : Int) : Int.tdiv s 100 = 2 ↔ (200 ≤ s ∧ s ≤ 299) := by
  rcases Int.le_total 0 s with h | h
  · rw [Int.tdiv_eq_ediv h (by decide)]
    omega
  · have h2 : Int.tdiv s 100 ≤ 0 := by
      have := Int.tdiv_nonneg (a := -s) (b := 100) (by omega) (by decide)
      rw [Int.neg_tdiv] at this
      omega
    constructor
    · intro h3; omega
    · intro h3; omega

/-- The transport the dialer opened is never closed by `NewRepConn`: whatever the
outcome, it is left as closed or open as the dialer returned it. -/
theorem NewRepConn_transport (net : Network) (ip : String) (port : Int)
    (device partition host : String) (conn : Conn)
    (h1 : net.NewRequest (repURL ip port device partition) = Except.ok host)
    (h2 : net.repDialer host = Except.ok conn) :
    ∃ c, (NewRepConn net ip port device partition).transport = some c ∧
      c.closed = conn.closed := by
  have hd := net.Do_closed (repURL ip port device partition) conn
  unfold NewRepConn
  simp only [h1, h2]
  rcases hdo : net.Do (repURL ip port device partition) conn with ⟨c1, _ | status⟩ <;>
    rw [hdo] at hd <;> simp only [] at hd
  · exact ⟨c1, rfl, hd⟩
  · simp only []
    split
    · exact ⟨c1, rfl, hd⟩
    · exact ⟨c1, rfl, hd⟩

/-- C5 (handshake classification).  When building the request, the dial and the
request succeed and the peer answers with status `s`: `NewRepConn` returns no
connection and `RepUnmountedError` if and only if `s` is outside `[200, 299]`;
for `s` in `[200, 299]` it returns a connection with `Disconnected` false, over
the dialled transport, and no error. -/
theorem handshakeClassification (net : Network) (ip : String) (port : Int)
    (device partition host : String) (conn : Conn) (s : Int)
    (h1 : net.NewRequest (repURL ip port device partition) = Except.ok host)
    (h2 : net.repDialer host = Except.ok conn)
    (h3 : (net.Do (repURL ip port device partition) conn).2 = Except.ok s) :
    (((NewRepConn net ip port device partition).conn = none ∧
       (NewRepConn net ip port device partition).err = some Error.RepUnmountedError)
      ↔ ¬ (200 ≤ s ∧ s ≤ 299)) ∧
    ((200 ≤ s ∧ s ≤ 299) →
      ∃ rc, (NewRepConn net ip port device partition).conn = some rc ∧
        rc.Disconnected = false ∧
        rc.c = (net.Do (repURL ip port device partition) conn).1 ∧
        (NewRepConn net ip port device partition).err = none) := by
  unfold NewRepConn
  simp only [h1, h2]
  rcases hdo : net.Do (repURL ip port device partition) conn with ⟨c1, res⟩
  rw [hdo] at h3
  simp only [] at h3
  subst h3
  simp only []
  by_cases hs : 200 ≤ s ∧ s ≤ 299
  · have : Int.tdiv s 100 = 2 := (tdiv_hundred s).mpr hs
    simp [this, hs]
  · have : ¬ Int.tdiv s 100 = 2 := fun h => hs ((tdiv_hundred s).mp h)
    simp [this, hs]

theorem RepConn.readable_of_closed (r : RepConn) (d : Option Nat) (hc : r.c.closed = true) :
    r.readable d = r.rw.Reader.buf := by
  simp [RepConn.readable, availC, hc]

/-- On a closed transport `Write` succeeds exactly when the data fits into the
free space of the write buffer and no earlier write error is pending. -/
theorem RepConn.Write_of_closed (r : RepConn) (now : Nat) (data : List Byte)
    (hc : r.c.closed = true) :
    (r.Write now data).2.2 = none ↔
      (r.rw.Writer.err = none ∧ data.length ≤ r.rw.Writer.Available) := by
  have h := (RepConn.rwWrite_of_closed (r.setDeadline (now + repOTimeout)) data hc).1
  have hr0 : ({ r with c := r.c.SetDeadline (now + repOTimeout) } : RepConn)
      = r.setDeadline (now + repOTimeout) := rfl
  have hw : (r.setDeadline (now + repOTimeout)).rw = r.rw := rfl
  rw [hw] at h
  rw [← h]
  unfold RepConn.Write
  simp only [hr0]
  rcases (r.setDeadline (now + repOTimeout)).rwWrite data with ⟨r1, l, _ | e⟩ <;> simp

/-- On a closed transport `Flush` succeeds exactly when the write buffer is empty
and no earlier write error is pending. -/
theorem RepConn.Flush_of_closed (r : RepConn) (now : Nat) (hc : r.c.closed = true) :
    (r.Flush now).2 = none ↔ (r.rw.Writer.err = none ∧ r.rw.Writer.buf = []) := by
  have h := (RepConn.rwFlush_of_closed (r.setDeadline (now + repOTimeout)) hc).1
  have hr0 : ({ r with c := r.c.SetDeadline (now + repOTimeout) } : RepConn)
      = r.setDeadline (now + repOTimeout) := rfl
  have hw : (r.setDeadline (now + repOTimeout)).rw = r.rw := rfl
  rw [hw] at h
  rw [← h]
  unfold RepConn.Flush
  simp only [hr0]
  rcases (r.setDeadline (now + repOTimeout)).rwFlush with ⟨r1, _ | e⟩ <;> simp

/-- On a closed transport `Read` succeeds exactly when the bytes asked for are
already in the read buffer. -/
theorem RepConn.Read_of_closed (r : RepConn) (now : Nat) (k : Nat) (hc : r.c.closed = true) :
    (r.Read now k).2.2 = none ↔ k ≤ r.rw.Reader.buf.length := by
  obtain ⟨r1, _, hres⟩ := RepConn.Read_cases r now k
  rw [RepConn.readable_of_closed r _ hc] at hres
  rcases hres with ⟨hlt, e, bs, he⟩ | ⟨hle, he, _⟩
  · rw [he]; simp; omega
  · rw [he]; simpa using hle

/-- On a closed transport `RecvMessage` succeeds exactly when a complete frame
is already in the read buffer and its payload decodes. -/
theorem RepConn.RecvMessage_of_closed {α : Type} [GoJSON α] (r : RepConn) (now : Nat) (v : α)
    (hc : r.c.closed = true) :
    (r.RecvMessage now v).2.2 = none ↔
      (4 + Uint32 (r.rw.Reader.buf.take 4) ≤ r.rw.Reader.buf.length ∧
       (GoJSON.Unmarshal ((r.rw.Reader.buf.drop 4).take (Uint32 (r.rw.Reader.buf.take 4))) v).2
          = none) := by
  obtain ⟨r1, _, hres⟩ := RepConn.RecvMessage_cases r now v
  rw [RepConn.readable_of_closed r _ hc] at hres
  rcases hres with ⟨hlt, e, he⟩ | ⟨hle, _, he⟩
  · rw [he]
    constructor
    · intro h; cases h
    · rintro ⟨h, _⟩
      rcases hlt with h1 | h1 <;> omega
  · rw [he]
    rcases GoJSON.Unmarshal _ v with ⟨v1, _ | e⟩
    · simpa using hle
    · simp

/-- On a closed transport `SendMessage` always returns an error: its flush has
at least the four header bytes to hand to the transport. -/
theorem RepConn.SendMessage_of_closed {α : Type} [GoJSON α] (r : RepConn) (now : Nat) (v : α)
    (hc : r.c.closed = true) :
    ∃ e, (r.SendMessage now v).2 = some e := by
  have hr0 : ({ r with c := r.c.SetDeadline (now + repOTimeout) } : RepConn)
      = r.setDeadline (now + repOTimeout) := rfl
  have hc0 : (r.setDeadline (now + repOTimeout)).c.closed = true := hc
  generalize r.setDeadline (now + repOTimeout) = r0 at hr0 hc0
  unfold RepConn.SendMessage
  simp only [hr0]
  cases (GoJSON.Marshal v : Except Error (List Byte)) with
  | error e => exact ⟨e, rfl⟩
  | ok jsoned =>
    simp only []
    have k1 := (RepConn.rwWrite_of_closed r0 (PutUint32 (jsoned.length % 2 ^ 32)) hc0).2
    rcases h1 : r0.rwWrite (PutUint32 (jsoned.length % 2 ^ 32)) with ⟨r1, n1, e1⟩
    rw [h1] at k1
    cases e1 with
    | some e => exact ⟨e, rfl⟩
    | none =>
      simp only []
      have k1' := k1 rfl
      simp only [Prod.mk.injEq] at k1'
      obtain ⟨k1r, _⟩ := k1'
      have hc1 : r1.c.closed = true := by rw [k1r]; exact hc0
      have k2 := (RepConn.rwWrite_of_closed r1 jsoned hc1).2
      rcases h2 : r1.rwWrite jsoned with ⟨r2, n2, e2⟩
      rw [h2] at k2
      cases e2 with
      | some e => exact ⟨e, rfl⟩
      | none =>
        simp only []
        have k2' := k2 rfl
        simp only [Prod.mk.injEq] at k2'
        obtain ⟨k2r, _⟩ := k2'
        have hc2 : r2.c.closed = true := by rw [k2r]; exact hc1
        have hbuf : r2.rw.Writer.buf ≠ [] := by
          rw [k2r, k1r]
          simp [PutUint32]
        have k3 := (RepConn.rwFlush_of_closed r2 hc2).1
        rcases h3 : r2.rwFlush with ⟨r3, e3⟩
        rw [h3] at k3
        cases e3 with
        | some e => exact ⟨e, rfl⟩
        | none =>
          exfalso
          exact hbuf (k3.mp rfl).2

theorem leadInfo_cases (b : Nat) (sz lo hi : Nat) (h : leadInfo b = some (sz, lo, hi)) :
    (sz = 2 ∧ lo = 0x80 ∧ hi = 0xBF ∧ 0xC2 ≤ b ∧ b ≤ 0xDF) ∨
    (sz = 3 ∧ 0x80 ≤ lo ∧ hi ≤ 0xBF ∧ 0xE0 ≤ b ∧ b ≤ 0xEF ∧ (b = 0xE0 → lo = 0xA0) ∧
      (b = 0xED → hi = 0x9F)) ∨
    (sz = 4 ∧ 0x80 ≤ lo ∧ hi ≤ 0xBF ∧ 0xF0 ≤ b ∧ b ≤ 0xF4 ∧ (b = 0xF0 → lo = 0x90) ∧
      (b = 0xF4 → hi = 0x8F)) := by
  unfold leadInfo at h
  split_ifs at h <;> simp at h <;> obtain ⟨rfl, rfl, rfl⟩ := h <;> omega

/-- The outcome of `utf8.DecodeRune` on a non-empty input: an error of width 1,
or a rune whose encoding is the start of the input. -/
theorem DecodeRune_cases (s : List Byte) (hs : s ≠ []) :
    DecodeRune s = (RuneError, 1) ∨
    ∃ chunk more c, s = chunk ++ more ∧ DecodeRune s = (c, chunk.length) ∧ IsRune chunk c := by
  match s, hs with
  | p0 :: rest, _ =>
    by_cases h0 : p0.val < 0x80
    · right
      refine ⟨[p0], rest, p0.val, rfl, ?_, Or.inl ⟨p0, rfl, h0, rfl⟩⟩
      simp [DecodeRune, h0]
    · rcases hl : leadInfo p0.val with _ | ⟨sz, lo, hi⟩
      · left; simp [DecodeRune, h0, hl]
      · rcases leadInfo_cases _ _ _ _ hl with ⟨rfl, rfl, rfl, hp⟩ | ⟨rfl, hlo, hhi, hp⟩ |
          ⟨rfl, hlo, hhi, hp⟩
        · rcases rest with _ | ⟨b1, rest1⟩
          · left; simp [DecodeRune, h0, hl]
          · by_cases hb : b1.val < 0x80 ∨ 0xBF < b1.val
            · left; simp [DecodeRune, h0, hl, hb]
            · right
              refine ⟨[p0, b1], rest1, p0.val % 32 * 64 + b1.val % 64, rfl, ?_,
                Or.inr (Or.inl ⟨p0, b1, rfl, by omega, by omega, by omega, by omega, rfl⟩)⟩
              simp [DecodeRune, h0, hl, hb]
        · rcases rest with _ | ⟨b1, _ | ⟨b2, rest2⟩⟩
          · left; simp [DecodeRune, h0, hl]
          · left; simp [DecodeRune, h0, hl]
          · by_cases hb : b1.val < lo ∨ hi < b1.val
            · left; simp [DecodeRune, h0, hl, hb]
            · by_cases hc : isCont b2 = true
              · right
                have hc' := hc
                simp [isCont] at hc'
                refine ⟨[p0, b1, b2], rest2, _, rfl, ?_,
                  Or.inr (Or.inr (Or.inl ⟨p0, b1, b2, lo, hi, rfl, hl, by omega, by omega,
                    by omega, by omega, rfl⟩))⟩
                simp [DecodeRune, h0, hl, hb, hc]
              · left; simp [DecodeRune, h0, hl, hb, hc]
        · rcases rest with _ | ⟨b1, _ | ⟨b2, _ | ⟨b3, rest3⟩⟩⟩
          · left; simp [DecodeRune, h0, hl]
          · left; simp [DecodeRune, h0, hl]
          · left; simp [DecodeRune, h0, hl]
          · by_cases hb : b1.val < lo ∨ hi < b1.val
            · left; simp [DecodeRune, h0, hl, hb]
            · by_cases hc : isCont b2 = true
              · by_cases hd : isCont b3 = true
                · right
                  have hc' := hc
                  have hd' := hd
                  simp [isCont] at hc' hd'
                  refine ⟨[p0, b1, b2, b3], rest3, _, rfl, ?_,
                    Or.inr (Or.inr (Or.inr ⟨p0, b1, b2, b3, lo, hi, rfl, hl, by omega, by omega,
                      by omega, by omega, by omega, by omega, rfl⟩))⟩
                  simp [DecodeRune, h0, hl, hb, hc, hd]
                · left; simp [DecodeRune, h0, hl, hb, hc, hd]
              · left; simp [DecodeRune, h0, hl, hb, hc]

theorem byte_ofNat_eq (n : Nat) (b : Byte) (h : n = b.val) : (Fin.ofNat n : Byte) = b := by
  apply Fin.ext
  simp [Fin.ofNat, h]

/-- A rune as `utf8.DecodeRune` accepts it is read back as itself whatever
follows, is written by `utf8.EncodeRune` as the same bytes, is not the error of
width 1, and is made of bytes above ASCII when it is longer than one byte. -/
theorem IsRune.spec {chunk : List Byte} {c : Nat} (h : IsRune chunk c) :
    (∀ more, DecodeRune (chunk ++ more) = (c, chunk.length)) ∧ EncodeRune c = chunk ∧
    chunk ≠ [] ∧ (chunk.length = 1 → c < 0x80) ∧
    (1 < chunk.length → ∀ b ∈ chunk, 0x80 ≤ b.val) ∧
    (c = 0x2028 → chunk = [0xE2, 0x80, 0xA8]) ∧ (c = 0x2029 → chunk = [0xE2, 0x80, 0xA9]) := by
  rcases h with ⟨b, rfl, hb, rfl⟩ | ⟨p0, b1, rfl, h1, h2, h3, h4, rfl⟩ |
    ⟨p0, b1, b2, lo, hi, rfl, hl, h1, h2, h3, h4, rfl⟩ |
    ⟨p0, b1, b2, b3, lo, hi, rfl, hl, h1, h2, h3, h4, h5, h6, rfl⟩
  · refine ⟨?_, ?_, by simp, fun _ => hb, by simp, ?_, ?_⟩
    · intro more; simp [DecodeRune, hb]
    · have : b.val ≤ 0x7F := by omega
      simp only [EncodeRune, this, if_true]
      rw [byte_ofNat_eq _ b rfl]
    · intro h; omega
    · intro h; omega
  · have hl : leadInfo p0.val = some (2, 0x80, 0xBF) := by
      unfold leadInfo
      simp [h1, h2]
    refine ⟨?_, ?_, by simp, by simp, ?_, ?_, ?_⟩
    · intro more
      have hp : ¬ (p0.val < 0x80) := by omega
      have hb : ¬ (b1.val < 0x80 ∨ 0xBF < b1.val) := by omega
      simp [DecodeRune, hp, hl, hb]
    · have e1 : ¬ (p0.val % 32 * 64 + b1.val % 64 ≤ 0x7F) := by omega
      have e2 : p0.val % 32 * 64 + b1.val % 64 ≤ 0x7FF := by omega
      simp only [EncodeRune, e1, e2, if_true, if_false]
      rw [byte_ofNat_eq _ p0 (by omega), byte_ofNat_eq _ b1 (by omega)]
    · intro _ b hb
      simp at hb
      rcases hb with rfl | rfl <;> omega
    · intro h; omega
    · intro h; omega
  · rcases leadInfo_cases _ _ _ _ hl with ⟨h, _⟩ | ⟨_, hlo, hhi, hp1, hp2, hE0, hED⟩ | ⟨h, _⟩
    · omega
    · have hlo' : p0.val = 0xE0 → 0xA0 ≤ b1.val := fun h => by have := hE0 h; omega
      have hhi' : p0.val = 0xED → b1.val ≤ 0x9F := fun h => by have := hED h; omega
      have hc1 : 0x800 ≤ p0.val % 16 * 4096 + b1.val % 64 * 64 + b2.val % 64 := by
        by_cases h : p0.val = 0xE0
        · have := hlo' h; omega
        · omega
      have hc2 : ¬ (0xD800 ≤ p0.val % 16 * 4096 + b1.val % 64 * 64 + b2.val % 64 ∧
          p0.val % 16 * 4096 + b1.val % 64 * 64 + b2.val % 64 ≤ 0xDFFF) := by
        by_cases h : p0.val = 0xED
        · have := hhi' h; omega
        · omega
      refine ⟨?_, ?_, by simp, by simp, ?_, ?_, ?_⟩
      · intro more
        have hp : ¬ (p0.val < 0x80) := by omega
        have hb : ¬ (b1.val < lo ∨ hi < b1.val) := by omega
        have hc : isCont b2 = true := by simp [isCont]; omega
        simp [DecodeRune, hp, hl, hb, hc]
      · have e1 : ¬ (p0.val % 16 * 4096 + b1.val % 64 * 64 + b2.val % 64 ≤ 0x7F) := by omega
        have e2 : ¬ (p0.val % 16 * 4096 + b1.val % 64 * 64 + b2.val % 64 ≤ 0x7FF) := by omega
        have e3 : ¬ (p0.val % 16 * 4096 + b1.val % 64 * 64 + b2.val % 64 > 0x10FFFF) := by omega
        have e4 : p0.val % 16 * 4096 + b1.val % 64 * 64 + b2.val % 64 ≤ 0xFFFF := by omega
        simp only [EncodeRune, e1, e2, e3, hc2, e4, if_true, if_false, false_or]
        rw [byte_ofNat_eq _ p0 (by omega), byte_ofNat_eq _ b1 (by omega),
          byte_ofNat_eq _ b2 (by omega)]
      · intro _ b hb
        simp at hb
        rcases hb with rfl | rfl | rfl <;> omega
      · intro h
        have a0 : p0 = 0xE2 := Fin.ext (by show p0.val = 0xE2; omega)
        have a1 : b1 = 0x80 := Fin.ext (by show b1.val = 0x80; omega)
        have a2 : b2 = 0xA8 := Fin.ext (by show b2.val = 0xA8; omega)
        rw [a0, a1, a2]
      · intro h
        have a0 : p0 = 0xE2 := Fin.ext (by show p0.val = 0xE2; omega)
        have a1 : b1 = 0x80 := Fin.ext (by show b1.val = 0x80; omega)
        have a2 : b2 = 0xA9 := Fin.ext (by show b2.val = 0xA9; omega)
        rw [a0, a1, a2]
    · omega
  · rcases leadInfo_cases _ _ _ _ hl with ⟨h, _⟩ | ⟨h, _⟩ | ⟨_, hlo, hhi, hp1, hp2, hF0, hF4⟩
    · omega
    · omega
    · have hlo' : p0.val = 0xF0 → 0x90 ≤ b1.val := fun h => by have := hF0 h; omega
      have hhi' : p0.val = 0xF4 → b1.val ≤ 0x8F := fun h => by have := hF4 h; omega
      have hc1 : 0x10000 ≤ p0.val % 8 * 262144 + b1.val % 64 * 4096 + b2.val % 64 * 64
          + b3.val % 64 := by
        by_cases h : p0.val = 0xF0
        · have := hlo' h; omega
        · omega
      have hc2 : p0.val % 8 * 262144 + b1.val % 64 * 4096 + b2.val % 64 * 64
          + b3.val % 64 ≤ 0x10FFFF := by
        by_cases h : p0.val = 0xF4
        · have := hhi' h; omega
        · omega
      refine ⟨?_, ?_, by simp, by simp, ?_, ?_, ?_⟩
      · intro more
        have hp : ¬ (p0.val < 0x80) := by omega
        have hb : ¬ (b1.val < lo ∨ hi < b1.val) := by omega
        have hc : isCont b2 = true := by simp [isCont]; omega
        have hd : isCont b3 = true := by simp [isCont]; omega
        simp [DecodeRune, hp, hl, hb, hc, hd]
      · generalize hcv : p0.val % 8 * 262144 + b1.val % 64 * 4096 + b2.val % 64 * 64
          + b3.val % 64 = cv at hc1 hc2
        have e1 : ¬ (cv ≤ 0x7F) := by omega
        have e2 : ¬ (cv ≤ 0x7FF) := by omega
        have e3 : ¬ (cv > 0x10FFFF ∨ (0xD800 ≤ cv ∧ cv ≤ 0xDFFF)) := by omega
        have e4 : ¬ (cv ≤ 0xFFFF) := by omega
        simp only [EncodeRune, e1, e2, e3, e4, if_false]
        rw [byte_ofNat_eq _ p0 (by omega), byte_ofNat_eq _ b1 (by omega),
          byte_ofNat_eq _ b2 (by omega), byte_ofNat_eq _ b3 (by omega)]
      · intro _ b hb
        simp at hb
        rcases hb with rfl | rfl | rfl | rfl <;> omega
      · intro h; omega
      · intro h; omega

theorem IsRune.length_le {chunk : List Byte} {c : Nat} (h : IsRune chunk c) :
    1 ≤ chunk.length ∧ chunk.length ≤ 4 := by
  rcases h with ⟨b, rfl, _⟩ | ⟨p0, b1, rfl, _⟩ | ⟨p0, b1, b2, lo, hi, rfl, _⟩ |
    ⟨p0, b1, b2, b3, lo, hi, rfl, _⟩ <;> simp

theorem validFrom_skip (k : Nat) (s : List Byte) : validFrom k s = validFrom 0 (s.drop k) := by
  induction s generalizing k with
  | nil => cases k <;> simp [validFrom]
  | cons b rest ih =>
    cases k with
    | zero => simp
    | succ k => simp only [validFrom, List.drop_succ_cons]; exact ih k

theorem chunked_skip (step : List Byte → List Byte × Nat) (k : Nat) (s : List Byte) :
    chunked step k s = chunked step 0 (s.drop k) := by
  induction s generalizing k with
  | nil => cases k <;> simp [chunked]
  | cons b rest ih =>
    cases k with
    | zero => simp
    | succ k => simp only [chunked, List.drop_succ_cons]; exact ih k

/-- One turn of a rune-by-rune loop: when `step` uses up the non-empty `chunk`,
the loop emits the step's output and goes on with what follows. -/
theorem chunked_append (step : List Byte → List Byte × Nat) (chunk more out : List Byte)
    (hne : chunk ≠ []) (h : step (chunk ++ more) = (out, chunk.length)) :
    chunked step 0 (chunk ++ more) = out ++ chunked step 0 more := by
  match chunk, hne with
  | b :: tl, _ =>
    simp only [List.cons_append] at h ⊢
    simp only [chunked, h]
    rw [chunked_skip]
    simp

/-- Induction over a valid UTF-8 string, rune by rune. -/
theorem validUTF8_induction {P : List Byte → Prop} (h0 : P [])
    (hstep : ∀ chunk c rest, IsRune chunk c → validUTF8 rest = true → P rest →
      P (chunk ++ rest)) :
    ∀ s, validUTF8 s = true → P s := by
  suffices H : ∀ n (s : List Byte), s.length = n → validUTF8 s = true → P s from
    fun s => H s.length s rfl
  intro n
  induction n using Nat.strong_induction_on with
  | _ n ih =>
    intro s hn hv
    match s with
    | [] => exact h0
    | b :: rest =>
      rcases DecodeRune_cases (b :: rest) (by simp) with herr | ⟨chunk, more, c, hs, hd, hr⟩
      · simp [validUTF8, validFrom, herr] at hv
      · have hlen := hr.length_le
        have hv2 : validUTF8 more = true := by
          simp only [validUTF8, validFrom, hd] at hv
          rw [validFrom_skip] at hv
          simp only [Bool.and_eq_true] at hv
          have hdrop : rest.drop (chunk.length - 1) = more := by
            match chunk, hs with
            | x :: tl, hs =>
              simp only [List.cons_append, List.cons.injEq] at hs
              rw [hs.2]; simp
          rw [hdrop] at hv
          exact hv.2
        rw [hs]
        apply hstep chunk c more hr hv2
        apply ih more.length _ more rfl hv2
        rw [← hn, hs]
        simp
        omega

set_option maxRecDepth 100000 in
/-- The numeric value of each byte literal. -/
theorem byte_lits :
    (((2 : Byte) : Nat) = 2) ∧
    (((3 : Byte) : Nat) = 3) ∧
    (((4 : Byte) : Nat) = 4) ∧
    (((5 : Byte) : Nat) = 5) ∧
    (((6 : Byte) : Nat) = 6) ∧
    (((7 : Byte) : Nat) = 7) ∧
    (((8 : Byte) : Nat) = 8) ∧
    (((9 : Byte) : Nat) = 9) ∧
    (((10 : Byte) : Nat) = 10) ∧
    (((11 : Byte) : Nat) = 11) ∧
    (((12 : Byte) : Nat) = 12) ∧
    (((13 : Byte) : Nat) = 13) ∧
    (((14 : Byte) : Nat) = 14) ∧
    (((15 : Byte) : Nat) = 15) ∧
    (((16 : Byte) : Nat) = 16) ∧
    (((17 : Byte) : Nat) = 17) ∧
    (((18 : Byte) : Nat) = 18) ∧
    (((19 : Byte) : Nat) = 19) ∧
    (((20 : Byte) : Nat) = 20) ∧
    (((21 : Byte) : Nat) = 21) ∧
    (((22 : Byte) : Nat) = 22) ∧
    (((23 : Byte) : Nat) = 23) ∧
    (((24 : Byte) : Nat) = 24) ∧
    (((25 : Byte) : Nat) = 25) ∧
    (((26 : Byte) : Nat) = 26) ∧
    (((27 : Byte) : Nat) = 27) ∧
    (((28 : Byte) : Nat) = 28) ∧
    (((29 : Byte) : Nat) = 29) ∧
    (((30 : Byte) : Nat) = 30) ∧
    (((31 : Byte) : Nat) = 31) ∧
    (((32 : Byte) : Nat) = 32) ∧
    (((33 : Byte) : Nat) = 33) ∧
    (((34 : Byte) : Nat) = 34) ∧
    (((35 : Byte) : Nat) = 35) ∧
    (((36 : Byte) : Nat) = 36) ∧
    (((37 : Byte) : Nat) = 37) ∧
    (((38 : Byte) : Nat) = 38) ∧
    (((39 : Byte) : Nat) = 39) ∧
    (((40 : Byte) : Nat) = 40) ∧
    (((41 : Byte) : Nat) = 41) ∧
    (((42 : Byte) : Nat) = 42) ∧
    (((43 : Byte) : Nat) = 43) ∧
    (((44 : Byte) : Nat) = 44) ∧
    (((45 : Byte) : Nat) = 45) ∧
    (((46 : Byte) : Nat) = 46) ∧
    (((47 : Byte) : Nat) = 47) ∧
    (((48 : Byte) : Nat) = 48) ∧
    (((49 : Byte) : Nat) = 49) ∧
    (((50 : Byte) : Nat) = 50) ∧
    (((51 : Byte) : Nat) = 51) ∧
    (((52 : Byte) : Nat) = 52) ∧
    (((53 : Byte) : Nat) = 53) ∧
    (((54 : Byte) : Nat) = 54) ∧
    (((55 : Byte) : Nat) = 55) ∧
    (((56 : Byte) : Nat) = 56) ∧
    (((57 : Byte) : Nat) = 57) ∧
    (((58 : Byte) : Nat) = 58) ∧
    (((59 : Byte) : Nat) = 59) ∧
    (((60 : Byte) : Nat) = 60) ∧
    (((61 : Byte) : Nat) = 61) ∧
    (((62 : Byte) : Nat) = 62) ∧
    (((63 : Byte) : Nat) = 63) ∧
    (((64 : Byte) : Nat) = 64) ∧
    (((65 : Byte) : Nat) = 65) ∧
    (((66 : Byte) : Nat) = 66) ∧
    (((67 : Byte) : Nat) = 67) ∧
    (((68 : Byte) : Nat) = 68) ∧
    (((69 : Byte) : Nat) = 69) ∧
    (((70 : Byte) : Nat) = 70) ∧
    (((71 : Byte) : Nat) = 71) ∧
    (((72 : Byte) : Nat) = 72) ∧
    (((73 : Byte) : Nat) = 73) ∧
    (((74 : Byte) : Nat) = 74) ∧
    (((75 : Byte) : Nat) = 75) ∧
    (((76 : Byte) : Nat) = 76) ∧
    (((77 : Byte) : Nat) = 77) ∧
    (((78 : Byte) : Nat) = 78) ∧
    (((79 : Byte) : Nat) = 79) ∧
    (((80 : Byte) : Nat) = 80) ∧
    (((81 : Byte) : Nat) = 81) ∧
    (((82 : Byte) : Nat) = 82) ∧
    (((83 : Byte) : Nat) = 83) ∧
    (((84 : Byte) : Nat) = 84) ∧
    (((85 : Byte) : Nat) = 85) ∧
    (((86 : Byte) : Nat) = 86) ∧
    (((87 : Byte) : Nat) = 87) ∧
    (((88 : Byte) : Nat) = 88) ∧
    (((89 : Byte) : Nat) = 89) ∧
    (((90 : Byte) : Nat) = 90) ∧
    (((91 : Byte) : Nat) = 91) ∧
    (((92 : Byte) : Nat) = 92) ∧
    (((93 : Byte) : Nat) = 93) ∧
    (((94 : Byte) : Nat) = 94) ∧
    (((95 : Byte) : Nat) = 95) ∧
    (((96 : Byte) : Nat) = 96) ∧
    (((97 : Byte) : Nat) = 97) ∧
    (((98 : Byte) : Nat) = 98) ∧
    (((99 : Byte) : Nat) = 99) ∧
    (((100 : Byte) : Nat) = 100) ∧
    (((101 : Byte) : Nat) = 101) ∧
    (((102 : Byte) : Nat) = 102) ∧
    (((103 : Byte) : Nat) = 103) ∧
    (((104 : Byte) : Nat) = 104) ∧
    (((105 : Byte) : Nat) = 105) ∧
    (((106 : Byte) : Nat) = 106) ∧
    (((107 : Byte) : Nat) = 107) ∧
    (((108 : Byte) : Nat) = 108) ∧
    (((109 : Byte) : Nat) = 109) ∧
    (((110 : Byte) : Nat) = 110) ∧
    (((111 : Byte) : Nat) = 111) ∧
    (((112 : Byte) : Nat) = 112) ∧
    (((113 : Byte) : Nat) = 113) ∧
    (((114 : Byte) : Nat) = 114) ∧
    (((115 : Byte) : Nat) = 115) ∧
    (((116 : Byte) : Nat) = 116) ∧
    (((117 : Byte) : Nat) = 117) ∧
    (((118 : Byte) : Nat) = 118) ∧
    (((119 : Byte) : Nat) = 119) ∧
    (((120 : Byte) : Nat) = 120) ∧
    (((121 : Byte) : Nat) = 121) ∧
    (((122 : Byte) : Nat) = 122) ∧
    (((123 : Byte) : Nat) = 123) ∧
    (((124 : Byte) : Nat) = 124) ∧
    (((125 : Byte) : Nat) = 125) ∧
    (((126 : Byte) : Nat) = 126) ∧
    (((127 : Byte) : Nat) = 127) ∧
    (((128 : Byte) : Nat) = 128) ∧
    (((129 : Byte) : Nat) = 129) ∧
    (((130 : Byte) : Nat) = 130) ∧
    (((131 : Byte) : Nat) = 131) ∧
    (((132 : Byte) : Nat) = 132) ∧
    (((133 : Byte) : Nat) = 133) ∧
    (((134 : Byte) : Nat) = 134) ∧
    (((135 : Byte) : Nat) = 135) ∧
    (((136 : Byte) : Nat) = 136) ∧
    (((137 : Byte) : Nat) = 137) ∧
    (((138 : Byte) : Nat) = 138) ∧
    (((139 : Byte) : Nat) = 139) ∧
    (((140 : Byte) : Nat) = 140) ∧
    (((141 : Byte) : Nat) = 141) ∧
    (((142 : Byte) : Nat) = 142) ∧
    (((143 : Byte) : Nat) = 143) ∧
    (((144 : Byte) : Nat) = 144) ∧
    (((145 : Byte) : Nat) = 145) ∧
    (((146 : Byte) : Nat) = 146) ∧
    (((147 : Byte) : Nat) = 147) ∧
    (((148 : Byte) : Nat) = 148) ∧
    (((149 : Byte) : Nat) = 149) ∧
    (((150 : Byte) : Nat) = 150) ∧
    (((151 : Byte) : Nat) = 151) ∧
    (((152 : Byte) : Nat) = 152) ∧
    (((153 : Byte) : Nat) = 153) ∧
    (((154 : Byte) : Nat) = 154) ∧
    (((155 : Byte) : Nat) = 155) ∧
    (((156 : Byte) : Nat) = 156) ∧
    (((157 : Byte) : Nat) = 157) ∧
    (((158 : Byte) : Nat) = 158) ∧
    (((159 : Byte) : Nat) = 159) ∧
    (((160 : Byte) : Nat) = 160) ∧
    (((161 : Byte) : Nat) = 161) ∧
    (((162 : Byte) : Nat) = 162) ∧
    (((163 : Byte) : Nat) = 163) ∧
    (((164 : Byte) : Nat) = 164) ∧
    (((165 : Byte) : Nat) = 165) ∧
    (((166 : Byte) : Nat) = 166) ∧
    (((167 : Byte) : Nat) = 167) ∧
    (((168 : Byte) : Nat) = 168) ∧
    (((169 : Byte) : Nat) = 169) ∧
    (((170 : Byte) : Nat) = 170) ∧
    (((171 : Byte) : Nat) = 171) ∧
    (((172 : Byte) : Nat) = 172) ∧
    (((173 : Byte) : Nat) = 173) ∧
    (((174 : Byte) : Nat) = 174) ∧
    (((175 : Byte) : Nat) = 175) ∧
    (((176 : Byte) : Nat) = 176) ∧
    (((177 : Byte) : Nat) = 177) ∧
    (((178 : Byte) : Nat) = 178) ∧
    (((179 : Byte) : Nat) = 179) ∧
    (((180 : Byte) : Nat) = 180) ∧
    (((181 : Byte) : Nat) = 181) ∧
    (((182 : Byte) : Nat) = 182) ∧
    (((183 : Byte) : Nat) = 183) ∧
    (((184 : Byte) : Nat) = 184) ∧
    (((185 : Byte) : Nat) = 185) ∧
    (((186 : Byte) : Nat) = 186) ∧
    (((187 : Byte) : Nat) = 187) ∧
    (((188 : Byte) : Nat) = 188) ∧
    (((189 : Byte) : Nat) = 189) ∧
    (((190 : Byte) : Nat) = 190) ∧
    (((191 : Byte) : Nat) = 191) ∧
    (((192 : Byte) : Nat) = 192) ∧
    (((193 : Byte) : Nat) = 193) ∧
    (((194 : Byte) : Nat) = 194) ∧
    (((195 : Byte) : Nat) = 195) ∧
    (((196 : Byte) : Nat) = 196) ∧
    (((197 : Byte) : Nat) = 197) ∧
    (((198 : Byte) : Nat) = 198) ∧
    (((199 : Byte) : Nat) = 199) ∧
    (((200 : Byte) : Nat) = 200) ∧
    (((201 : Byte) : Nat) = 201) ∧
    (((202 : Byte) : Nat) = 202) ∧
    (((203 : Byte) : Nat) = 203) ∧
    (((204 : Byte) : Nat) = 204) ∧
    (((205 : Byte) : Nat) = 205) ∧
    (((206 : Byte) : Nat) = 206) ∧
    (((207 : Byte) : Nat) = 207) ∧
    (((208 : Byte) : Nat) = 208) ∧
    (((209 : Byte) : Nat) = 209) ∧
    (((210 : Byte) : Nat) = 210) ∧
    (((211 : Byte) : Nat) = 211) ∧
    (((212 : Byte) : Nat) = 212) ∧
    (((213 : Byte) : Nat) = 213) ∧
    (((214 : Byte) : Nat) = 214) ∧
    (((215 : Byte) : Nat) = 215) ∧
    (((216 : Byte) : Nat) = 216) ∧
    (((217 : Byte) : Nat) = 217) ∧
    (((218 : Byte) : Nat) = 218) ∧
    (((219 : Byte) : Nat) = 219) ∧
    (((220 : Byte) : Nat) = 220) ∧
    (((221 : Byte) : Nat) = 221) ∧
    (((222 : Byte) : Nat) = 222) ∧
    (((223 : Byte) : Nat) = 223) ∧
    (((224 : Byte) : Nat) = 224) ∧
    (((225 : Byte) : Nat) = 225) ∧
    (((226 : Byte) : Nat) = 226) ∧
    (((227 : Byte) : Nat) = 227) ∧
    (((228 : Byte) : Nat) = 228) ∧
    (((229 : Byte) : Nat) = 229) ∧
    (((230 : Byte) : Nat) = 230) ∧
    (((231 : Byte) : Nat) = 231) ∧
    (((232 : Byte) : Nat) = 232) ∧
    (((233 : Byte) : Nat) = 233) ∧
    (((234 : Byte) : Nat) = 234) ∧
    (((235 : Byte) : Nat) = 235) ∧
    (((236 : Byte) : Nat) = 236) ∧
    (((237 : Byte) : Nat) = 237) ∧
    (((238 : Byte) : Nat) = 238) ∧
    (((239 : Byte) : Nat) = 239) ∧
    (((240 : Byte) : Nat) = 240) ∧
    (((241 : Byte) : Nat) = 241) ∧
    (((242 : Byte) : Nat) = 242) ∧
    (((243 : Byte) : Nat) = 243) ∧
    (((244 : Byte) : Nat) = 244) ∧
    (((245 : Byte) : Nat) = 245) ∧
    (((246 : Byte) : Nat) = 246) ∧
    (((247 : Byte) : Nat) = 247) ∧
    (((248 : Byte) : Nat) = 248) ∧
    (((249 : Byte) : Nat) = 249) ∧
    (((250 : Byte) : Nat) = 250) ∧
    (((251 : Byte) : Nat) = 251) ∧
    (((252 : Byte) : Nat) = 252) ∧
    (((253 : Byte) : Nat) = 253) ∧
    (((254 : Byte) : Nat) = 254) ∧
    (((255 : Byte) : Nat) = 255) :=
  ⟨rfl, rfl, rfl, rfl, rfl, rfl, rfl, rfl, rfl, rfl, rfl, rfl, rfl, rfl, rfl, rfl, rfl, rfl,
    rfl, rfl, rfl, rfl, rfl, rfl, rfl, rfl, rfl, rfl, rfl, rfl, rfl, rfl, rfl, rfl, rfl, rfl,
    rfl, rfl, rfl, rfl, rfl, rfl, rfl, rfl, rfl, rfl, rfl, rfl, rfl, rfl, rfl, rfl, rfl, rfl,
    rfl, rfl, rfl, rfl, rfl, rfl, rfl, rfl, rfl, rfl, rfl, rfl, rfl, rfl, rfl, rfl, rfl, rfl,
    rfl, rfl, rfl, rfl, rfl, rfl, rfl, rfl, rfl, rfl, rfl, rfl, rfl, rfl, rfl, rfl, rfl, rfl,
    rfl, rfl, rfl, rfl, rfl, rfl, rfl, rfl, rfl, rfl, rfl, rfl, rfl, rfl, rfl, rfl, rfl, rfl,
    rfl, rfl, rfl, rfl, rfl, rfl, rfl, rfl, rfl, rfl, rfl, rfl, rfl, rfl, rfl, rfl, rfl, rfl,
    rfl, rfl, rfl, rfl, rfl, rfl, rfl, rfl, rfl, rfl, rfl, rfl, rfl, rfl, rfl, rfl, rfl, rfl,
    rfl, rfl, rfl, rfl, rfl, rfl, rfl, rfl, rfl, rfl, rfl, rfl, rfl, rfl, rfl, rfl, rfl, rfl,
    rfl, rfl, rfl, rfl, rfl, rfl, rfl, rfl, rfl, rfl, rfl, rfl, rfl, rfl, rfl, rfl, rfl, rfl,
    rfl, rfl, rfl, rfl, rfl, rfl, rfl, rfl, rfl, rfl, rfl, rfl, rfl, rfl, rfl, rfl, rfl, rfl,
    rfl, rfl, rfl, rfl, rfl, rfl, rfl, rfl, rfl, rfl, rfl, rfl, rfl, rfl, rfl, rfl, rfl, rfl,
    rfl, rfl, rfl, rfl, rfl, rfl, rfl, rfl, rfl, rfl, rfl, rfl, rfl, rfl, rfl, rfl, rfl, rfl,
    rfl, rfl, rfl, rfl, rfl, rfl, rfl, rfl, rfl, rfl, rfl, rfl, rfl, rfl, rfl, rfl, rfl, rfl,
    rfl, rfl⟩

theorem hexDigit_spec (n : Nat) (h : n < 16) :
    isHex (hexDigit n) = true ∧ hexVal (hexDigit n) = n := by
  have key : ∀ m : Fin 16, isHex (hexDigit m.val) = true ∧ hexVal (hexDigit m.val) = m.val := by
    decide
  exact key ⟨n, h⟩

theorem lex_inString_cons (b : Byte) (h : 0x20 ≤ b.val ∧ b.val ≠ 0x22 ∧ b.val ≠ 0x5C)
    (acc X : List Byte) :
    lex (Mode.inString acc) (b :: X) = lex (Mode.inString (acc ++ [b])) X := by
  have h1 : ¬ (b.val = 0x22) := h.2.1
  have h2 : ¬ (b.val = 0x5C) := h.2.2
  have h3 : ¬ (b.val < 0x20) := by omega
  simp only [lex, h1, h2, h3, if_false]

/-- Plain bytes inside a string literal are taken over as they are. -/
theorem lex_plain (bytes : List Byte)
    (h : ∀ b ∈ bytes, 0x20 ≤ b.val ∧ b.val ≠ 0x22 ∧ b.val ≠ 0x5C) (acc X : List Byte) :
    lex (Mode.inString acc) (bytes ++ X) = lex (Mode.inString (acc ++ bytes)) X := by
  induction bytes generalizing acc with
  | nil => simp
  | cons b tl ih =>
    rw [List.cons_append, lex_inString_cons b (h b (by simp)),
      ih (fun x hx => h x (by simp [hx]))]
    simp

theorem lex_simpleEscape (e : Byte) (he : isSimpleEscape e = true) (acc X : List Byte) :
    lex (Mode.inString acc) (0x5C :: e :: X) = lex (Mode.inString (acc ++ [0x5C, e])) X := by
  simp [lex, he, byte_lits]

theorem lex_uEscape (h1 h2 h3 h4 : Byte) (e1 : isHex h1 = true) (e2 : isHex h2 = true)
    (e3 : isHex h3 = true) (e4 : isHex h4 = true) (acc X : List Byte) :
    lex (Mode.inString acc) (0x5C :: 0x75 :: h1 :: h2 :: h3 :: h4 :: X)
      = lex (Mode.inString (acc ++ [0x5C, 0x75, h1, h2, h3, h4])) X := by
  simp [lex, e1, e2, e3, e4, isSimpleEscape, byte_lits]

theorem unquoteStep_uEscape (h1 h2 h3 h4 : Byte) (Y : List Byte)
    (h : ¬ (0xD800 ≤ getu4 h1 h2 h3 h4 ∧ getu4 h1 h2 h3 h4 < 0xE000)) :
    unquoteStep (0x5C :: 0x75 :: h1 :: h2 :: h3 :: h4 :: Y)
      = (EncodeRune (getu4 h1 h2 h3 h4), 6) := by
  simp only [unquoteStep, byte_lits]
  simp [h]

theorem unquoteStep_simple (e : Byte) (he : e.val ≠ 0x75) (Y : List Byte) :
    unquoteStep (0x5C :: e :: Y) = ([simpleEscape e], 2) := by
  simp [unquoteStep, byte_lits, he]

theorem escapeStep_ascii (b : Byte) (hb : b.val < 0x80) (more : List Byte) :
    escapeStep (b :: more) = (if htmlSafe b.val then [b] else escapeByte b, 1) := by
  simp [escapeStep, hb]

theorem escapeByte_spec (b : Byte) (hb : b.val < 0x80) (hs : htmlSafe b.val = false) :
    escapeByte b ≠ [] ∧
    (∀ acc X, lex (Mode.inString acc) (escapeByte b ++ X)
      = lex (Mode.inString (acc ++ escapeByte b)) X) ∧
    (∀ Y, unquoteStep (escapeByte b ++ Y) = ([b], (escapeByte b).length)) := by
  unfold escapeByte
  split_ifs with h1 h2 h3 h4 h5 h6
  · refine ⟨by simp, ?_, ?_⟩
    · intro acc X
      exact lex_simpleEscape b (by simp [isSimpleEscape]; omega) acc X
    · intro Y
      have hne : b.val ≠ 0x75 := by omega
      have hse : simpleEscape b = b := by
        simp only [simpleEscape]
        split_ifs <;> first | rfl | omega
      simp [unquoteStep_simple b hne, hse]
  · have hb8 : b = 0x08 := Fin.ext (by show b.val = 0x08; omega)
    subst hb8
    refine ⟨by simp, fun acc X => lex_simpleEscape _ (by decide) acc X, fun Y => ?_⟩
    simp [unquoteStep_simple (0x62 : Byte) (by decide)]
    decide
  · have hbv : b = 0x0C := Fin.ext (by show b.val = 0x0C; omega)
    subst hbv
    refine ⟨by simp, fun acc X => lex_simpleEscape _ (by decide) acc X, fun Y => ?_⟩
    simp [unquoteStep_simple (0x66 : Byte) (by decide)]
    decide
  · have hbv : b = 0x0A := Fin.ext (by show b.val = 0x0A; omega)
    subst hbv
    refine ⟨by simp, fun acc X => lex_simpleEscape _ (by decide) acc X, fun Y => ?_⟩
    simp [unquoteStep_simple (0x6E : Byte) (by decide)]
    decide
  · have hbv : b = 0x0D := Fin.ext (by show b.val = 0x0D; omega)
    subst hbv
    refine ⟨by simp, fun acc X => lex_simpleEscape _ (by decide) acc X, fun Y => ?_⟩
    simp [unquoteStep_simple (0x72 : Byte) (by decide)]
    decide
  · have hbv : b = 0x09 := Fin.ext (by show b.val = 0x09; omega)
    subst hbv
    refine ⟨by simp, fun acc X => lex_simpleEscape _ (by decide) acc X, fun Y => ?_⟩
    simp [unquoteStep_simple (0x74 : Byte) (by decide)]
    decide
  · obtain ⟨x1, x2⟩ := hexDigit_spec (b.val / 16) (by omega)
    obtain ⟨y1, y2⟩ := hexDigit_spec (b.val % 16) (by omega)
    have z : isHex (0x30 : Byte) = true ∧ hexVal (0x30 : Byte) = 0 := by decide
    refine ⟨by simp, fun acc X => ?_, fun Y => ?_⟩
    · exact lex_uEscape _ _ _ _ z.1 z.1 x1 y1 acc X
    · have hg : getu4 0x30 0x30 (hexDigit (b.val / 16)) (hexDigit (b.val % 16)) = b.val := by
        simp only [getu4, z.2, x2, y2]
        omega
      have := unquoteStep_uEscape 0x30 0x30 (hexDigit (b.val / 16)) (hexDigit (b.val % 16)) Y
        (by rw [hg]; omega)
      rw [hg] at this
      simp only [List.cons_append, List.nil_append, List.length_cons, List.length_nil]
      rw [this]
      have hle : b.val ≤ 0x7F := by omega
      simp only [EncodeRune, hle, if_true]
      rw [byte_ofNat_eq _ b rfl]

theorem htmlSafe_spec (b : Byte) (h : htmlSafe b.val = true) :
    0x20 ≤ b.val ∧ b.val ≠ 0x22 ∧ b.val ≠ 0x5C ∧ b.val < 0x80 := by
  simp [htmlSafe] at h
  omega

theorem take_four_append (chunk more : List Byte) (h : chunk.length ≤ 4) :
    (chunk ++ more).take 4 = chunk ++ more.take (4 - chunk.length) := by
  rw [List.take_append_eq_append_take, List.take_of_length_le h]

/-- What `appendString` writes for one rune of a valid string: the output does
not depend on what follows, the scanner takes it over as part of the string
literal, and `unquoteBytes` reads the rune back from it. -/
theorem escapeStep_rune {chunk : List Byte} {c : Nat} (h : IsRune chunk c) :
    ∃ out, out ≠ [] ∧ (∀ more, escapeStep (chunk ++ more) = (out, chunk.length)) ∧
      (∀ acc X, lex (Mode.inString acc) (out ++ X) = lex (Mode.inString (acc ++ out)) X) ∧
      (∀ Y, unquoteStep (out ++ Y) = (chunk, out.length)) := by
  obtain ⟨hdec, henc, hne, hone, hhigh, h28, h29⟩ := h.spec
  have hlen := h.length_le
  by_cases h1 : chunk.length = 1
  · -- an ASCII byte
    have hc := hone h1
    match chunk, h1 with
    | [b], _ =>
      have hbv : c = b.val := by
        have hle : c ≤ 0x7F := by omega
        simp only [EncodeRune, hle, if_true, List.cons.injEq, and_true] at henc
        have := congrArg Fin.val henc
        simp [Fin.ofNat] at this
        omega
      subst hbv
      by_cases hs : htmlSafe b.val = true
      · obtain ⟨s1, s2, s3, _⟩ := htmlSafe_spec b hs
        refine ⟨[b], by simp, ?_, ?_, ?_⟩
        · intro more
          simp [escapeStep_ascii b hc, hs]
        · intro acc X
          exact lex_inString_cons b ⟨s1, s2, s3⟩ acc X
        · intro Y
          simp [unquoteStep, s3, hc]
      · have hs' : htmlSafe b.val = false := by simpa using hs
        obtain ⟨e1, e2, e3⟩ := escapeByte_spec b hc hs'
        refine ⟨escapeByte b, e1, ?_, e2, e3⟩
        intro more
        simp [escapeStep_ascii b hc, hs']
  · -- a rune of several bytes
    have hgt : 1 < chunk.length := by omega
    have hhi := hhigh hgt
    match chunk, hne with
    | p0 :: tl, _ =>
      have hp0 : ¬ (p0.val < 0x80) := by
        have := hhi p0 (by simp); omega
      have hnotErr : ¬ (c = RuneError ∧ (p0 :: tl).length = 1) := fun hh => h1 hh.2
      have hstep : ∀ more, escapeStep (p0 :: tl ++ more)
          = (if c = 0x2028 ∨ c = 0x2029 then
              ([0x5C, 0x75, 0x32, 0x30, 0x32, hexDigit (c % 16)], (p0 :: tl).length)
             else (p0 :: tl, (p0 :: tl).length)) := by
        intro more
        have hd : DecodeRune ((p0 :: (tl ++ more)).take 4) = (c, (p0 :: tl).length) := by
          have := take_four_append (p0 :: tl) more hlen.2
          rw [List.cons_append] at this
          rw [this]
          exact hdec _
        simp only [List.cons_append, escapeStep, hp0, if_false, hd, hnotErr]
        split_ifs
        · rfl
        · have : (p0 :: (tl ++ more)).take (p0 :: tl).length = p0 :: tl := by
            rw [← List.cons_append]; simp
          rw [this]
      by_cases hsep : c = 0x2028 ∨ c = 0x2029
      · refine ⟨[0x5C, 0x75, 0x32, 0x30, 0x32, hexDigit (c % 16)], by simp, ?_, ?_, ?_⟩
        · intro more; rw [hstep more]; simp [hsep]
        · intro acc X
          have z : isHex (0x32 : Byte) = true ∧ isHex (0x30 : Byte) = true := by decide
          exact lex_uEscape _ _ _ _ z.1 z.2 z.1 (hexDigit_spec _ (by omega)).1 acc X
        · intro Y
          have hg : getu4 0x32 0x30 0x32 (hexDigit (c % 16)) = c := by
            have z : hexVal (0x32 : Byte) = 2 ∧ hexVal (0x30 : Byte) = 0 := by decide
            simp only [getu4, z.1, z.2, (hexDigit_spec (c % 16) (by omega)).2]
            rcases hsep with rfl | rfl <;> rfl
          have := unquoteStep_uEscape 0x32 0x30 0x32 (hexDigit (c % 16)) Y
            (by rw [hg]; rcases hsep with rfl | rfl <;> omega)
          rw [hg, henc] at this
          simpa using this
      · refine ⟨p0 :: tl, by simp, ?_, ?_, ?_⟩
        · intro more; rw [hstep more]; simp [hsep]
        · intro acc X
          apply lex_plain
          intro b hb
          have := hhi b hb
          omega
        · intro Y
          have hne5 : ¬ (p0.val = 0x5C) := by omega
          simp only [List.cons_append, unquoteStep, hne5, hp0, if_false]
          have := hdec Y
          rw [List.cons_append] at this
          rw [this, henc]

/-- The text `appendString` writes for a valid string, rune by rune. -/
theorem escape_append {chunk : List Byte} {c : Nat} (h : IsRune chunk c) (rest : List Byte) :
    ∃ out, out ≠ [] ∧ escape (chunk ++ rest) = out ++ escape rest ∧
      (∀ acc X, lex (Mode.inString acc) (out ++ X) = lex (Mode.inString (acc ++ out)) X) ∧
      (∀ Y, unquote (out ++ Y) = chunk ++ unquote Y) := by
  obtain ⟨out, h1, h2, h3, h4⟩ := escapeStep_rune h
  refine ⟨out, h1, ?_, h3, ?_⟩
  · exact chunked_append escapeStep chunk rest out h.spec.2.2.1 (h2 rest)
  · intro Y
    exact chunked_append unquoteStep out Y chunk h1 (h4 Y)

/-- The scanner reads the literal written for a valid string as one string
token. -/
theorem lex_escape (s : List Byte) (hv : validUTF8 s = true) :
    ∀ acc rest, lex (Mode.inString acc) (escape s ++ 0x22 :: rest)
      = (lex Mode.value rest).map (fun ts => Token.str (acc ++ escape s) :: ts) := by
  refine validUTF8_induction (P := fun s => ∀ acc rest,
    lex (Mode.inString acc) (escape s ++ 0x22 :: rest)
      = (lex Mode.value rest).map (fun ts => Token.str (acc ++ escape s) :: ts)) ?_ ?_ s hv
  · intro acc rest
    simp [escape, chunked, lex, byte_lits]
  · intro chunk c rest hr _ ih acc X
    obtain ⟨out, _, h2, h3, _⟩ := escape_append hr rest
    rw [h2, List.append_assoc, h3, ih]
    simp

/-- The function `unquoteBytes` undoes `appendString` on a valid UTF-8 string. -/
theorem unquote_escape (s : List Byte) (hv : validUTF8 s = true) : unquote (escape s) = s := by
  refine validUTF8_induction (P := fun s => unquote (escape s) = s) ?_ ?_ s hv
  · simp [escape, unquote, chunked]
  · intro chunk c rest hr _ ih
    obtain ⟨out, _, h2, _, h4⟩ := escape_append hr rest
    rw [h2, h4, ih]

/-- The scanner reads what `appendString` writes for a valid string, between
tokens, as one string token. -/
theorem lex_appendString (s : List Byte) (hv : validUTF8 s = true) (rest : List Byte) :
    lex Mode.value (appendString s ++ rest)
      = (lex Mode.value rest).map (fun ts => Token.str (escape s) :: ts) := by
  have : appendString s ++ rest = 0x22 :: (escape s ++ 0x22 :: rest) := by
    simp [appendString]
  rw [this]
  simp only [lex]
  have hb : beginToken (0x22 : Byte) = some ([], Mode.inString []) := by decide
  rw [hb]
  simp only []
  rw [lex_escape s hv]
  cases lex Mode.value rest <;> rfl

theorem parseDigits_cons (a : Nat) (d : Byte) (rest : List Byte)
    (h : 48 ≤ d.val ∧ d.val ≤ 57) :
    parseDigits a (d :: rest) = parseDigits (a * 10 + (d.val - 48)) rest := by
  simp [parseDigits, h]

theorem digit_val (n : Nat) (h : n < 10) : ((Fin.ofNat (48 + n) : Byte)).val = 48 + n := by
  simp [Fin.ofNat]; omega

theorem IsDecimal.value_unique {ds : List Byte} {n m : Nat} (h1 : IsDecimal ds n)
    (h2 : IsDecimal ds m) : n = m := by
  have a := h1.2.2.2 0 []
  have b := h2.2.2.2 0 []
  rw [a] at b
  simpa [parseDigits] using b

theorem digitsAux_spec (fuel : Nat) : ∀ n acc, n < fuel →
    ∃ ds, digitsAux fuel n acc = ds ++ acc ∧ IsDecimal ds n := by
  induction fuel with
  | zero => intro n acc h; omega
  | succ f ih =>
    intro n acc hn
    by_cases h10 : n < 10
    · refine ⟨[Fin.ofNat (48 + n)], by simp [digitsAux, h10], by simp, ?_, ?_, ?_⟩
      · intro d hd
        simp at hd
        subst hd
        rw [digit_val n h10]; omega
      · intro hh
        simp at hh
        have := congrArg Fin.val hh
        rw [digit_val n h10] at this
        have h0 : n = 0 := by simp at this; omega
        subst h0; rfl
      · intro a rest
        rw [List.singleton_append, parseDigits_cons _ _ _ (by rw [digit_val n h10]; omega),
          digit_val n h10]
        simp
    · obtain ⟨ds, hds, hdec⟩ := ih (n / 10) (Fin.ofNat (48 + n % 10) :: acc) (by omega)
      have hmod : n % 10 < 10 := Nat.mod_lt _ (by decide)
      refine ⟨ds ++ [Fin.ofNat (48 + n % 10)], ?_, by simp, ?_, ?_, ?_⟩
      · simp [digitsAux, h10, hds]
      · intro d hd
        rcases List.mem_append.mp hd with h | h
        · exact hdec.2.1 d h
        · simp at h; subst h; rw [digit_val _ hmod]; omega
      · intro hh
        exfalso
        obtain ⟨hne, _, hz, hp⟩ := hdec
        have hhead : ds.head? = some 48 := by
          match ds, hne with
          | x :: tl, _ => simpa using hh
        have hds0 := hz hhead
        have := hp 0 []
        rw [hds0] at this
        simp [parseDigits, byte_lits] at this
        omega
      · intro a rest
        rw [List.append_assoc, hdec.2.2.2, List.singleton_append,
          parseDigits_cons _ _ _ (by rw [digit_val _ hmod]; omega), digit_val _ hmod]
        congr 1
        simp only [List.length_append, List.length_singleton, pow_succ]
        have := Nat.div_add_mod n 10
        have e : 48 + n % 10 - 48 = n % 10 := by omega
        rw [e]
        nlinarith [Nat.div_add_mod n 10]

theorem formatNat_spec (n : Nat) : IsDecimal (formatNat n) n := by
  obtain ⟨ds, h1, h2⟩ := digitsAux_spec (n + 1) n [] (by omega)
  simp only [formatNat, h1, List.append_nil]
  exact h2

theorem parseNat_of_isDecimal {ds : List Byte} {n : Nat} (h : IsDecimal ds n) :
    parseNat ds = some n := by
  obtain ⟨hne, _, _, hp⟩ := h
  match ds, hne with
  | d :: tl, _ =>
    simp only [parseNat]
    have := hp 0 []
    simpa [parseDigits] using this

/-- The function `strconv.ParseInt` reads back what `strconv.AppendInt` writes for
an `int64`. -/
theorem ParseInt_FormatInt (i : Int) (h1 : -2 ^ 63 ≤ i) (h2 : i < 2 ^ 63) :
    ParseInt (FormatInt i) = some i := by
  unfold FormatInt
  split_ifs with hneg
  · have hp := parseNat_of_isDecimal (formatNat_spec (-i).toNat)
    simp only [ParseInt, byte_lits, if_true]
    rw [hp]
    have hle : (-i).toNat ≤ 2 ^ 63 := by omega
    simp only [hle, if_true]
    congr 1
    omega
  · have hd := formatNat_spec i.toNat
    have hp := parseNat_of_isDecimal hd
    obtain ⟨hne, hdig, _, _⟩ := hd
    match hf : formatNat i.toNat, hne with
    | d :: tl, _ =>
      rw [hf] at hp hdig
      have hdr := hdig d (by simp)
      have n1 : ¬ (d.val = 0x2D) := by omega
      have n2 : ¬ (d.val = 0x2B) := by omega
      simp only [ParseInt, n1, n2, if_false, hp]
      have hlt : i.toNat < 2 ^ 63 := by omega
      simp only [hlt, if_true]
      congr 1
      omega

set_option maxRecDepth 100000 in
theorem beginToken_digit_all : ∀ d : Byte, 49 ≤ d.val ∧ d.val ≤ 57 →
    beginToken d = some ([], Mode.inNumber NumState.int [d]) := by
  decide

theorem beginToken_digit (d : Byte) (h : 49 ≤ d.val ∧ d.val ≤ 57) :
    beginToken d = some ([], Mode.inNumber NumState.int [d]) :=
  beginToken_digit_all d h

theorem lex_value_cons (b : Byte) (toks : List Token) (m : Mode) (Y : List Byte)
    (h : beginToken b = some (toks, m)) :
    lex Mode.value (b :: Y) = (lex m Y).map (fun ts => toks ++ ts) := by
  simp only [lex, h]

theorem lex_number_end (st : NumState) (hf : numFinal st = true) (lit X : List Byte) :
    lex (Mode.inNumber st lit) (0x7D :: X)
      = (lex Mode.value X).map (fun ts => Token.num lit :: Token.rbrace :: ts) := by
  have hb : beginToken (0x7D : Byte) = some ([Token.rbrace], Mode.value) := by decide
  have hn : numStep st (0x7D : Byte) = none := by
    cases st <;> simp [numFinal] at hf <;> decide
  simp only [lex, hn, hf, if_true, hb]
  cases lex Mode.value X <;> rfl

theorem lex_number_step (st st1 : NumState) (d : Byte) (h : numStep st d = some st1)
    (lit Y : List Byte) :
    lex (Mode.inNumber st lit) (d :: Y) = lex (Mode.inNumber st1 (lit ++ [d])) Y := by
  simp only [lex, h]

theorem lex_digits_int (ds : List Byte) (h : ∀ d ∈ ds, 48 ≤ d.val ∧ d.val ≤ 57)
    (lit X : List Byte) :
    lex (Mode.inNumber NumState.int lit) (ds ++ 0x7D :: X)
      = (lex Mode.value X).map (fun ts => Token.num (lit ++ ds) :: Token.rbrace :: ts) := by
  induction ds generalizing lit with
  | nil =>
    simp only [List.nil_append, List.append_nil]
    exact lex_number_end NumState.int rfl lit X
  | cons d tl ih =>
    have hd : isDigit d = true := by
      have := h d (by simp)
      simp [isDigit]; omega
    have hs : numStep NumState.int d = some NumState.int := by simp [numStep, hd]
    rw [List.cons_append, lex_number_step _ _ d hs, ih (fun x hx => h x (by simp [hx]))]
    simp

/-- The scanner reads a decimal number followed by `}`, after an optional minus
sign, as one number token. -/
theorem lex_decimal {ds : List Byte} {n : Nat} (h : IsDecimal ds n) (X : List Byte) :
    lex Mode.value (ds ++ 0x7D :: X)
      = (lex Mode.value X).map (fun ts => Token.num ds :: Token.rbrace :: ts) ∧
    (n ≠ 0 → lex (Mode.inNumber NumState.neg [0x2D]) (ds ++ 0x7D :: X)
      = (lex Mode.value X).map (fun ts => Token.num (0x2D :: ds) :: Token.rbrace :: ts)) := by
  obtain ⟨hne, hdig, hz, hp⟩ := h
  match ds, hne with
  | d :: tl, _ =>
    have hd := hdig d (by simp)
    have htl : ∀ x ∈ tl, 48 ≤ x.val ∧ x.val ≤ 57 := fun x hx => hdig x (by simp [hx])
    by_cases h0 : d.val = 48
    · have hd0 : d = 48 := Fin.ext (by show d.val = 48; omega)
      subst hd0
      have htl0 : tl = [] := by
        have := hz rfl
        simpa using this
      subst htl0
      constructor
      · have hb : beginToken (48 : Byte) = some ([], Mode.inNumber NumState.zero [48]) := by
          decide
        rw [List.cons_append, List.nil_append, lex_value_cons _ _ _ _ hb,
          lex_number_end NumState.zero rfl]
        cases lex Mode.value X <;> rfl
      · intro hn
        exfalso
        have := hp 0 []
        simp [parseDigits, byte_lits] at this
        omega
    · have hd1 : 49 ≤ d.val ∧ d.val ≤ 57 := by omega
      have hdg : isDigit d = true := by simp [isDigit]; omega
      constructor
      · rw [List.cons_append, lex_value_cons _ _ _ _ (beginToken_digit d hd1),
          lex_digits_int tl htl]
        cases lex Mode.value X <;> rfl
      · intro _
        have hns : numStep NumState.neg d = some NumState.int := by
          have h30 : ¬ (d.val = 0x30) := by omega
          simp [numStep, h30, hdg]
        rw [List.cons_append, lex_number_step _ _ d hns, lex_digits_int tl htl]
        simp

/-- The scanner reads what `strconv.AppendInt` writes, followed by `}`, as one
number token. -/
theorem lex_FormatInt (i : Int) (X : List Byte) :
    lex Mode.value (FormatInt i ++ 0x7D :: X)
      = (lex Mode.value X).map (fun ts => Token.num (FormatInt i) :: Token.rbrace :: ts) := by
  unfold FormatInt
  split_ifs with hneg
  · have hd := formatNat_spec (-i).toNat
    have hb : beginToken (0x2D : Byte) = some ([], Mode.inNumber NumState.neg [0x2D]) := by
      decide
    rw [List.cons_append, lex_value_cons _ _ _ _ hb, (lex_decimal hd X).2 (by omega)]
    cases lex Mode.value X <;> rfl
  · exact (lex_decimal (formatNat_spec i.toNat) X).1

theorem lex_nil : lex Mode.value [] = some [] := rfl

theorem lex_lbrace (Y : List Byte) :
    lex Mode.value (0x7B :: Y) = (lex Mode.value Y).map (fun ts => Token.lbrace :: ts) := by
  rw [lex_value_cons _ _ _ _ (by decide : beginToken (0x7B : Byte) = some ([Token.lbrace], Mode.value))]
  cases lex Mode.value Y <;> rfl

theorem lex_rbrace (Y : List Byte) :
    lex Mode.value (0x7D :: Y) = (lex Mode.value Y).map (fun ts => Token.rbrace :: ts) := by
  rw [lex_value_cons _ _ _ _ (by decide : beginToken (0x7D : Byte) = some ([Token.rbrace], Mode.value))]
  cases lex Mode.value Y <;> rfl

theorem lex_colon (Y : List Byte) :
    lex Mode.value (0x3A :: Y) = (lex Mode.value Y).map (fun ts => Token.colon :: ts) := by
  rw [lex_value_cons _ _ _ _ (by decide : beginToken (0x3A : Byte) = some ([Token.colon], Mode.value))]
  cases lex Mode.value Y <;> rfl

theorem lex_comma (Y : List Byte) :
    lex Mode.value (0x2C :: Y) = (lex Mode.value Y).map (fun ts => Token.comma :: ts) := by
  rw [lex_value_cons _ _ _ _ (by decide : beginToken (0x2C : Byte) = some ([Token.comma], Mode.value))]
  cases lex Mode.value Y <;> rfl

theorem lex_literal_step (tok : Token) (d : Byte) (due Y : List Byte) (hne : due ≠ []) :
    lex (Mode.inLiteral tok (d :: due)) (d :: Y) = lex (Mode.inLiteral tok due) Y := by
  simp only [lex, hne, if_true, if_false]

theorem lex_literal_last (tok : Token) (d : Byte) (Y : List Byte) :
    lex (Mode.inLiteral tok [d]) (d :: Y) = (lex Mode.value Y).map (fun ts => tok :: ts) := by
  simp only [lex, if_true]

theorem lex_true (Y : List Byte) :
    lex Mode.value (0x74 :: 0x72 :: 0x75 :: 0x65 :: Y)
      = (lex Mode.value Y).map (fun ts => Token.litTrue :: ts) := by
  rw [lex_value_cons _ _ _ _ (by decide : beginToken (0x74 : Byte)
      = some ([], Mode.inLiteral Token.litTrue [0x72, 0x75, 0x65])),
    lex_literal_step _ _ _ _ (by simp), lex_literal_step _ _ _ _ (by simp), lex_literal_last]
  cases lex Mode.value Y <;> rfl

theorem lex_false (Y : List Byte) :
    lex Mode.value (0x66 :: 0x61 :: 0x6C :: 0x73 :: 0x65 :: Y)
      = (lex Mode.value Y).map (fun ts => Token.litFalse :: ts) := by
  rw [lex_value_cons _ _ _ _ (by decide : beginToken (0x66 : Byte)
      = some ([], Mode.inLiteral Token.litFalse [0x61, 0x6C, 0x73, 0x65])),
    lex_literal_step _ _ _ _ (by simp), lex_literal_step _ _ _ _ (by simp),
    lex_literal_step _ _ _ _ (by simp), lex_literal_last]
  cases lex Mode.value Y <;> rfl

theorem lex_null (Y : List Byte) :
    lex Mode.value (0x6E :: 0x75 :: 0x6C :: 0x6C :: Y)
      = (lex Mode.value Y).map (fun ts => Token.litNull :: ts) := by
  rw [lex_value_cons _ _ _ _ (by decide : beginToken (0x6E : Byte)
      = some ([], Mode.inLiteral Token.litNull [0x75, 0x6C, 0x6C])),
    lex_literal_step _ _ _ _ (by simp), lex_literal_step _ _ _ _ (by simp), lex_literal_last]
  cases lex Mode.value Y <;> rfl

/-- The token a boolean is written as. -/
theorem lex_bool (b : Bool) (Y : List Byte) :
    lex Mode.value (encodeValue (Value.bool b) ++ Y)
      = (lex Mode.value Y).map (fun ts => (if b then Token.litTrue else Token.litFalse) :: ts) := by
  cases b
  · exact lex_false Y
  · exact lex_true Y

theorem encodeValue_string (s : GoString) : encodeValue (Value.string s) = appendString s := rfl

/-! ### The decoder on the members of an object -/

theorem wellFormed_open (rest : List Token) :
    wellFormed Expect.value [] (Token.lbrace :: rest)
      = wellFormed Expect.keyOrEnd [Frame.object] rest := by
  simp [wellFormed, Token.isScalar, maxNestingDepth]

theorem wellFormed_first (k : List Byte) (tok : Token) (hs : tok.isScalar = true)
    (stack : List Frame) (rest : List Token) :
    wellFormed Expect.keyOrEnd stack (Token.str k :: Token.colon :: tok :: rest)
      = wellFormed Expect.endValue stack rest := by
  simp [wellFormed, hs]

theorem wellFormed_next (k : List Byte) (tok : Token) (hs : tok.isScalar = true)
    (stack : List Frame) (rest : List Token) :
    wellFormed Expect.endValue (Frame.object :: stack)
        (Token.comma :: Token.str k :: Token.colon :: tok :: rest)
      = wellFormed Expect.endValue (Frame.object :: stack) rest := by
  simp [wellFormed, hs]

theorem wellFormed_close :
    wellFormed Expect.endValue [Frame.object] [Token.rbrace] = true := by
  simp [wellFormed]

theorem isScalar_bool (b : Bool) :
    (if b then Token.litTrue else Token.litFalse).isScalar = true := by
  cases b <;> rfl

theorem step_open (fields : List Field) (vs : List Value) (e : Option Error) (fo : Option Nat)
    (w : Bool) (mk : GoString) (rest : List Token) :
    List.foldl (Decoder.step fields) ⟨vs, e, 0, 0, fo, w, mk⟩ (Token.lbrace :: rest)
      = List.foldl (Decoder.step fields) ⟨vs, e, 0, 1, fo, true, mk⟩ rest := by
  simp [Decoder.step]

theorem step_comma (fields : List Field) (vs : List Value) (e : Option Error) (fo : Option Nat)
    (w : Bool) (mk : GoString) (rest : List Token) :
    List.foldl (Decoder.step fields) ⟨vs, e, 0, 1, fo, w, mk⟩ (Token.comma :: rest)
      = List.foldl (Decoder.step fields) ⟨vs, e, 0, 1, fo, true, mk⟩ rest := by
  simp [Decoder.step]

theorem step_close (fields : List Field) (vs : List Value) (e : Option Error) (fo : Option Nat)
    (w : Bool) (mk : GoString) :
    List.foldl (Decoder.step fields) ⟨vs, e, 0, 1, fo, w, mk⟩ [Token.rbrace]
      = ⟨vs, e, 0, 0, fo, w, mk⟩ := by
  simp [Decoder.step]

/-- A member whose key names a string field and whose value is a string. -/
theorem step_member_string (fields : List Field) (vs : List Value) (e : Option Error)
    (fo : Option Nat) (mk : GoString) (rk raw : List Byte) (i : Nat) (f : Field)
    (rest : List Token)
    (hl : lookupField fields (unquote rk) = some i) (hf : fields[i]? = some f)
    (hk : f.kind = Kind.string) :
    List.foldl (Decoder.step fields) ⟨vs, e, 0, 1, fo, true, mk⟩
        (Token.str rk :: Token.colon :: Token.str raw :: rest)
      = List.foldl (Decoder.step fields)
          ⟨vs.set i (Value.string (unquote raw)), e, 0, 1, some i, false, mk⟩ rest := by
  simp [Decoder.step, Decoder.storeField, hl, hf, hk]

/-- A member whose key names a boolean field and whose value is a boolean. -/
theorem step_member_bool (fields : List Field) (vs : List Value) (e : Option Error)
    (fo : Option Nat) (mk : GoString) (rk : List Byte) (b : Bool) (i : Nat) (f : Field)
    (rest : List Token)
    (hl : lookupField fields (unquote rk) = some i) (hf : fields[i]? = some f)
    (hk : f.kind = Kind.bool) :
    List.foldl (Decoder.step fields) ⟨vs, e, 0, 1, fo, true, mk⟩
        (Token.str rk :: Token.colon :: (if b then Token.litTrue else Token.litFalse) :: rest)
      = List.foldl (Decoder.step fields)
          ⟨vs.set i (Value.bool b), e, 0, 1, some i, false, mk⟩ rest := by
  cases b <;> simp [Decoder.step, Decoder.storeField, hl, hf, hk]

/-- A member whose key names an integer field and whose value is an integer in
range. -/
theorem step_member_int (fields : List Field) (vs : List Value) (e : Option Error)
    (fo : Option Nat) (mk : GoString) (rk lit : List Byte) (n : Int) (i : Nat) (f : Field)
    (rest : List Token)
    (hl : lookupField fields (unquote rk) = some i) (hf : fields[i]? = some f)
    (hk : f.kind = Kind.int64) (hp : ParseInt lit = some n) :
    List.foldl (Decoder.step fields) ⟨vs, e, 0, 1, fo, true, mk⟩
        (Token.str rk :: Token.colon :: Token.num lit :: rest)
      = List.foldl (Decoder.step fields)
          ⟨vs.set i (Value.int64 n), e, 0, 1, some i, false, mk⟩ rest := by
  simp [Decoder.step, Decoder.storeField, hl, hf, hk, hp]

/-- The round trip of `BeginReplicationRequest` through `encoding/json`. -/
theorem codec_BeginReplicationRequest (v d : BeginReplicationRequest)
    (h1 : validUTF8 v.Device = true) (h2 : validUTF8 v.Partition = true) :
    GoJSON.Unmarshal (encodeStruct BeginReplicationRequest.fields v.values) d = (v, none) := by
  have n1 : validUTF8 (ascii "Device") = true := by decide
  have n2 : validUTF8 (ascii "Partition") = true := by decide
  have n3 : validUTF8 (ascii "NeedHashes") = true := by decide
  have hlex : lex Mode.value (encodeStruct BeginReplicationRequest.fields v.values)
      = some [Token.lbrace, Token.str (escape (ascii "Device")), Token.colon,
          Token.str (escape v.Device), Token.comma,
          Token.str (escape (ascii "Partition")), Token.colon,
          Token.str (escape v.Partition), Token.comma,
          Token.str (escape (ascii "NeedHashes")), Token.colon,
          (if v.NeedHashes then Token.litTrue else Token.litFalse), Token.rbrace] := by
    simp only [encodeStruct, BeginReplicationRequest.fields, BeginReplicationRequest.values,
      List.zipWith, joinMembers, encodeField, List.append_assoc, List.cons_append,
      List.nil_append, encodeValue_string]
    rw [lex_lbrace, lex_appendString _ n1, lex_colon, lex_appendString _ h1, lex_comma,
      lex_appendString _ n2, lex_colon, lex_appendString _ h2, lex_comma,
      lex_appendString _ n3, lex_colon, lex_bool, lex_rbrace, lex_nil]
    rfl
  have l1 : lookupField BeginReplicationRequest.fields (unquote (escape (ascii "Device")))
      = some 0 := by decide
  have l2 : lookupField BeginReplicationRequest.fields (unquote (escape (ascii "Partition")))
      = some 1 := by decide
  have l3 : lookupField BeginReplicationRequest.fields (unquote (escape (ascii "NeedHashes")))
      = some 2 := by decide
  show (match unmarshalStruct BeginReplicationRequest.fields
      (encodeStruct BeginReplicationRequest.fields v.values) d.values with
    | (vals, err) => (BeginReplicationRequest.ofValues vals d, err)) = (v, none)
  have hwf : wellFormed Expect.value [] [Token.lbrace, Token.str (escape (ascii "Device")),
          Token.colon, Token.str (escape v.Device), Token.comma,
          Token.str (escape (ascii "Partition")), Token.colon,
          Token.str (escape v.Partition), Token.comma,
          Token.str (escape (ascii "NeedHashes")), Token.colon,
          (if v.NeedHashes then Token.litTrue else Token.litFalse), Token.rbrace] = true := by
    rw [wellFormed_open, wellFormed_first _ (Token.str _) rfl,
      wellFormed_next _ (Token.str _) rfl,
      wellFormed_next _ _ (isScalar_bool _), wellFormed_close]
  simp only [unmarshalStruct, checkValid, hlex, hwf, if_true]
  rw [step_open, step_member_string _ _ _ _ _ _ _ 0 _ _ l1 rfl rfl, step_comma,
    step_member_string _ _ _ _ _ _ _ 1 _ _ l2 rfl rfl, step_comma,
    step_member_bool _ _ _ _ _ _ _ 2 _ _ l3 rfl rfl, step_close]
  simp only [unquote_escape _ h1, unquote_escape _ h2, BeginReplicationRequest.values,
    List.set, BeginReplicationRequest.ofValues]

theorem encodeValue_int (i : Int) : encodeValue (Value.int64 i) = FormatInt i := rfl

/-- The round trip of `SyncFileRequest` through `encoding/json`. -/
theorem codec_SyncFileRequest (v d : SyncFileRequest)
    (h1 : validUTF8 v.Path = true) (h2 : validUTF8 v.Xattrs = true)
    (h3 : -2 ^ 63 ≤ v.Size) (h4 : v.Size < 2 ^ 63) :
    GoJSON.Unmarshal (encodeStruct SyncFileRequest.fields v.values) d = (v, none) := by
  have n1 : validUTF8 (ascii "Path") = true := by decide
  have n2 : validUTF8 (ascii "Xattrs") = true := by decide
  have n3 : validUTF8 (ascii "Size") = true := by decide
  have hlex : lex Mode.value (encodeStruct SyncFileRequest.fields v.values)
      = some [Token.lbrace, Token.str (escape (ascii "Path")), Token.colon,
          Token.str (escape v.Path), Token.comma,
          Token.str (escape (ascii "Xattrs")), Token.colon,
          Token.str (escape v.Xattrs), Token.comma,
          Token.str (escape (ascii "Size")), Token.colon,
          Token.num (FormatInt v.Size), Token.rbrace] := by
    simp only [encodeStruct, SyncFileRequest.fields, SyncFileRequest.values,
      List.zipWith, joinMembers, encodeField, List.append_assoc, List.cons_append,
      List.nil_append, encodeValue_string, encodeValue_int]
    rw [lex_lbrace, lex_appendString _ n1, lex_colon, lex_appendString _ h1, lex_comma,
      lex_appendString _ n2, lex_colon, lex_appendString _ h2, lex_comma,
      lex_appendString _ n3, lex_colon, lex_FormatInt, lex_nil]
    rfl
  have l1 : lookupField SyncFileRequest.fields (unquote (escape (ascii "Path")))
      = some 0 := by decide
  have l2 : lookupField SyncFileRequest.fields (unquote (escape (ascii "Xattrs")))
      = some 1 := by decide
  have l3 : lookupField SyncFileRequest.fields (unquote (escape (ascii "Size")))
      = some 2 := by decide
  show (match unmarshalStruct SyncFileRequest.fields
      (encodeStruct SyncFileRequest.fields v.values) d.values with
    | (vals, err) => (SyncFileRequest.ofValues vals d, err)) = (v, none)
  have hwf : wellFormed Expect.value [] [Token.lbrace, Token.str (escape (ascii "Path")),
          Token.colon, Token.str (escape v.Path), Token.comma,
          Token.str (escape (ascii "Xattrs")), Token.colon,
          Token.str (escape v.Xattrs), Token.comma,
          Token.str (escape (ascii "Size")), Token.colon,
          Token.num (FormatInt v.Size), Token.rbrace] = true := by
    rw [wellFormed_open, wellFormed_first _ (Token.str _) rfl,
      wellFormed_next _ (Token.str _) rfl, wellFormed_next _ (Token.num _) rfl,
      wellFormed_close]
  simp only [unmarshalStruct, checkValid, hlex, hwf, if_true]
  rw [step_open, step_member_string _ _ _ _ _ _ _ 0 _ _ l1 rfl rfl, step_comma,
    step_member_string _ _ _ _ _ _ _ 1 _ _ l2 rfl rfl, step_comma,
    step_member_int _ _ _ _ _ _ _ _ 2 _ _ l3 rfl rfl (ParseInt_FormatInt _ h3 h4), step_close]
  simp only [unquote_escape _ h1, unquote_escape _ h2, SyncFileRequest.values,
    List.set, SyncFileRequest.ofValues]

/-- The round trip of `SyncFileResponse` through `encoding/json`. -/
theorem codec_SyncFileResponse (v d : SyncFileResponse) (h1 : validUTF8 v.Msg = true) :
    GoJSON.Unmarshal (encodeStruct SyncFileResponse.fields v.values) d = (v, none) := by
  have n1 : validUTF8 (ascii "Exists") = true := by decide
  have n2 : validUTF8 (ascii "NewerExists") = true := by decide
  have n3 : validUTF8 (ascii "GoAhead") = true := by decide
  have n4 : validUTF8 (ascii "Msg") = true := by decide
  have hlex : lex Mode.value (encodeStruct SyncFileResponse.fields v.values)
      = some [Token.lbrace, Token.str (escape (ascii "Exists")), Token.colon,
          (if v.Exists then Token.litTrue else Token.litFalse), Token.comma,
          Token.str (escape (ascii "NewerExists")), Token.colon,
          (if v.NewerExists then Token.litTrue else Token.litFalse), Token.comma,
          Token.str (escape (ascii "GoAhead")), Token.colon,
          (if v.GoAhead then Token.litTrue else Token.litFalse), Token.comma,
          Token.str (escape (ascii "Msg")), Token.colon,
          Token.str (escape v.Msg), Token.rbrace] := by
    simp only [encodeStruct, SyncFileResponse.fields, SyncFileResponse.values,
      List.zipWith, joinMembers, encodeField, List.append_assoc, List.cons_append,
      List.nil_append, encodeValue_string]
    rw [lex_lbrace, lex_appendString _ n1, lex_colon, lex_bool, lex_comma,
      lex_appendString _ n2, lex_colon, lex_bool, lex_comma,
      lex_appendString _ n3, lex_colon, lex_bool, lex_comma,
      lex_appendString _ n4, lex_colon, lex_appendString _ h1, lex_rbrace, lex_nil]
    rfl
  have l1 : lookupField SyncFileResponse.fields (unquote (escape (ascii "Exists")))
      = some 0 := by decide
  have l2 : lookupField SyncFileResponse.fields (unquote (escape (ascii "NewerExists")))
      = some 1 := by decide
  have l3 : lookupField SyncFileResponse.fields (unquote (escape (ascii "GoAhead")))
      = some 2 := by decide
  have l4 : lookupField SyncFileResponse.fields (unquote (escape (ascii "Msg")))
      = some 3 := by decide
  show (match unmarshalStruct SyncFileResponse.fields
      (encodeStruct SyncFileResponse.fields v.values) d.values with
    | (vals, err) => (SyncFileResponse.ofValues vals d, err)) = (v, none)
  have hwf : wellFormed Expect.value [] [Token.lbrace, Token.str (escape (ascii "Exists")),
          Token.colon, (if v.Exists then Token.litTrue else Token.litFalse), Token.comma,
          Token.str (escape (ascii "NewerExists")), Token.colon,
          (if v.NewerExists then Token.litTrue else Token.litFalse), Token.comma,
          Token.str (escape (ascii "GoAhead")), Token.colon,
          (if v.GoAhead then Token.litTrue else Token.litFalse), Token.comma,
          Token.str (escape (ascii "Msg")), Token.colon,
          Token.str (escape v.Msg), Token.rbrace] = true := by
    rw [wellFormed_open, wellFormed_first _ _ (isScalar_bool _),
      wellFormed_next _ _ (isScalar_bool _), wellFormed_next _ _ (isScalar_bool _),
      wellFormed_next _ (Token.str _) rfl, wellFormed_close]
  simp only [unmarshalStruct, checkValid, hlex, hwf, if_true]
  rw [step_open, step_member_bool _ _ _ _ _ _ _ 0 _ _ l1 rfl rfl, step_comma,
    step_member_bool _ _ _ _ _ _ _ 1 _ _ l2 rfl rfl, step_comma,
    step_member_bool _ _ _ _ _ _ _ 2 _ _ l3 rfl rfl, step_comma,
    step_member_string _ _ _ _ _ _ _ 3 _ _ l4 rfl rfl, step_close]
  simp only [unquote_escape _ h1, SyncFileResponse.values, List.set, SyncFileResponse.ofValues]

/-- The round trip of `FileUploadResponse` through `encoding/json`. -/
theorem codec_FileUploadResponse (v d : FileUploadResponse) (h1 : validUTF8 v.Msg = true) :
    GoJSON.Unmarshal (encodeStruct FileUploadResponse.fields v.values) d = (v, none) := by
  have n1 : validUTF8 (ascii "Success") = true := by decide
  have n2 : validUTF8 (ascii "Msg") = true := by decide
  have hlex : lex Mode.value (encodeStruct FileUploadResponse.fields v.values)
      = some [Token.lbrace, Token.str (escape (ascii "Success")), Token.colon,
          (if v.Success then Token.litTrue else Token.litFalse), Token.comma,
          Token.str (escape (ascii "Msg")), Token.colon,
          Token.str (escape v.Msg), Token.rbrace] := by
    simp only [encodeStruct, FileUploadResponse.fields, FileUploadResponse.values,
      List.zipWith, joinMembers, encodeField, List.append_assoc, List.cons_append,
      List.nil_append, encodeValue_string]
    rw [lex_lbrace, lex_appendString _ n1, lex_colon, lex_bool, lex_comma,
      lex_appendString _ n2, lex_colon, lex_appendString _ h1, lex_rbrace, lex_nil]
    rfl
  have l1 : lookupField FileUploadResponse.fields (unquote (escape (ascii "Success")))
      = some 0 := by decide
  have l2 : lookupField FileUploadResponse.fields (unquote (escape (ascii "Msg")))
      = some 1 := by decide
  show (match unmarshalStruct FileUploadResponse.fields
      (encodeStruct FileUploadResponse.fields v.values) d.values with
    | (vals, err) => (FileUploadResponse.ofValues vals d, err)) = (v, none)
  have hwf : wellFormed Expect.value [] [Token.lbrace, Token.str (escape (ascii "Success")),
          Token.colon, (if v.Success then Token.litTrue else Token.litFalse), Token.comma,
          Token.str (escape (ascii "Msg")), Token.colon,
          Token.str (escape v.Msg), Token.rbrace] = true := by
    rw [wellFormed_open, wellFormed_first _ _ (isScalar_bool _),
      wellFormed_next _ (Token.str _) rfl, wellFormed_close]
  simp only [unmarshalStruct, checkValid, hlex, hwf, if_true]
  rw [step_open, step_member_bool _ _ _ _ _ _ _ 0 _ _ l1 rfl rfl, step_comma,
    step_member_string _ _ _ _ _ _ _ 1 _ _ l2 rfl rfl, step_close]
  simp only [unquote_escape _ h1, FileUploadResponse.values, List.set,
    FileUploadResponse.ofValues]

theorem lex_binding (e : GoString × GoString) (h1 : validUTF8 e.1 = true)
    (h2 : validUTF8 e.2 = true) (Y : List Byte) :
    lex Mode.value (encodeBinding e ++ Y)
      = (lex Mode.value Y).map (fun ts => bindingTokens e ++ ts) := by
  simp only [encodeBinding, List.append_assoc, List.cons_append]
  rw [lex_appendString _ h1, lex_colon, lex_appendString _ h2]
  cases lex Mode.value Y <;> rfl

/-- The scanner reads the bindings of an encoded map and the closing brace. -/
theorem lex_members (es : List (GoString × GoString)) (hv : validBindings es) (X : List Byte) :
    lex Mode.value (joinMembers (es.map encodeBinding) ++ 0x7D :: X)
      = (lex Mode.value X).map (fun ts => memberTokens es ++ Token.rbrace :: ts) := by
  induction es with
  | nil =>
    simp only [List.map_nil, joinMembers, List.nil_append, memberTokens]
    exact lex_rbrace X
  | cons e tl ih =>
    have he := hv e (by simp)
    have htl : validBindings tl := fun x hx => hv x (by simp [hx])
    match tl, ih, htl with
    | [], _, _ =>
      simp only [List.map_cons, List.map_nil, joinMembers, memberTokens]
      rw [lex_binding e he.1 he.2, lex_rbrace]
      cases lex Mode.value X <;> rfl
    | e2 :: tl2, ih, htl =>
      simp only [List.map_cons, joinMembers, memberTokens, List.append_assoc, List.cons_append]
      have ih' := ih htl
      simp only [List.map_cons] at ih'
      rw [lex_binding e he.1 he.2, lex_comma, ih']
      cases lex Mode.value X <;> simp

theorem wellFormed_binding (ex : Expect) (hex : ex = Expect.keyOrEnd ∨ ex = Expect.key)
    (e : GoString × GoString) (stack : List Frame) (rest : List Token) :
    wellFormed ex stack (bindingTokens e ++ rest) = wellFormed Expect.endValue stack rest := by
  rcases hex with rfl | rfl <;> simp [bindingTokens, wellFormed, Token.isScalar]

/-- The bindings of an encoded map and the closing brace are well formed. -/
theorem wellFormed_members (es : List (GoString × GoString)) (stack : List Frame)
    (rest : List Token) :
    wellFormed Expect.keyOrEnd (Frame.object :: stack) (memberTokens es ++ Token.rbrace :: rest)
      = wellFormed Expect.endValue stack rest ∧
    (es ≠ [] →
      wellFormed Expect.key (Frame.object :: stack) (memberTokens es ++ Token.rbrace :: rest)
        = wellFormed Expect.endValue stack rest) := by
  induction es with
  | nil => simp [memberTokens, wellFormed]
  | cons e tl ih =>
    match tl, ih with
    | [], _ =>
      simp only [memberTokens, ne_eq, not_false_eq_true, forall_const, reduceCtorEq]
      rw [wellFormed_binding _ (Or.inl rfl), wellFormed_binding _ (Or.inr rfl)]
      simp [wellFormed]
    | e2 :: tl2, ih =>
      have ih2 := ih.2 (by simp)
      simp only [memberTokens, List.append_assoc, List.cons_append, ne_eq,
        not_false_eq_true, forall_const, reduceCtorEq] at ih2 ⊢
      rw [wellFormed_binding _ (Or.inl rfl), wellFormed_binding _ (Or.inr rfl)]
      simp only [wellFormed]
      simp [ih2]

/-- One binding of a map, seen by the decoder inside a map field. -/
theorem step_binding (fields : List Field) (vs : List Value) (err : Option Error) (i : Nat)
    (mk : GoString) (acc : List (GoString × GoString)) (e : GoString × GoString)
    (h1 : validUTF8 e.1 = true) (h2 : validUTF8 e.2 = true)
    (hv : vs[i]? = some (Value.stringMap (some acc))) (rest : List Token) :
    List.foldl (Decoder.step fields) ⟨vs, err, 0, 2, some i, true, mk⟩ (bindingTokens e ++ rest)
      = List.foldl (Decoder.step fields)
          ⟨vs.set i (Value.stringMap (some (e :: acc))), err, 0, 2, some i, false, e.1⟩ rest := by
  simp [bindingTokens, Decoder.step, Decoder.storeElem, Decoder.storeBinding, hv, bind,
    unquote_escape _ h1, unquote_escape _ h2]

theorem step_binding_comma (fields : List Field) (vs : List Value) (err : Option Error)
    (i : Nat) (w : Bool) (mk : GoString) (rest : List Token) :
    List.foldl (Decoder.step fields) ⟨vs, err, 0, 2, some i, w, mk⟩ (Token.comma :: rest)
      = List.foldl (Decoder.step fields) ⟨vs, err, 0, 2, some i, true, mk⟩ rest := by
  simp [Decoder.step]

theorem step_binding_close (fields : List Field) (vs : List Value) (err : Option Error)
    (i : Nat) (w : Bool) (mk : GoString) (rest : List Token) :
    List.foldl (Decoder.step fields) ⟨vs, err, 0, 2, some i, w, mk⟩ (Token.rbrace :: rest)
      = List.foldl (Decoder.step fields) ⟨vs, err, 0, 1, some i, false, mk⟩ rest := by
  simp [Decoder.step]

/-- The bindings of an encoded map, seen by the decoder inside a map field: each
is stored in front of the ones before it. -/
theorem step_members (fields : List Field) (err : Option Error) (i : Nat) (rest : List Token)
    (es : List (GoString × GoString)) (hes : validBindings es) :
    ∀ (vs : List Value) (acc : List (GoString × GoString)) (mk : GoString),
      vs[i]? = some (Value.stringMap (some acc)) →
      ∃ mk2 : GoString,
        List.foldl (Decoder.step fields) ⟨vs, err, 0, 2, some i, true, mk⟩
            (memberTokens es ++ Token.rbrace :: rest)
          = List.foldl (Decoder.step fields)
              ⟨vs.set i (Value.stringMap (some (es.reverse ++ acc))), err, 0, 1, some i,
                false, mk2⟩ rest := by
  induction es with
  | nil =>
    intro vs acc mk hv
    refine ⟨mk, ?_⟩
    have hset : vs.set i (Value.stringMap (some acc)) = vs := by
      apply List.ext_getElem?
      intro j
      by_cases hj : i = j
      · subst hj
        rw [List.getElem?_set]
        simp only [if_true]
        rcases hlt : decide (i < vs.length) with _ | _
        · simp only [decide_eq_false_iff_not] at hlt
          simp [List.getElem?_eq_none (Nat.le_of_not_lt hlt)] at hv
        · simp only [decide_eq_true_eq] at hlt
          simp [hlt, hv]
      · rw [List.getElem?_set]; simp [hj]
    simp only [memberTokens, List.nil_append, List.reverse_nil, hset]
    exact step_binding_close _ _ _ _ _ _ _
  | cons e tl ih =>
    intro vs acc mk hv
    have he := hes e (by simp)
    have htl : validBindings tl := fun x hx => hes x (by simp [hx])
    have hlt : i < vs.length := by
      by_contra hn
      simp [List.getElem?_eq_none (Nat.le_of_not_lt hn)] at hv
    have hv2 : (vs.set i (Value.stringMap (some (e :: acc))))[i]?
        = some (Value.stringMap (some (e :: acc))) := by
      rw [List.getElem?_set]; simp [hlt]
    match tl, ih, htl with
    | [], _, _ =>
      refine ⟨e.1, ?_⟩
      simp only [memberTokens]
      rw [step_binding _ _ _ _ _ acc e he.1 he.2 hv, step_binding_close]
      simp
    | e2 :: tl2, ih, htl =>
      obtain ⟨mk2, h⟩ := ih htl _ (e :: acc) e.1 hv2
      refine ⟨mk2, ?_⟩
      simp only [memberTokens, List.append_assoc, List.cons_append] at h ⊢
      rw [step_binding _ _ _ _ _ acc e he.1 he.2 hv, step_binding_comma, h]
      simp [List.set_set]

/-! ### Maps as lists of bindings -/

theorem find_dedupKeys (l : List (GoString × GoString)) (k : GoString) :
    (dedupKeys l).find? (fun e => e.1 = k) = l.find? (fun e => e.1 = k) := by
  induction l with
  | nil => rfl
  | cons e tl ih =>
    simp only [dedupKeys, List.find?_cons]
    by_cases hk : e.1 = k
    · simp [hk]
    · simp only [hk, decide_False]
      rw [← ih, List.find?_filter]
      congr 1
      funext x
      by_cases hx : x.1 = k
      · have : ¬ k = e.1 := fun h => hk h.symm
        simp [hx, this]
      · simp [hx]

theorem mem_dedupKeys (l : List (GoString × GoString)) (x : GoString × GoString)
    (h : x ∈ dedupKeys l) : x ∈ l := by
  induction l with
  | nil => simp [dedupKeys] at h
  | cons e tl ih =>
    simp only [dedupKeys, List.mem_cons, List.mem_filter] at h
    rcases h with h | ⟨h, _⟩
    · simp [h]
    · simp [ih h]

theorem nodup_dedupKeys (l : List (GoString × GoString)) :
    ((dedupKeys l).map Prod.fst).Nodup := by
  induction l with
  | nil => simp [dedupKeys]
  | cons e tl ih =>
    simp only [dedupKeys, List.map_cons, List.nodup_cons]
    constructor
    · simp only [List.mem_map, List.mem_filter, not_exists, not_and]
      intro x hx
      simp only [ne_eq, decide_not, Bool.not_eq_true', decide_eq_false_iff_not] at hx
      exact hx.2
    · exact List.Nodup.sublist (List.Sublist.map _ (List.filter_sublist _)) ih

theorem insertSorted_perm (e : GoString × GoString) (l : List (GoString × GoString)) :
    (insertSorted e l).Perm (e :: l) := by
  induction l with
  | nil => simp [insertSorted]
  | cons x tl ih =>
    simp only [insertSorted]
    split
    · exact List.Perm.refl _
    · exact (List.Perm.cons x ih).trans (List.Perm.swap e x tl)

theorem sortByKey_perm (l : List (GoString × GoString)) : (sortByKey l).Perm l := by
  induction l with
  | nil => simp [sortByKey]
  | cons e tl ih =>
    simp only [sortByKey]
    exact (insertSorted_perm e _).trans (List.Perm.cons e ih)

theorem find_of_mem (l : List (GoString × GoString)) (hn : (l.map Prod.fst).Nodup)
    (e : GoString × GoString) (he : e ∈ l) :
    l.find? (fun x => x.1 = e.1) = some e := by
  induction l with
  | nil => simp at he
  | cons x tl ih =>
    simp only [List.map_cons, List.nodup_cons] at hn
    simp only [List.find?_cons]
    rcases List.mem_cons.1 he with h | h
    · subst h; simp
    · have hx : x.1 ≠ e.1 := by
        intro hxe
        exact hn.1 (hxe ▸ List.mem_map_of_mem Prod.fst h)
      simp only [hx, decide_False]
      exact ih hn.2 h

/-- Lists of bindings with the same bindings, each key once, give every key the
same value. -/
theorem find_perm (l1 l2 : List (GoString × GoString)) (hp : l1.Perm l2)
    (hn : (l1.map Prod.fst).Nodup) (k : GoString) :
    l1.find? (fun x => x.1 = k) = l2.find? (fun x => x.1 = k) := by
  have hn2 : (l2.map Prod.fst).Nodup := (List.Perm.map Prod.fst hp).nodup_iff.1 hn
  rcases h2 : l2.find? (fun x => x.1 = k) with _ | e
  · have h3 := List.find?_eq_none.1 h2
    rw [h2, List.find?_eq_none]
    intro x hx
    exact h3 x (hp.subset hx)
  · have hmem : e ∈ l2 := List.mem_of_find?_eq_some h2
    have hk : e.1 = k := by simpa using List.find?_some h2
    subst hk
    rw [h2]
    exact find_of_mem l1 hn e (hp.symm.subset hmem)

/-- The bindings the encoder emits give every key the value the map gives it. -/
theorem find_sorted (l : List (GoString × GoString)) (k : GoString) :
    (sortByKey (dedupKeys l)).reverse.find? (fun x => x.1 = k)
      = l.find? (fun x => x.1 = k) := by
  rw [← find_dedupKeys l k]
  have hp : (sortByKey (dedupKeys l)).reverse.Perm (dedupKeys l) :=
    (List.reverse_perm _).trans (sortByKey_perm _)
  exact find_perm _ _ hp ((List.Perm.map Prod.fst hp).nodup_iff.2 (nodup_dedupKeys l)) k

/-- The bindings the encoder emits are valid UTF-8 when the keys and values the
map holds are. -/
theorem validBindings_sorted (l : List (GoString × GoString))
    (h : ∀ k x, StringMap.get? (some l) k = some x → validUTF8 k = true ∧ validUTF8 x = true) :
    validBindings (sortByKey (dedupKeys l)) := by
  intro e he
  have he2 : e ∈ dedupKeys l := (sortByKey_perm _).subset he
  have hf := find_of_mem _ (nodup_dedupKeys l) e he2
  rw [find_dedupKeys] at hf
  exact h e.1 e.2 (by simp [StringMap.get?, hf])

theorem StringMap.empty_of_get (m : StringMap) (h : ∀ k, StringMap.get? m k = none) :
    m = none ∨ m = some [] := by
  rcases m with _ | l
  · exact Or.inl rfl
  · rcases l with _ | ⟨e, tl⟩
    · exact Or.inr rfl
    · have := h e.1
      simp [StringMap.get?] at this

/-- The round trip of `BeginReplicationResponse` through `encoding/json`, into a
destination whose map holds nothing. -/
theorem codec_BeginReplicationResponse (v d : BeginReplicationResponse)
    (hv : ∀ k x, StringMap.get? v.Hashes k = some x →
      validUTF8 k = true ∧ validUTF8 x = true)
    (hd : ∀ k, StringMap.get? d.Hashes k = none) :
    (GoJSON.Unmarshal (encodeStruct BeginReplicationResponse.fields v.values) d).2 = none ∧
    StringMap.Same
      (GoJSON.Unmarshal (encodeStruct BeginReplicationResponse.fields v.values) d).1.Hashes
      v.Hashes := by
  have n1 : validUTF8 (ascii "Hashes") = true := by decide
  have l1 : lookupField BeginReplicationResponse.fields (unquote (escape (ascii "Hashes")))
      = some 0 := by decide
  have hf : BeginReplicationResponse.fields[0]? = some ⟨ascii "Hashes", Kind.stringMap⟩ := rfl
  show (match unmarshalStruct BeginReplicationResponse.fields
      (encodeStruct BeginReplicationResponse.fields v.values) d.values with
    | (vals, err) => (BeginReplicationResponse.ofValues vals d, err)).2 = none ∧
    StringMap.Same (match unmarshalStruct BeginReplicationResponse.fields
      (encodeStruct BeginReplicationResponse.fields v.values) d.values with
    | (vals, err) => (BeginReplicationResponse.ofValues vals d, err)).1.Hashes v.Hashes
  rcases v with ⟨_ | l⟩
  · have hlex : lex Mode.value (encodeStruct BeginReplicationResponse.fields
          (BeginReplicationResponse.values ⟨none⟩))
        = some [Token.lbrace, Token.str (escape (ascii "Hashes")), Token.colon,
            Token.litNull, Token.rbrace] := by
      simp only [encodeStruct, BeginReplicationResponse.fields, BeginReplicationResponse.values,
        List.zipWith, joinMembers, encodeField, List.append_assoc, List.cons_append,
        List.nil_append, encodeValue]
      rw [lex_lbrace, lex_appendString _ n1, lex_colon, lex_null, lex_rbrace, lex_nil]
      rfl
    have hwf : wellFormed Expect.value [] [Token.lbrace, Token.str (escape (ascii "Hashes")),
        Token.colon, Token.litNull, Token.rbrace] = true := by
      rw [wellFormed_open, wellFormed_first _ Token.litNull rfl, wellFormed_close]
    simp only [unmarshalStruct, checkValid, hlex, hwf, if_true]
    rw [step_open]
    simp [Decoder.step, Decoder.storeField, l1, hf,
      BeginReplicationResponse.values, BeginReplicationResponse.ofValues, StringMap.Same]
  · have hvb : validBindings (sortByKey (dedupKeys l)) := validBindings_sorted l hv
    have hlex : lex Mode.value (encodeStruct BeginReplicationResponse.fields
          (BeginReplicationResponse.values ⟨some l⟩))
        = some (Token.lbrace :: Token.str (escape (ascii "Hashes")) :: Token.colon ::
            Token.lbrace :: (memberTokens (sortByKey (dedupKeys l)) ++
              Token.rbrace :: [Token.rbrace])) := by
      simp only [encodeStruct, BeginReplicationResponse.fields, BeginReplicationResponse.values,
        List.zipWith, joinMembers, encodeField, List.append_assoc, List.cons_append,
        List.nil_append, encodeValue]
      rw [lex_lbrace, lex_appendString _ n1, lex_colon, lex_lbrace, lex_members _ hvb,
        lex_rbrace, lex_nil]
      rfl
    have hwf : wellFormed Expect.value [] (Token.lbrace :: Token.str (escape (ascii "Hashes")) ::
        Token.colon :: Token.lbrace :: (memberTokens (sortByKey (dedupKeys l)) ++
              Token.rbrace :: [Token.rbrace])) = true := by
      rw [wellFormed_open]
      have h2 := (wellFormed_members (sortByKey (dedupKeys l)) [Frame.object]
        [Token.rbrace]).1
      simp only [wellFormed, Token.isScalar, maxNestingDepth, h2]
      simp
    simp only [unmarshalStruct, checkValid, hlex, hwf, if_true]
    rw [step_open]
    have hstart : ∀ rest, List.foldl (Decoder.step BeginReplicationResponse.fields)
          ⟨d.values, none, 0, 1, none, true, []⟩
          (Token.str (escape (ascii "Hashes")) :: Token.colon :: Token.lbrace :: rest)
        = List.foldl (Decoder.step BeginReplicationResponse.fields)
          ⟨[Value.stringMap (some [])], none, 0, 2, some 0, true, []⟩ rest := by
      intro rest
      rcases StringMap.empty_of_get _ hd with h | h <;>
        simp [Decoder.step, Decoder.storeField, l1, hf,
          BeginReplicationResponse.values, h]
    rw [hstart]
    obtain ⟨mk2, h⟩ := step_members BeginReplicationResponse.fields none 0 [Token.rbrace]
      (sortByKey (dedupKeys l)) hvb [Value.stringMap (some [])] [] [] rfl
    rw [h, step_close]
    simp only [List.set, BeginReplicationResponse.ofValues, List.append_nil, StringMap.Same,
      Option.isNone_some, true_and]
    intro k
    simp only [StringMap.get?]
    rw [find_sorted]

/-! ### A transport that accepts every write -/

theorem Conn.Write_healthy (c : Conn) (p : List Byte) (h1 : c.closed = false)
    (h2 : c.outcomes = []) :
    (c.Write p).2.2 = none ∧ (c.Write p).1.closed = false ∧ (c.Write p).1.outcomes = [] := by
  simp [Conn.Write, h1, h2]

theorem Writer.Flush_healthy (b : Writer) (c : Conn) (hb : b.err = none)
    (h1 : c.closed = false) (h2 : c.outcomes = []) :
    (b.Flush c).2.2 = none ∧ (b.Flush c).2.1.closed = false ∧
    (b.Flush c).2.1.outcomes = [] := by
  rcases b with ⟨buf, berr⟩
  simp only at hb
  subst hb
  by_cases h0 : buf.length = 0
  · simp [Writer.Flush, h0, h1, h2]
  · simp [Writer.Flush, h0, Conn.Write, h1, h2]

theorem Writer.writeLoop_healthy (b : Writer) (c : Conn) (p : List Byte) (nn : Nat)
    (hb : b.err = none) (h1 : c.closed = false) (h2 : c.outcomes = []) :
    (b.writeLoop c p nn).2.2.2 = none ∧ (b.writeLoop c p nn).2.1.closed = false ∧
    (b.writeLoop c p nn).2.1.outcomes = [] := by
  induction b, c, p, nn using Writer.writeLoop.induct with
  | case1 b c p nn hcond hbuf c1 n err hw ih =>
    rw [Writer.writeLoop_direct b c p nn hcond hbuf, hw]
    have k := Conn.Write_healthy c p h1 h2
    rw [hw] at k
    simp only [] at k ⊢
    exact ih k.1 k.2.1 k.2.2
  | case2 b c p nn hcond hbuf b2 c2 snd hf ih =>
    rw [Writer.writeLoop_fill b c p nn hcond hbuf, hf]
    have k := Writer.Flush_healthy { b with buf := b.buf ++ p.take b.Available } c hb h1 h2
    have k2 := Writer.Flush_ok { b with buf := b.buf ++ p.take b.Available } c k.1
    rw [hf] at k k2
    simp only [] at k k2 ⊢
    exact ih (by rw [k2.1]) k.2.1 k.2.2
  | case3 b c p nn hcond e he =>
    rw [he] at hb; cases hb
  | case4 b c p nn hcond he =>
    rw [Writer.writeLoop_fits b c p nn he (by simp [he] at hcond; omega)]
    exact ⟨rfl, h1, h2⟩

theorem RepConn.rwWrite_healthy (r : RepConn) (p : List Byte) (hb : r.rw.Writer.err = none)
    (h1 : r.c.closed = false) (h2 : r.c.outcomes = []) :
    (r.rwWrite p).2.2 = none ∧ (r.rwWrite p).1.c.closed = false ∧
    (r.rwWrite p).1.c.outcomes = [] := by
  have k := Writer.writeLoop_healthy r.rw.Writer r.c p 0 hb h1 h2
  simp only [RepConn.rwWrite, Writer.Write]
  exact k

theorem RepConn.rwFlush_healthy (r : RepConn) (hb : r.rw.Writer.err = none)
    (h1 : r.c.closed = false) (h2 : r.c.outcomes = []) :
    r.rwFlush.2 = none ∧ r.rwFlush.1.c.closed = false ∧ r.rwFlush.1.c.outcomes = [] := by
  have k := Writer.Flush_healthy r.rw.Writer r.c hb h1 h2
  simp only [RepConn.rwFlush]
  exact k

/-- On an open transport that accepts every write, with no error pending in the
writer, `SendMessage` of a value that can be encoded succeeds. -/
theorem RepConn.SendMessage_healthy {α : Type} [GoJSON α] (r : RepConn) (now : Nat) (v : α)
    (p : List Byte) (hm : GoJSON.Marshal v = Except.ok p) (hb : r.rw.Writer.err = none)
    (h1 : r.c.closed = false) (h2 : r.c.outcomes = []) :
    (r.SendMessage now v).2 = none := by
  unfold RepConn.SendMessage
  simp only [hm]
  have k1 := RepConn.rwWrite_healthy { r with c := r.c.SetDeadline (now + repOTimeout) }
    (PutUint32 (p.length % 2 ^ 32)) hb h1 h2
  have o1 := RepConn.rwWrite_ok _ _ k1.1
  rcases e1 : RepConn.rwWrite { r with c := r.c.SetDeadline (now + repOTimeout) }
    (PutUint32 (p.length % 2 ^ 32)) with ⟨r1, n1, err1⟩
  rw [e1] at k1 o1
  simp only [] at k1 o1
  obtain ⟨k11, k12, k13⟩ := k1
  subst k11
  simp only []
  have k2 := RepConn.rwWrite_healthy r1 p o1.1 k12 k13
  have o2 := RepConn.rwWrite_ok _ _ k2.1
  rcases e2 : r1.rwWrite p with ⟨r2, n2, err2⟩
  rw [e2] at k2 o2
  simp only [] at k2 o2
  obtain ⟨k21, k22, k23⟩ := k2
  subst k21
  simp only []
  have k3 := RepConn.rwFlush_healthy r2 o2.1 k22 k23
  rcases e3 : r2.rwFlush with ⟨r3, err3⟩
  rw [e3] at k3
  simp only [] at k3
  obtain ⟨k31, _, _⟩ := k3
  subst k31
  rfl

/-- What a successful `SendMessage` delivers: the pending bytes, then the frame. -/
theorem RepConn.SendMessage_delivered {α : Type} [GoJSON α] (r : RepConn) (now : Nat) (v : α)
    (p : List Byte) (hm : GoJSON.Marshal v = Except.ok p)
    (hs : (r.SendMessage now v).2 = none) :
    (r.SendMessage now v).1.c.delivered = r.c.delivered ++ r.rw.Writer.buf ++ frame p ∧
    (r.SendMessage now v).1.rw.Writer = { buf := [], err := none } := by
  obtain ⟨r1, _, h | ⟨h, q, hq, hd, hw⟩⟩ := RepConn.SendMessage_cases r now v
  · obtain ⟨e, he⟩ := h
    rw [he] at hs
    cases hs
  · rw [hm] at hq
    cases hq
    rw [h]
    exact ⟨hd, hw⟩

/-- The bytes obtainable under a later deadline extend those obtainable under an
earlier one. -/
theorem availAt_mono (d1 d2 : Option Nat) (h : dle d1 d2) (inc : List InEvent) :
    ∃ Z, availAt d2 inc = availAt d1 inc ++ Z := by
  induction inc with
  | nil => exact ⟨[], by simp [availAt]⟩
  | cons ev rest ih =>
    cases ev with
    | data t bytes =>
      obtain ⟨Z, hZ⟩ := ih
      by_cases hb : beforeDeadline t d1 = true
      · refine ⟨Z, ?_⟩
        simp [availAt, hb, h t hb, hZ]
      · exact ⟨availAt d2 (InEvent.data t bytes :: rest), by simp [availAt, hb]⟩
    | eof t => exact ⟨[], by simp [availAt]⟩
    | fail t e => exact ⟨[], by simp [availAt]⟩

/-- The receiving end of a relayed message hands the payload to the decoder: the
outcome of `RecvMessage` is that of `json.Unmarshal` on the payload. -/
theorem RepConn.relay_recv {α : Type} [GoJSON α] (s r : RepConn) (now1 now2 : Nat) (v d : α)
    (p : List Byte) (hm : GoJSON.Marshal v = Except.ok p) (h : Relays s now1 v r now2) :
    (r.RecvMessage now2 d).2 = GoJSON.Unmarshal p d := by
  obtain ⟨hs, hb, ⟨q, hq, hlen⟩, X, hX⟩ := h
  rw [hm] at hq
  cases hq
  have hd := (RepConn.SendMessage_delivered s now1 v p hm hs).1
  rw [hd, hb] at hX
  simp only [List.append_nil, List.drop_left] at hX
  obtain ⟨r1, _, _, hr⟩ := RepConn.RecvMessage_frame r now2 d p X hlen hX
  rw [hr]
  rcases GoJSON.Unmarshal p d with ⟨v1, _ | e⟩ <;> rfl

theorem RepConn.fed_readable (t : Nat) (bytes : List Byte) (d : Option Nat)
    (h : beforeDeadline t d = true) : (RepConn.fed t bytes).readable d = bytes := by
  simp [RepConn.readable, RepConn.fed, Conn.idle, availC, availAt, h]

/-- The idle connection relays to a connection fed the frame. -/
theorem Relays.idle_fed {α : Type} [GoJSON α] (v : α) (p : List Byte)
    (hm : GoJSON.Marshal v = Except.ok p) (hlen : p.length < 2 ^ 32) (now1 now2 t : Nat)
    (ht : t < now2 + repITimeout) :
    Relays RepConn.idle now1 v (RepConn.fed t (frame p)) now2 := by
  have hs := RepConn.SendMessage_healthy RepConn.idle now1 v p hm rfl rfl rfl
  have hd := (RepConn.SendMessage_delivered RepConn.idle now1 v p hm hs).1
  refine ⟨hs, rfl, ⟨p, hm, hlen⟩, [], ?_⟩
  rw [hd, RepConn.fed_readable _ _ _ (by simp [beforeDeadline, ht])]
  simp [RepConn.idle, Conn.idle]

theorem garbled_decoded :
    GoJSON.Unmarshal (payloadOf BeginReplicationRequest.garbled) BeginReplicationRequest.zero
      = ((⟨[0xEF, 0xBF, 0xBD], [], false⟩ : BeginReplicationRequest), none) := by
  decide

theorem used_decoded :
    GoJSON.Unmarshal (payloadOf BeginReplicationResponse.sample) BeginReplicationResponse.used
      = ((⟨some [(ascii "0", ascii "abc123"), (ascii "1", ascii "x")]⟩ :
          BeginReplicationResponse), none) := by
  decide

theorem sample_lengths :
    (payloadOf BeginReplicationRequest.sample).length < 2 ^ 32 ∧
    (payloadOf BeginReplicationResponse.sample).length < 2 ^ 32 ∧
    (payloadOf BeginReplicationRequest.garbled).length < 2 ^ 32 := by
  decide

/-- C1 (round trip), amended.  Let `SendMessage(v)` succeed on one end, on a
writer with nothing pending and with a payload shorter than `2 ^ 32` bytes, and
let the other end be handed the bytes that call delivered (`Relays`).  Then
`RecvMessage(&d)` succeeds and `d` equals `v` field by field, for each of the
five schemas, provided every string of `v` (every key and value of its map) is
valid UTF-8, an `int64` field is in the `int64` range, and, for
`BeginReplicationResponse`, the destination's map holds no binding; for that
schema the maps are equal as maps: both nil or both not, and the same value under
every key. -/
theorem roundTrip (s r : RepConn) (now1 now2 : Nat) :
    (∀ v d : BeginReplicationRequest,
      validUTF8 v.Device = true → validUTF8 v.Partition = true →
      Relays s now1 v r now2 → (r.RecvMessage now2 d).2 = (v, none)) ∧
    (∀ v d : BeginReplicationResponse,
      (∀ k x, StringMap.get? v.Hashes k = some x → validUTF8 k = true ∧ validUTF8 x = true) →
      (∀ k, StringMap.get? d.Hashes k = none) →
      Relays s now1 v r now2 →
      (r.RecvMessage now2 d).2.2 = none ∧
      StringMap.Same (r.RecvMessage now2 d).2.1.Hashes v.Hashes) ∧
    (∀ v d : SyncFileRequest,
      validUTF8 v.Path = true → validUTF8 v.Xattrs = true →
      -2 ^ 63 ≤ v.Size → v.Size < 2 ^ 63 →
      Relays s now1 v r now2 → (r.RecvMessage now2 d).2 = (v, none)) ∧
    (∀ v d : SyncFileResponse,
      validUTF8 v.Msg = true →
      Relays s now1 v r now2 → (r.RecvMessage now2 d).2 = (v, none)) ∧
    (∀ v d : FileUploadResponse,
      validUTF8 v.Msg = true →
      Relays s now1 v r now2 → (r.RecvMessage now2 d).2 = (v, none)) := by
  refine ⟨?_, ?_, ?_, ?_, ?_⟩
  · intro v d h1 h2 h
    rw [RepConn.relay_recv s r now1 now2 v d _ rfl h]
    exact codec_BeginReplicationRequest v d h1 h2
  · intro v d h1 h2 h
    rw [RepConn.relay_recv s r now1 now2 v d _ rfl h]
    exact codec_BeginReplicationResponse v d h1 h2
  · intro v d h1 h2 h3 h4 h
    rw [RepConn.relay_recv s r now1 now2 v d _ rfl h]
    exact codec_SyncFileRequest v d h1 h2 h3 h4
  · intro v d h1 h
    rw [RepConn.relay_recv s r now1 now2 v d _ rfl h]
    exact codec_SyncFileResponse v d h1
  · intro v d h1 h
    rw [RepConn.relay_recv s r now1 now2 v d _ rfl h]
    exact codec_FileUploadResponse v d h1

/-- The round trip of the request `{sdb1, 42, true}` and of the response
`{"0": "abc123"}`, from an idle connection to one fed the frame. -/
theorem roundTrip_witness :
    (Relays RepConn.idle 0 BeginReplicationRequest.sample
        (RepConn.fed 0 (frame (payloadOf BeginReplicationRequest.sample))) 0 ∧
      ((RepConn.fed 0 (frame (payloadOf BeginReplicationRequest.sample))).RecvMessage 0
          BeginReplicationRequest.zero).2 = (BeginReplicationRequest.sample, none)) ∧
    (Relays RepConn.idle 0 BeginReplicationResponse.sample
        (RepConn.fed 0 (frame (payloadOf BeginReplicationResponse.sample))) 0 ∧
      ((RepConn.fed 0 (frame (payloadOf BeginReplicationResponse.sample))).RecvMessage 0
          BeginReplicationResponse.zero).2.2 = none ∧
      StringMap.Same
        ((RepConn.fed 0 (frame (payloadOf BeginReplicationResponse.sample))).RecvMessage 0
          BeginReplicationResponse.zero).2.1.Hashes BeginReplicationResponse.sample.Hashes) :=
  have r1 : Relays RepConn.idle 0 BeginReplicationRequest.sample
      (RepConn.fed 0 (frame (payloadOf BeginReplicationRequest.sample))) 0 :=
    Relays.idle_fed _ _ rfl sample_lengths.1 0 0 0 (by decide)
  have r2 : Relays RepConn.idle 0 BeginReplicationResponse.sample
      (RepConn.fed 0 (frame (payloadOf BeginReplicationResponse.sample))) 0 :=
    Relays.idle_fed _ _ rfl sample_lengths.2.1 0 0 0 (by decide)
  ⟨⟨r1, (roundTrip RepConn.idle _ 0 0).1 BeginReplicationRequest.sample
      BeginReplicationRequest.zero (by decide) (by decide) r1⟩,
   ⟨r2, (roundTrip RepConn.idle _ 0 0).2.1 BeginReplicationResponse.sample
      BeginReplicationResponse.zero
      (by
        intro k x h
        have hk : k = ascii "0" ∧ x = ascii "abc123" := by
          simp only [StringMap.get?, BeginReplicationResponse.sample, List.find?_cons,
            List.find?_nil] at h
          by_cases hk : ascii "0" = k
          · simp [hk] at h
            exact ⟨hk.symm, h.symm⟩
          · simp [hk] at h
        rw [hk.1, hk.2]
        exact ⟨by decide, by decide⟩)
      (fun k => rfl) r2⟩⟩

/-- A `Write` that fits into the free space of the write buffer is stored there
and reaches no transport. -/
theorem RepConn.Write_buffered (r : RepConn) (now : Nat) (data : List Byte)
    (he : r.rw.Writer.err = none) (hfit : data.length ≤ r.rw.Writer.Available) :
    r.Write now data
      = ({ r with rw := { r.rw with Writer := { r.rw.Writer with buf := r.rw.Writer.buf ++ data } },
                  c := r.c.SetDeadline (now + repOTimeout) }, data.length, none) := by
  simp [RepConn.Write, RepConn.rwWrite, Writer.Write,
    Writer.writeLoop_fits r.rw.Writer _ data 0 he hfit]

/-- C2 as stated does not hold.  After a one-byte `Write`, which stays in the write
buffer, a successful `SendMessage` delivers that byte to the transport ahead of
the frame. -/
theorem wireFormat_refuted :
    (RepConn.idle.Write 0 [0x41]).2.2 = none ∧
    (RepConn.idle.Write 0 [0x41]).1.c.delivered = [] ∧
    ((RepConn.idle.Write 0 [0x41]).1.SendMessage 0 BeginReplicationRequest.sample).2 = none ∧
    ((RepConn.idle.Write 0 [0x41]).1.SendMessage 0 BeginReplicationRequest.sample).1.c.delivered
      = 0x41 :: frame (payloadOf BeginReplicationRequest.sample) := by
  have hw := RepConn.Write_buffered RepConn.idle 0 [0x41] rfl (by decide)
  have hs := RepConn.SendMessage_healthy (RepConn.idle.Write 0 [0x41]).1 0
    BeginReplicationRequest.sample (payloadOf BeginReplicationRequest.sample) rfl
    (by rw [hw]; rfl) (by rw [hw]; rfl) (by rw [hw]; rfl)
  have hd := (RepConn.SendMessage_delivered _ 0 BeginReplicationRequest.sample
    (payloadOf BeginReplicationRequest.sample) rfl hs).1
  refine ⟨by rw [hw], by rw [hw]; rfl, hs, ?_⟩
  rw [hd, hw]
  rfl

/-- C2 (wire format of Send), amended.  For every value whose encoding succeeds
and every successful `SendMessage`, the bytes the call delivers to the
transport are the bytes that were pending in the write buffer, then a 4-byte
big-endian header holding the payload length modulo `2 ^ 32`, then the payload;
nothing stays in the write buffer.  When nothing was pending and the payload is
shorter than `2 ^ 32` bytes, the call delivers exactly the header, which holds
the payload length, and the payload. -/
theorem wireFormat {α : Type} [GoJSON α] (r : RepConn) (now : Nat) (v : α)
    (jsoned : List Byte) (hm : GoJSON.Marshal v = Except.ok jsoned)
    (hs : (r.SendMessage now v).2 = none) :
    (r.SendMessage now v).1.c.delivered
      = r.c.delivered ++ r.rw.Writer.buf ++ (PutUint32 (jsoned.length % 2 ^ 32) ++ jsoned) ∧
    (PutUint32 (jsoned.length % 2 ^ 32)).length = 4 ∧
    Uint32 (PutUint32 (jsoned.length % 2 ^ 32)) = jsoned.length % 2 ^ 32 ∧
    (r.SendMessage now v).1.rw.Writer.buf = [] ∧
    (r.rw.Writer.buf = [] → jsoned.length < 2 ^ 32 →
      (r.SendMessage now v).1.c.delivered
        = r.c.delivered ++ (PutUint32 jsoned.length ++ jsoned) ∧
      Uint32 (PutUint32 jsoned.length) = jsoned.length) := by
  obtain ⟨hd, hw⟩ := RepConn.SendMessage_delivered r now v jsoned hm hs
  refine ⟨hd, PutUint32_length _, ?_, by rw [hw], ?_⟩
  · rw [Uint32_PutUint32, Nat.mod_mod]
  · intro hb hlt
    rw [hd, hb, frame, Nat.mod_eq_of_lt hlt, Uint32_PutUint32, Nat.mod_eq_of_lt hlt]
    simp

/-- The frame of the request `{sdb1, 42, true}` sent on an idle connection. -/
theorem wireFormat_witness :
    (RepConn.idle.SendMessage 0 BeginReplicationRequest.sample).2 = none ∧
    (RepConn.idle.SendMessage 0 BeginReplicationRequest.sample).1.c.delivered
      = [] ++ (PutUint32 (payloadOf BeginReplicationRequest.sample).length
          ++ payloadOf BeginReplicationRequest.sample) :=
  have hs := RepConn.SendMessage_healthy RepConn.idle 0 BeginReplicationRequest.sample
    (payloadOf BeginReplicationRequest.sample) rfl rfl rfl rfl
  ⟨hs, ((wireFormat RepConn.idle 0 BeginReplicationRequest.sample
    (payloadOf BeginReplicationRequest.sample) rfl hs).2.2.2.2 rfl sample_lengths.1).1⟩

/-- A `Read` of one byte on a connection fed three bytes leaves two of them in the
read buffer. -/
theorem RepConn.fed_Read :
    ((RepConn.fed 0 [0x41, 0x42, 0x43]).Read 0 1).2.2 = none ∧
    ((RepConn.fed 0 [0x41, 0x42, 0x43]).Read 0 1).1.rw.Reader.buf = [0x42, 0x43] := by
  have h1 : Reader.Read { buf := [] }
      ({ Conn.idle with incoming := [InEvent.data 0 [0x41, 0x42, 0x43]] }.SetDeadline
        (0 + repITimeout)) 1
      = ({ buf := [0x42, 0x43] },
         { ({ Conn.idle with incoming := [InEvent.data 0 [0x41, 0x42, 0x43]] }.SetDeadline
              (0 + repITimeout)) with
            incoming := [],
            log := [Event.setDeadline (0 + repITimeout),
                    Event.read (some (0 + repITimeout)) 3] },
         [0x41], none) := by
    decide
  simp only [RepConn.Read, RepConn.rwReadFull, ReadFull, RepConn.fed]
  rw [readFullLoop_step _ _ _ _ (by decide) (by rw [h1])]
  rw [h1]
  simp only [List.length_singleton, Nat.sub_self, readFullLoop_zero]
  constructor <;> trivial

/-- C4 as stated does not hold.  On a connection that has been closed, a `Write`
of one byte returns no error; and after a `Read` that left bytes in the read
buffer and a `Close`, a `Read` of one byte returns that byte and no error. -/
theorem deadRejects_refuted :
    (RepConn.idle.Close.Disconnected = true ∧ RepConn.idle.Close.c.closed = true ∧
      (RepConn.idle.Close.Write 0 [0x41]).2 = (1, none)) ∧
    (((RepConn.fed 0 [0x41, 0x42, 0x43]).Read 0 1).1.Close.c.closed = true ∧
      (((RepConn.fed 0 [0x41, 0x42, 0x43]).Read 0 1).1.Close.Read 0 1).2.2 = none) := by
  refine ⟨⟨rfl, rfl, ?_⟩, rfl, ?_⟩
  · rw [RepConn.Write_buffered _ _ _ rfl (by decide)]
    rfl
  · rw [RepConn.Read_of_closed _ _ _ rfl]
    show 1 ≤ ((RepConn.fed 0 [0x41, 0x42, 0x43]).Read 0 1).1.rw.Reader.buf.length
    rw [RepConn.fed_Read.2]
    decide

/-- C4 (dead connection), amended.  On a connection whose transport has been
closed, and so on every connection on which `Close` has run:
`SendMessage` returns an error whatever its argument; `Write` returns an error
unless its data fits into the free space of the write buffer and no write error
is pending; `Flush` returns an error unless the write buffer is empty and no
write error is pending; `Read` returns an error unless the read buffer already
holds the bytes asked for; `RecvMessage` returns an error unless the read buffer
already holds a whole frame and its payload decodes. -/
theorem deadRejects (r : RepConn) (now : Nat) (h : r.c.closed = true) :
    (∀ (α : Type) [GoJSON α] (v : α), (r.SendMessage now v).2 ≠ none) ∧
    (∀ data : List Byte, (r.Write now data).2.2 = none ↔
      (r.rw.Writer.err = none ∧ data.length ≤ r.rw.Writer.Available)) ∧
    ((r.Flush now).2 = none ↔ (r.rw.Writer.err = none ∧ r.rw.Writer.buf = [])) ∧
    (∀ k : Nat, (r.Read now k).2.2 = none ↔ k ≤ r.rw.Reader.buf.length) ∧
    (∀ (α : Type) [GoJSON α] (v : α), (r.RecvMessage now v).2.2 = none ↔
      (4 + Uint32 (r.rw.Reader.buf.take 4) ≤ r.rw.Reader.buf.length ∧
       (GoJSON.Unmarshal ((r.rw.Reader.buf.drop 4).take (Uint32 (r.rw.Reader.buf.take 4))) v).2
          = none)) ∧
    (∀ r0 : RepConn, r0.Close.c.closed = true) := by
  refine ⟨?_, ?_, ?_, ?_, ?_, fun _ => rfl⟩
  · intro α _ v
    obtain ⟨e, he⟩ := RepConn.SendMessage_of_closed r now v h
    rw [he]
    simp
  · intro data
    exact RepConn.Write_of_closed r now data h
  · exact RepConn.Flush_of_closed r now h
  · intro k
    exact RepConn.Read_of_closed r now k h
  · intro α _ v
    exact RepConn.RecvMessage_of_closed r now v h

/-- On an idle connection that has been closed, `SendMessage` and a `Read` of one
byte fail, and a `Flush` succeeds. -/
theorem deadRejects_witness :
    RepConn.idle.Close.c.closed = true ∧
    (RepConn.idle.Close.SendMessage 0 BeginReplicationRequest.sample).2 ≠ none ∧
    (RepConn.idle.Close.Read 0 1).2.2 ≠ none ∧
    (RepConn.idle.Close.Flush 0).2 = none :=
  ⟨rfl, (deadRejects RepConn.idle.Close 0 rfl).1 _ BeginReplicationRequest.sample,
   fun hn => by
     have := ((deadRejects RepConn.idle.Close 0 rfl).2.2.2.1 1).1 hn
     simp [RepConn.idle, RepConn.Close] at this,
   ((deadRejects RepConn.idle.Close 0 rfl).2.2.1).2 ⟨rfl, rfl⟩⟩

/-- C6: the transport the dialler opened is left as the handshake left it.
Whenever the request is built and the dial succeeds, `NewRepConn` returns with
the dialled transport in the closed state the dialler gave it: a transport that
was opened is still open, also when no connection is returned.  With a peer
that answers 404, `NewRepConn` returns no connection and `RepUnmountedError`,
and the transport is open. -/
theorem handshakeLeak (net : Network) (ip : String) (port : Int)
    (device partition host : String) (conn : Conn)
    (h1 : net.NewRequest (repURL ip port device partition) = Except.ok host)
    (h2 : net.repDialer host = Except.ok conn) (h3 : conn.closed = false) :
    ∃ c, (NewRepConn net ip port device partition).transport = some c ∧ c.closed = false := by
  obtain ⟨c, hc, hcl⟩ := NewRepConn_transport net ip port device partition host conn h1 h2
  exact ⟨c, hc, by rw [hcl, h3]⟩

/-- A peer that answers 404: no connection, the unmounted error, and the dialled
transport still open. -/
theorem handshakeLeak_witness :
    (NewRepConn (Network.answering 404) "127.0.0.1" 6000 "sdb1" "42").conn = none ∧
    (NewRepConn (Network.answering 404) "127.0.0.1" 6000 "sdb1" "42").err
      = some Error.RepUnmountedError ∧
    ∃ c, (NewRepConn (Network.answering 404) "127.0.0.1" 6000 "sdb1" "42").transport = some c ∧
      c.closed = false :=
  ⟨rfl, rfl, handshakeLeak (Network.answering 404) "127.0.0.1" 6000 "sdb1" "42"
    "127.0.0.1:6000" Conn.idle rfl rfl rfl⟩

/-- On an open transport that accepts every write, a successful `SendMessage`
leaves the transport open and accepting. -/
theorem RepConn.SendMessage_healthy_post {α : Type} [GoJSON α] (r : RepConn) (now : Nat)
    (v : α) (p : List Byte) (hm : GoJSON.Marshal v = Except.ok p)
    (hb : r.rw.Writer.err = none) (h1 : r.c.closed = false) (h2 : r.c.outcomes = []) :
    (r.SendMessage now v).1.c.closed = false ∧ (r.SendMessage now v).1.c.outcomes = [] ∧
    (r.SendMessage now v).1.rw.Writer.err = none := by
  unfold RepConn.SendMessage
  simp only [hm]
  have k1 := RepConn.rwWrite_healthy { r with c := r.c.SetDeadline (now + repOTimeout) }
    (PutUint32 (p.length % 2 ^ 32)) hb h1 h2
  have o1 := RepConn.rwWrite_ok _ _ k1.1
  rcases e1 : RepConn.rwWrite { r with c := r.c.SetDeadline (now + repOTimeout) }
    (PutUint32 (p.length % 2 ^ 32)) with ⟨r1, n1, err1⟩
  rw [e1] at k1 o1
  simp only [] at k1 o1
  obtain ⟨k11, k12, k13⟩ := k1
  subst k11
  simp only []
  have k2 := RepConn.rwWrite_healthy r1 p o1.1 k12 k13
  have o2 := RepConn.rwWrite_ok _ _ k2.1
  rcases e2 : r1.rwWrite p with ⟨r2, n2, err2⟩
  rw [e2] at k2 o2
  simp only [] at k2 o2
  obtain ⟨k21, k22, k23⟩ := k2
  subst k21
  simp only []
  have k3 := RepConn.rwFlush_healthy r2 o2.1 k22 k23
  have o3 := RepConn.rwFlush_ok r2 k3.1
  rcases e3 : r2.rwFlush with ⟨r3, err3⟩
  rw [e3] at k3 o3
  simp only [] at k3 o3
  obtain ⟨k31, k32, k33⟩ := k3
  subst k31
  exact ⟨k32, k33, by rw [o3.1]⟩

theorem escape_replicate (n : Nat) :
    escape (List.replicate n (0x61 : Byte)) = List.replicate n 0x61 := by
  induction n with
  | zero => rfl
  | succ n ih =>
    have h := chunked_append escapeStep [(0x61 : Byte)] (List.replicate n 0x61) [0x61]
      (by simp) (by rw [List.singleton_append, escapeStep_ascii _ (by decide)]; rfl)
    rw [List.replicate_succ]
    unfold escape at ih ⊢
    rw [List.singleton_append] at h
    rw [h, ih]
    rfl

/-- The payload of a request whose `Device` is `n` times the letter `a`. -/
theorem payload_long (n : Nat) :
    payloadOf (BeginReplicationRequest.long n)
      = [0x7B, 0x22, 0x44, 0x65, 0x76, 0x69, 0x63, 0x65, 0x22, 0x3A, 0x22]
          ++ (List.replicate n 0x61
          ++ (payloadOf (BeginReplicationRequest.long 0)).drop 11) := by
  have h0 : (payloadOf (BeginReplicationRequest.long 0)).drop 11
      = 0x22 :: 0x2C :: (appendString (ascii "Partition") ++ 0x3A :: (appendString [] ++
          0x2C :: (appendString (ascii "NeedHashes") ++ 0x3A ::
            ([0x66, 0x61, 0x6C, 0x73, 0x65] ++ [0x7D])))) := by
    decide
  have h1 : appendString (ascii "Device") = [0x22, 0x44, 0x65, 0x76, 0x69, 0x63, 0x65, 0x22] := by
    decide
  rw [h0]
  show encodeStruct BeginReplicationRequest.fields (BeginReplicationRequest.long n).values = _
  simp only [encodeStruct, BeginReplicationRequest.fields, BeginReplicationRequest.values,
    BeginReplicationRequest.long, List.zipWith, joinMembers, encodeField, encodeValue, h1]
  simp only [appendString, escape_replicate]
  simp

theorem payload_long_length (n : Nat) :
    (payloadOf (BeginReplicationRequest.long n)).length = 47 + n := by
  have h0 : ((payloadOf (BeginReplicationRequest.long 0)).drop 11).length = 36 := by decide
  rw [payload_long, List.length_append, List.length_append, List.length_replicate, h0]
  simp only [List.length_cons, List.length_nil]
  omega

/-- The first 47 bytes of the payload of a long request. -/
theorem payload_long_take (n : Nat) (hn : 36 ≤ n) :
    (payloadOf (BeginReplicationRequest.long n)).take 47
      = (payloadOf (BeginReplicationRequest.long 36)).take 47 := by
  have key : ∀ m, 36 ≤ m → (payloadOf (BeginReplicationRequest.long m)).take 47
      = [0x7B, 0x22, 0x44, 0x65, 0x76, 0x69, 0x63, 0x65, 0x22, 0x3A, 0x22]
          ++ List.replicate 36 0x61 := by
    intro m hm
    rw [payload_long]
    have h11 : ([0x7B, 0x22, 0x44, 0x65, 0x76, 0x69, 0x63, 0x65, 0x22, 0x3A, 0x22] :
        List Byte).length = 11 := rfl
    have e47 : 47 = ([0x7B, 0x22, 0x44, 0x65, 0x76, 0x69, 0x63, 0x65, 0x22, 0x3A, 0x22] :
        List Byte).length + 36 := rfl
    rw [e47, List.take_append, List.take_append_of_le_length (by simp; exact hm),
      List.take_replicate, Nat.min_eq_left hm]
  rw [key n hn, key 36 (Nat.le_refl _)]

/-- The decoder rejects the first 47 bytes of the payload of a long request and
leaves the destination alone. -/
theorem truncated_rejected :
    GoJSON.Unmarshal ((payloadOf (BeginReplicationRequest.long 36)).take 47)
        BeginReplicationRequest.zero
      = (BeginReplicationRequest.zero, some Error.ErrSyntax) := by
  decide

/-- Two sends on an idle connection, the first of a request whose payload has
`2 ^ 32 + 47` bytes, and the receipt of what they delivered. -/
theorem long_exchange (n : Nat) (hn : n = 2 ^ 32) :
    (RepConn.idle.SendMessage 0 (BeginReplicationRequest.long n)).2 = none ∧
    ((RepConn.idle.SendMessage 0 (BeginReplicationRequest.long n)).1.SendMessage 0
      BeginReplicationRequest.sample).2 = none ∧
    ((RepConn.idle.SendMessage 0 (BeginReplicationRequest.long n)).1.SendMessage 0
      BeginReplicationRequest.sample).1.c.delivered
      = frame (payloadOf (BeginReplicationRequest.long n))
          ++ frame (payloadOf BeginReplicationRequest.sample) ∧
    ((RepConn.fed 0 (frame (payloadOf (BeginReplicationRequest.long n))
          ++ frame (payloadOf BeginReplicationRequest.sample))).RecvMessage 0
        BeginReplicationRequest.zero).2
      = (BeginReplicationRequest.zero, some Error.ErrSyntax) := by
  have hs1 := RepConn.SendMessage_healthy RepConn.idle 0 (BeginReplicationRequest.long n)
    (payloadOf (BeginReplicationRequest.long n)) rfl rfl rfl rfl
  have hp1 := RepConn.SendMessage_healthy_post RepConn.idle 0 (BeginReplicationRequest.long n)
    (payloadOf (BeginReplicationRequest.long n)) rfl rfl rfl rfl
  have hd1 := RepConn.SendMessage_delivered RepConn.idle 0 (BeginReplicationRequest.long n)
    (payloadOf (BeginReplicationRequest.long n)) rfl hs1
  have hs2 := RepConn.SendMessage_healthy
    (RepConn.idle.SendMessage 0 (BeginReplicationRequest.long n)).1 0
    BeginReplicationRequest.sample (payloadOf BeginReplicationRequest.sample) rfl
    hp1.2.2 hp1.1 hp1.2.1
  have hd2 := RepConn.SendMessage_delivered
    (RepConn.idle.SendMessage 0 (BeginReplicationRequest.long n)).1 0
    BeginReplicationRequest.sample (payloadOf BeginReplicationRequest.sample) rfl hs2
  refine ⟨hs1, hs2, ?_, ?_⟩
  · rw [hd2.1, hd1.1, hd1.2]
    simp [RepConn.idle, Conn.idle]
  · have hlen := payload_long_length n
    have hmod : (payloadOf (BeginReplicationRequest.long n)).length % 2 ^ 32 = 47 := by
      rw [hlen, hn]
      norm_num
    have hU : (RepConn.fed 0 (frame (payloadOf (BeginReplicationRequest.long n))
          ++ frame (payloadOf BeginReplicationRequest.sample))).readable
          (some (0 + repITimeout))
        = frame (payloadOf (BeginReplicationRequest.long n))
          ++ frame (payloadOf BeginReplicationRequest.sample) :=
      RepConn.fed_readable _ _ _ (by decide)
    have h4 : (frame (payloadOf (BeginReplicationRequest.long n))
          ++ frame (payloadOf BeginReplicationRequest.sample)).take 4 = PutUint32 47 := by
      rw [frame, hmod, List.append_assoc,
        List.take_append_of_le_length (by rw [PutUint32_length])]
      exact List.take_of_length_le (by rw [PutUint32_length])
    have hdrop : (frame (payloadOf (BeginReplicationRequest.long n))
          ++ frame (payloadOf BeginReplicationRequest.sample)).drop 4
        = payloadOf (BeginReplicationRequest.long n)
          ++ frame (payloadOf BeginReplicationRequest.sample) := by
      rw [frame, hmod, List.append_assoc]
      exact List.drop_left' (PutUint32_length _)
    have hu : Uint32 (PutUint32 47) = 47 := by decide
    have htake : (payloadOf (BeginReplicationRequest.long n)
          ++ frame (payloadOf BeginReplicationRequest.sample)).take 47
        = (payloadOf (BeginReplicationRequest.long 36)).take 47 := by
      rw [List.take_append_of_le_length (by rw [hlen]; omega)]
      exact payload_long_take n (by rw [hn]; norm_num)
    obtain ⟨r1, _, hres⟩ := RepConn.RecvMessage_cases
      (RepConn.fed 0 (frame (payloadOf (BeginReplicationRequest.long n))
          ++ frame (payloadOf BeginReplicationRequest.sample))) 0 BeginReplicationRequest.zero
    rw [hU, h4, hu, hdrop, htake, truncated_rejected] at hres
    rcases hres with ⟨hlt, _⟩ | ⟨_, _, h3⟩
    · exfalso
      simp only [List.length_append, frame_length, hlen] at hlt
      omega
    · rw [h3]

/-- The bytes a call can obtain under a later deadline extend those it can
obtain under an earlier one. -/
theorem RepConn.readable_mono (r : RepConn) (d1 d2 : Option Nat) (h : dle d1 d2) :
    ∃ Z, r.readable d2 = r.readable d1 ++ Z := by
  obtain ⟨Z, hZ⟩ := availAt_mono d1 d2 h r.c.incoming
  cases hc : r.c.closed
  · exact ⟨Z, by simp [RepConn.readable, availC, hc, hZ]⟩
  · exact ⟨[], by simp [RepConn.readable, availC, hc]⟩

/-- The bytes a call can obtain are the head of the incoming stream. -/
theorem RepConn.readable_stream (r : RepConn) (d : Option Nat) :
    ∃ Z, r.stream = r.readable d ++ Z := by
  obtain ⟨Z, hZ⟩ := availAt_mono d none (dle_none d) r.c.incoming
  cases hc : r.c.closed
  · exact ⟨Z, by simp [RepConn.readable, RepConn.stream, availC, hc, hZ]⟩
  · exact ⟨availAt none r.c.incoming, by simp [RepConn.readable, RepConn.stream, availC, hc]⟩

/-- A successful `RecvMessage` takes one frame off the incoming stream. -/
theorem RepConn.RecvMessage_consumes {α : Type} [GoJSON α] (r : RepConn) (now : Nat) (d : α)
    (h : (r.RecvMessage now d).2.2 = none) :
    4 + Uint32 (r.stream.take 4) ≤ r.stream.length ∧
    (r.RecvMessage now d).1.stream = r.stream.drop (4 + Uint32 (r.stream.take 4)) := by
  obtain ⟨r1, _, hres⟩ := RepConn.RecvMessage_cases r now d
  obtain ⟨Z, hZ⟩ := RepConn.readable_stream r (some (now + repITimeout))
  rcases hres with ⟨_, e, he⟩ | ⟨hlen, hview, hr⟩
  · rw [he] at h
    cases h
  · have h4 : r.stream.take 4 = (r.readable (some (now + repITimeout))).take 4 := by
      rw [hZ, List.take_append_of_le_length (by omega)]
    have hst := hview false none (Sees.stream _)
    rw [← RepConn.stream_eq, ← RepConn.stream_eq] at hst
    rw [h4]
    refine ⟨by rw [hZ, List.length_append]; omega, ?_⟩
    rw [hr] at h ⊢
    generalize GoJSON.Unmarshal (((r.readable (some (now + repITimeout))).drop 4).take
      (Uint32 ((r.readable (some (now + repITimeout))).take 4))) d = u at h ⊢
    rcases u with ⟨v1, _ | e⟩
    · exact hst
    · cases h

/-- Two sends on an idle connection succeed and deliver the two frames. -/
theorem RepConn.idle_pair {α β : Type} [GoJSON α] [GoJSON β] (a : α) (b : β)
    (pa pb : List Byte) (ha : GoJSON.Marshal a = Except.ok pa)
    (hb : GoJSON.Marshal b = Except.ok pb) (t1 t2 : Nat) :
    (RepConn.idle.SendMessage t1 a).2 = none ∧
    ((RepConn.idle.SendMessage t1 a).1.SendMessage t2 b).2 = none ∧
    ((RepConn.idle.SendMessage t1 a).1.SendMessage t2 b).1.c.delivered
      = frame pa ++ frame pb := by
  have hs1 := RepConn.SendMessage_healthy RepConn.idle t1 a pa ha rfl rfl rfl
  have hp1 := RepConn.SendMessage_healthy_post RepConn.idle t1 a pa ha rfl rfl rfl
  have hd1 := RepConn.SendMessage_delivered RepConn.idle t1 a pa ha hs1
  have hs2 := RepConn.SendMessage_healthy (RepConn.idle.SendMessage t1 a).1 t2 b pb hb
    hp1.2.2 hp1.1 hp1.2.1
  have hd2 := RepConn.SendMessage_delivered (RepConn.idle.SendMessage t1 a).1 t2 b pb hb hs2
  refine ⟨hs1, hs2, ?_⟩
  rw [hd2.1, hd1.1, hd1.2]
  simp [RepConn.idle, Conn.idle]

/-- A `RecvMessage` on a connection fed a header that declares five bytes and then
two bytes returns an error. -/
theorem RepConn.fed_short_fails :
    ((RepConn.fed 0 [0, 0, 0, 5, 0x7B, 0x7D]).RecvMessage 0 BeginReplicationRequest.zero).2.2
      ≠ none := by
  obtain ⟨r1, _, hres⟩ := RepConn.RecvMessage_cases (RepConn.fed 0 [0, 0, 0, 5, 0x7B, 0x7D]) 0
    BeginReplicationRequest.zero
  rcases hres with ⟨_, e, he⟩ | ⟨hlen, _, _⟩
  · rw [he]
    simp
  · exfalso
    revert hlen
    decide

/-- Fail-fast on both sides.  A `RecvMessage` that meets a short frame returns an
error and leaves the flag set and the transport closed; a `SendMessage` on an
idle connection returns no error and leaves the flag clear and the transport
open. -/
theorem failFast_witness :
    ((RepConn.fed 0 [0, 0, 0, 5, 0x7B, 0x7D]).Disconnected = false ∧
      ((RepConn.fed 0 [0, 0, 0, 5, 0x7B, 0x7D]).RecvMessage 0
        BeginReplicationRequest.zero).2.2 ≠ none ∧
      ((RepConn.fed 0 [0, 0, 0, 5, 0x7B, 0x7D]).RecvMessage 0
        BeginReplicationRequest.zero).1.Disconnected = true ∧
      ((RepConn.fed 0 [0, 0, 0, 5, 0x7B, 0x7D]).RecvMessage 0
        BeginReplicationRequest.zero).1.c.closed = true) ∧
    (RepConn.idle.Disconnected = false ∧ RepConn.idle.c.closed = false ∧
      (RepConn.idle.SendMessage 0 BeginReplicationRequest.sample).2 = none ∧
      (RepConn.idle.SendMessage 0 BeginReplicationRequest.sample).1.Disconnected = false ∧
      (RepConn.idle.SendMessage 0 BeginReplicationRequest.sample).1.c.closed = false) :=
  have hs := RepConn.SendMessage_healthy RepConn.idle 0 BeginReplicationRequest.sample
    (payloadOf BeginReplicationRequest.sample) rfl rfl rfl rfl
  have hf := ((failFast (RepConn.fed 0 [0, 0, 0, 5, 0x7B, 0x7D]) 0 rfl).2.1
    BeginReplicationRequest BeginReplicationRequest.zero).1.2 RepConn.fed_short_fails
  have hok := ((failFast RepConn.idle 0 rfl).1 BeginReplicationRequest
    BeginReplicationRequest.sample).2.2 hs rfl
  ⟨⟨rfl, RepConn.fed_short_fails, hf.1, hf.2⟩, ⟨rfl, rfl, hs, hok.1, hok.2⟩⟩

/-- A `Flush` on a closed idle connection leaves the flag set. -/
theorem stickyFlag_witness :
    RepConn.idle.Close.Disconnected = true ∧
    (RepConn.idle.Close.Flush 0).1.Disconnected = true :=
  ⟨rfl, (stickyFlag RepConn.idle.Close 0 rfl).2.2.2.2.1⟩

/-- A frame that arrives two minutes after `RecvMessage` started is received. -/
theorem rollingDeadlines_witness :
    0 + repOTimeout < 2 * Minute ∧ 2 * Minute < 0 + repITimeout ∧
    ((RepConn.fed (2 * Minute) (frame (payloadOf BeginReplicationRequest.sample))).RecvMessage
        0 BeginReplicationRequest.zero).2
      = GoJSON.Unmarshal (payloadOf BeginReplicationRequest.sample)
          BeginReplicationRequest.zero :=
  ⟨by decide, by decide,
    (rollingDeadlines (RepConn.fed (2 * Minute)
        (frame (payloadOf BeginReplicationRequest.sample))) 0).2.2.2.2.2.2.2
      BeginReplicationRequest BeginReplicationRequest.zero (2 * Minute)
      (payloadOf BeginReplicationRequest.sample) [] (by decide) (by decide) rfl rfl
      sample_lengths.1 rfl⟩

/-- A header that declares five bytes, followed by two. -/
theorem framingShort_witness :
    ((RepConn.fed 0 [0, 0, 0, 5, 0x7B, 0x7D]).readable (some (0 + repITimeout))).length
      < 4 + Uint32 (((RepConn.fed 0 [0, 0, 0, 5, 0x7B, 0x7D]).readable
          (some (0 + repITimeout))).take 4) ∧
    ∃ r1 e, (∀ inst : GoJSON BeginReplicationRequest,
        @RepConn.RecvMessage BeginReplicationRequest inst (RepConn.fed 0 [0, 0, 0, 5, 0x7B, 0x7D])
          0 BeginReplicationRequest.zero = (r1, BeginReplicationRequest.zero, some e)) ∧
      r1.Disconnected = true ∧ r1.c.closed = true :=
  ⟨by decide,
   framingShort (RepConn.fed 0 [0, 0, 0, 5, 0x7B, 0x7D]) 0 BeginReplicationRequest.zero
    (Or.inr (by decide))⟩

/-- A peer that answers 404 for device `sdb1`, partition `42`: the unmounted
error and no connection. -/
theorem handshakeClassification_witness :
    (NewRepConn (Network.answering 404) "127.0.0.1" 6000 "sdb1" "42").conn = none ∧
    (NewRepConn (Network.answering 404) "127.0.0.1" 6000 "sdb1" "42").err
      = some Error.RepUnmountedError :=
  ((handshakeClassification (Network.answering 404) "127.0.0.1" 6000 "sdb1" "42"
    "127.0.0.1:6000" Conn.idle 404 rfl rfl rfl).1).2 (by decide)

/-- What is left for a later call after a `RecvMessage` that took the frame of
`p`: the bytes the later call can obtain are those it could have obtained
before, less the frame. -/
theorem RepConn.RecvMessage_rest {α : Type} [GoJSON α] (r : RepConn) (t3 t4 : Nat) (d : α)
    (p X : List Byte) (hp : p.length < 2 ^ 32)
    (hU : r.readable (some (t3 + repITimeout)) = frame p ++ X) (ht : t3 ≤ t4)
    (hok : (GoJSON.Unmarshal p d).2 = none) :
    (r.RecvMessage t3 d).1.readable (some (t4 + repITimeout))
      = (r.readable (some (t4 + repITimeout))).drop (4 + p.length) := by
  obtain ⟨r1, hstep, hview, hr⟩ := RepConn.RecvMessage_frame r t3 d p X hp hU
  have hdle : dle (some (t3 + repITimeout)) (some (t4 + repITimeout)) := by
    intro t h
    simp only [beforeDeadline, decide_eq_true_eq] at h ⊢
    omega
  have hr1 : (r.RecvMessage t3 d).1 = r1 := by
    rw [hr]
    rcases hu : GoJSON.Unmarshal p d with ⟨v1, _ | e⟩
    · rfl
    · rw [hu] at hok
      cases hok
  have hcl : r1.c.closed = r.c.closed := hstep.2.1
  have hsees : Sees (r.setDeadline (t3 + repITimeout)).c r.c.closed (some (t4 + repITimeout)) := by
    cases hc : r.c.closed
    · exact Or.inl ⟨rfl, hdle⟩
    · exact Or.inr ⟨rfl, hc⟩
  have hv := hview _ _ hsees
  rw [hr1]
  show r1.rw.Reader.buf ++ availC r1.c.closed (some (t4 + repITimeout)) r1.c.incoming = _
  rw [hcl, hv]
  rfl

/-- The outcome of a `RecvMessage` that finds the frame of `p` is the decoder's. -/
theorem RepConn.RecvMessage_decodes {α : Type} [GoJSON α] (r : RepConn) (now : Nat) (d : α)
    (p X : List Byte) (hp : p.length < 2 ^ 32)
    (hU : r.readable (some (now + repITimeout)) = frame p ++ X) :
    (r.RecvMessage now d).2 = GoJSON.Unmarshal p d := by
  obtain ⟨r1, _, _, hr⟩ := RepConn.RecvMessage_frame r now d p X hp hU
  rw [hr]
  rcases GoJSON.Unmarshal p d with ⟨v1, _ | e⟩ <;> rfl

/-- Two receipts in a row: the first finds the frame of `px` before its deadline,
the second finds the frame of `py` behind it before its own. -/
theorem RepConn.recv_pair {α β : Type} [GoJSON α] [GoJSON β] (r : RepConn) (t3 t4 : Nat)
    (d1 : α) (d2 : β) (px py X Y : List Byte) (hx : px.length < 2 ^ 32)
    (hy : py.length < 2 ^ 32) (ht : t3 ≤ t4)
    (hU1 : r.readable (some (t3 + repITimeout)) = frame px ++ Y)
    (hU2 : r.readable (some (t4 + repITimeout)) = frame px ++ (frame py ++ X)) :
    (r.RecvMessage t3 d1).2 = GoJSON.Unmarshal px d1 ∧
    ((GoJSON.Unmarshal px d1).2 = none →
      ((r.RecvMessage t3 d1).1.RecvMessage t4 d2).2 = GoJSON.Unmarshal py d2) := by
  refine ⟨RepConn.RecvMessage_decodes r t3 d1 px Y hx hU1, ?_⟩
  intro hok
  have hrest := RepConn.RecvMessage_rest r t3 t4 d1 px Y hx hU1 ht hok
  rw [hU2, List.drop_left' (frame_length px)] at hrest
  exact RepConn.RecvMessage_decodes _ t4 d2 py X hy hrest

/-- What a successful send of a message delivers. -/
theorem Message.send_one (s : RepConn) (now : Nat) (a : Message)
    (hs : (s.sendAny now a).2 = none) :
    (s.sendAny now a).1.c.delivered = s.c.delivered ++ s.rw.Writer.buf ++ frame a.payload ∧
    (s.sendAny now a).1.rw.Writer = { buf := [], err := none } := by
  cases a with
  | beginRequest v => exact RepConn.SendMessage_delivered s now v _ rfl hs
  | beginResponse v => exact RepConn.SendMessage_delivered s now v _ rfl hs
  | syncRequest v => exact RepConn.SendMessage_delivered s now v _ rfl hs
  | syncResponse v => exact RepConn.SendMessage_delivered s now v _ rfl hs
  | uploadResponse v => exact RepConn.SendMessage_delivered s now v _ rfl hs

/-- The receipt of a sound message whose frame is at hand: no error, a destination
equal to the message, and the frame taken off what later calls can obtain. -/
theorem Message.recv_one (a d : Message) (ha : a.Sound) (hd : d.DestinationFor a)
    (hl : a.payload.length < 2 ^ 32) (r : RepConn) (now : Nat) (X : List Byte)
    (hU : r.readable (some (now + repITimeout)) = frame a.payload ++ X) :
    (r.recvAny now d).2.2 = none ∧ Message.Equal (r.recvAny now d).2.1 a ∧
    ∀ t4, now ≤ t4 →
      (r.recvAny now d).1.readable (some (t4 + repITimeout))
        = (r.readable (some (t4 + repITimeout))).drop (4 + a.payload.length) := by
  cases a with
  | beginRequest v =>
    cases d with
    | beginRequest d =>
      have hc := codec_BeginReplicationRequest v d ha.1 ha.2
      have hdec := RepConn.RecvMessage_decodes r now d (payloadOf v) X hl hU
      rw [show GoJSON.Unmarshal (payloadOf v) d = (v, none) from hc] at hdec
      refine ⟨?_, ?_, ?_⟩
      · show (r.RecvMessage now d).2.2 = none
        rw [hdec]
      · show (r.RecvMessage now d).2.1 = v
        rw [hdec]
      · intro t4 ht
        exact RepConn.RecvMessage_rest r now t4 d (payloadOf v) X hl hU ht
          (by rw [show GoJSON.Unmarshal (payloadOf v) d = (v, none) from hc])
    | beginResponse _ => exact absurd hd id
    | syncRequest _ => exact absurd hd id
    | syncResponse _ => exact absurd hd id
    | uploadResponse _ => exact absurd hd id
  | beginResponse v =>
    cases d with
    | beginResponse d =>
      have hc := codec_BeginReplicationResponse v d ha hd
      have hdec := RepConn.RecvMessage_decodes r now d (payloadOf v) X hl hU
      refine ⟨?_, ?_, ?_⟩
      · show (r.RecvMessage now d).2.2 = none
        rw [hdec]
        exact hc.1
      · show StringMap.Same (r.RecvMessage now d).2.1.Hashes v.Hashes
        rw [hdec]
        exact hc.2
      · intro t4 ht
        exact RepConn.RecvMessage_rest r now t4 d (payloadOf v) X hl hU ht hc.1
    | beginRequest _ => exact absurd hd id
    | syncRequest _ => exact absurd hd id
    | syncResponse _ => exact absurd hd id
    | uploadResponse _ => exact absurd hd id
  | syncRequest v =>
    cases d with
    | syncRequest d =>
      have hc := codec_SyncFileRequest v d ha.1 ha.2.1 ha.2.2.1 ha.2.2.2
      have hdec := RepConn.RecvMessage_decodes r now d (payloadOf v) X hl hU
      rw [show GoJSON.Unmarshal (payloadOf v) d = (v, none) from hc] at hdec
      refine ⟨?_, ?_, ?_⟩
      · show (r.RecvMessage now d).2.2 = none
        rw [hdec]
      · show (r.RecvMessage now d).2.1 = v
        rw [hdec]
      · intro t4 ht
        exact RepConn.RecvMessage_rest r now t4 d (payloadOf v) X hl hU ht
          (by rw [show GoJSON.Unmarshal (payloadOf v) d = (v, none) from hc])
    | beginRequest _ => exact absurd hd id
    | beginResponse _ => exact absurd hd id
    | syncResponse _ => exact absurd hd id
    | uploadResponse _ => exact absurd hd id
  | syncResponse v =>
    cases d with
    | syncResponse d =>
      have hc := codec_SyncFileResponse v d ha
      have hdec := RepConn.RecvMessage_decodes r now d (payloadOf v) X hl hU
      rw [show GoJSON.Unmarshal (payloadOf v) d = (v, none) from hc] at hdec
      refine ⟨?_, ?_, ?_⟩
      · show (r.RecvMessage now d).2.2 = none
        rw [hdec]
      · show (r.RecvMessage now d).2.1 = v
        rw [hdec]
      · intro t4 ht
        exact RepConn.RecvMessage_rest r now t4 d (payloadOf v) X hl hU ht
          (by rw [show GoJSON.Unmarshal (payloadOf v) d = (v, none) from hc])
    | beginRequest _ => exact absurd hd id
    | beginResponse _ => exact absurd hd id
    | syncRequest _ => exact absurd hd id
    | uploadResponse _ => exact absurd hd id
  | uploadResponse v =>
    cases d with
    | uploadResponse d =>
      have hc := codec_FileUploadResponse v d ha
      have hdec := RepConn.RecvMessage_decodes r now d (payloadOf v) X hl hU
      rw [show GoJSON.Unmarshal (payloadOf v) d = (v, none) from hc] at hdec
      refine ⟨?_, ?_, ?_⟩
      · show (r.RecvMessage now d).2.2 = none
        rw [hdec]
      · show (r.RecvMessage now d).2.1 = v
        rw [hdec]
      · intro t4 ht
        exact RepConn.RecvMessage_rest r now t4 d (payloadOf v) X hl hU ht
          (by rw [show GoJSON.Unmarshal (payloadOf v) d = (v, none) from hc])
    | beginRequest _ => exact absurd hd id
    | beginResponse _ => exact absurd hd id
    | syncRequest _ => exact absurd hd id
    | syncResponse _ => exact absurd hd id

/-- Two sends on an open transport that accepts every write succeed and deliver
the pending bytes and the two frames. -/
theorem RepConn.healthy_pair {α β : Type} [GoJSON α] [GoJSON β] (s : RepConn) (a : α) (b : β)
    (pa pb : List Byte) (ha : GoJSON.Marshal a = Except.ok pa)
    (hb : GoJSON.Marshal b = Except.ok pb) (t1 t2 : Nat)
    (he : s.rw.Writer.err = none) (h1 : s.c.closed = false) (h2 : s.c.outcomes = []) :
    (s.SendMessage t1 a).2 = none ∧
    ((s.SendMessage t1 a).1.SendMessage t2 b).2 = none ∧
    ((s.SendMessage t1 a).1.SendMessage t2 b).1.c.delivered
      = s.c.delivered ++ s.rw.Writer.buf ++ (frame pa ++ frame pb) := by
  have hs1 := RepConn.SendMessage_healthy s t1 a pa ha he h1 h2
  have hp1 := RepConn.SendMessage_healthy_post s t1 a pa ha he h1 h2
  have hd1 := RepConn.SendMessage_delivered s t1 a pa ha hs1
  have hs2 := RepConn.SendMessage_healthy (s.SendMessage t1 a).1 t2 b pb hb
    hp1.2.2 hp1.1 hp1.2.1
  have hd2 := RepConn.SendMessage_delivered (s.SendMessage t1 a).1 t2 b pb hb hs2
  refine ⟨hs1, hs2, ?_⟩
  rw [hd2.1, hd1.1, hd1.2]
  simp

theorem RepConn.fedTwice_early (t1 t2 d : Nat) (b1 b2 : List Byte) (h1 : t1 < d)
    (h2 : d ≤ t2) : (RepConn.fedTwice t1 b1 t2 b2).readable (some d) = b1 := by
  have h3 : ¬ t2 < d := by omega
  simp [RepConn.readable, RepConn.fedTwice, Conn.idle, availC, availAt, beforeDeadline, h1, h3]

theorem RepConn.fedTwice_late (t1 t2 d : Nat) (b1 b2 : List Byte) (h1 : t1 < d)
    (h2 : t2 < d) : (RepConn.fedTwice t1 b1 t2 b2).readable (some d) = b1 ++ b2 := by
  simp [RepConn.readable, RepConn.fedTwice, Conn.idle, availC, availAt, beforeDeadline, h1, h2]

theorem sample_response_sound : (Message.beginResponse BeginReplicationResponse.sample).Sound := by
  intro k x h
  have hk : k = ascii "0" ∧ x = ascii "abc123" := by
    simp only [StringMap.get?, BeginReplicationResponse.sample, List.find?_cons,
      List.find?_nil] at h
    by_cases hk : ascii "0" = k
    · simp [hk] at h
      exact ⟨hk.symm, h.symm⟩
    · simp [hk] at h
  rw [hk.1, hk.2]
  exact ⟨by decide, by decide⟩

/-- A one-byte `Write` and then two sends, and the receipt of what reached the
transport: the header the peer reads begins with the pending byte. -/
theorem pending_exchange :
    ((RepConn.idle.Write 0 [0x41]).1.SendMessage 0 BeginReplicationRequest.sample).2 = none ∧
    (((RepConn.idle.Write 0 [0x41]).1.SendMessage 0 BeginReplicationRequest.sample).1.SendMessage
      0 BeginReplicationResponse.sample).2 = none ∧
    (((RepConn.idle.Write 0 [0x41]).1.SendMessage 0 BeginReplicationRequest.sample).1.SendMessage
      0 BeginReplicationResponse.sample).1.c.delivered
      = 0x41 :: (frame (payloadOf BeginReplicationRequest.sample)
          ++ frame (payloadOf BeginReplicationResponse.sample)) ∧
    ((RepConn.fed 0 (0x41 :: (frame (payloadOf BeginReplicationRequest.sample)
          ++ frame (payloadOf BeginReplicationResponse.sample)))).RecvMessage 0
        BeginReplicationRequest.zero).2.2 ≠ none := by
  have hw := RepConn.Write_buffered RepConn.idle 0 [0x41] rfl (by decide)
  have hp := RepConn.healthy_pair (RepConn.idle.Write 0 [0x41]).1
    BeginReplicationRequest.sample BeginReplicationResponse.sample
    (payloadOf BeginReplicationRequest.sample) (payloadOf BeginReplicationResponse.sample)
    rfl rfl 0 0 (by rw [hw]; rfl) (by rw [hw]; rfl) (by rw [hw]; rfl)
  refine ⟨hp.1, hp.2.1, ?_, ?_⟩
  · rw [hp.2.2, hw]
    rfl
  · obtain ⟨r1, _, hres⟩ := RepConn.RecvMessage_cases
      (RepConn.fed 0 (0x41 :: (frame (payloadOf BeginReplicationRequest.sample)
          ++ frame (payloadOf BeginReplicationResponse.sample)))) 0
      BeginReplicationRequest.zero
    rcases hres with ⟨_, e, he⟩ | ⟨hlen, _, _⟩
    · rw [he]
      simp
    · exfalso
      revert hlen
      decide

/-- C10 as stated does not hold.  In each case two `SendMessage` calls in a row
succeed and the peer is handed what they delivered.
(1) The first value has a payload of `2 ^ 32 + 47` bytes: the first `RecvMessage`
reads 47 bytes of it as the message and fails with a syntax error.
(2) The first value has the `Device` `0xFF`: the first `RecvMessage` succeeds and
leaves the three bytes of U+FFFD as `Device`.
(3) The first value is the response `{"0": "abc123"}` and the destination holds
`{"1": "x"}`: the first `RecvMessage` succeeds and leaves a map that maps `"1"`
to `"x"`.
(4) A byte was pending in the write buffer: the first `RecvMessage` fails. -/
theorem frameBoundaries_refuted :
    ((RepConn.idle.SendMessage 0 (BeginReplicationRequest.long (2 ^ 32))).2 = none ∧
      ((RepConn.idle.SendMessage 0 (BeginReplicationRequest.long (2 ^ 32))).1.SendMessage 0
        BeginReplicationRequest.sample).2 = none ∧
      ((RepConn.idle.SendMessage 0 (BeginReplicationRequest.long (2 ^ 32))).1.SendMessage 0
        BeginReplicationRequest.sample).1.c.delivered
        = frame (payloadOf (BeginReplicationRequest.long (2 ^ 32)))
            ++ frame (payloadOf BeginReplicationRequest.sample) ∧
      ((RepConn.fed 0 (frame (payloadOf (BeginReplicationRequest.long (2 ^ 32)))
            ++ frame (payloadOf BeginReplicationRequest.sample))).RecvMessage 0
          BeginReplicationRequest.zero).2
        = (BeginReplicationRequest.zero, some Error.ErrSyntax)) ∧
    ((RepConn.idle.SendMessage 0 BeginReplicationRequest.garbled).2 = none ∧
      ((RepConn.idle.SendMessage 0 BeginReplicationRequest.garbled).1.SendMessage 0
        BeginReplicationRequest.sample).2 = none ∧
      ((RepConn.idle.SendMessage 0 BeginReplicationRequest.garbled).1.SendMessage 0
        BeginReplicationRequest.sample).1.c.delivered
        = frame (payloadOf BeginReplicationRequest.garbled)
            ++ frame (payloadOf BeginReplicationRequest.sample) ∧
      ((RepConn.fed 0 (frame (payloadOf BeginReplicationRequest.garbled)
            ++ frame (payloadOf BeginReplicationRequest.sample))).RecvMessage 0
          BeginReplicationRequest.zero).2.2 = none ∧
      ((RepConn.fed 0 (frame (payloadOf BeginReplicationRequest.garbled)
            ++ frame (payloadOf BeginReplicationRequest.sample))).RecvMessage 0
          BeginReplicationRequest.zero).2.1.Device = [0xEF, 0xBF, 0xBD] ∧
      BeginReplicationRequest.garbled.Device = [0xFF]) ∧
    ((RepConn.idle.SendMessage 0 BeginReplicationResponse.sample).2 = none ∧
      ((RepConn.idle.SendMessage 0 BeginReplicationResponse.sample).1.SendMessage 0
        BeginReplicationRequest.sample).2 = none ∧
      ((RepConn.idle.SendMessage 0 BeginReplicationResponse.sample).1.SendMessage 0
        BeginReplicationRequest.sample).1.c.delivered
        = frame (payloadOf BeginReplicationResponse.sample)
            ++ frame (payloadOf BeginReplicationRequest.sample) ∧
      ((RepConn.fed 0 (frame (payloadOf BeginReplicationResponse.sample)
            ++ frame (payloadOf BeginReplicationRequest.sample))).RecvMessage 0
          BeginReplicationResponse.used).2.2 = none ∧
      StringMap.get? ((RepConn.fed 0 (frame (payloadOf BeginReplicationResponse.sample)
            ++ frame (payloadOf BeginReplicationRequest.sample))).RecvMessage 0
          BeginReplicationResponse.used).2.1.Hashes (ascii "1") = some (ascii "x") ∧
      StringMap.get? BeginReplicationResponse.sample.Hashes (ascii "1") = none) ∧
    (((RepConn.idle.Write 0 [0x41]).1.SendMessage 0 BeginReplicationRequest.sample).2 = none ∧
      (((RepConn.idle.Write 0 [0x41]).1.SendMessage 0
        BeginReplicationRequest.sample).1.SendMessage 0
          BeginReplicationResponse.sample).2 = none ∧
      (((RepConn.idle.Write 0 [0x41]).1.SendMessage 0
        BeginReplicationRequest.sample).1.SendMessage 0
          BeginReplicationResponse.sample).1.c.delivered
        = 0x41 :: (frame (payloadOf BeginReplicationRequest.sample)
            ++ frame (payloadOf BeginReplicationResponse.sample)) ∧
      ((RepConn.fed 0 (0x41 :: (frame (payloadOf BeginReplicationRequest.sample)
            ++ frame (payloadOf BeginReplicationResponse.sample)))).RecvMessage 0
          BeginReplicationRequest.zero).2.2 ≠ none) := by
  have p2 := RepConn.idle_pair BeginReplicationRequest.garbled BeginReplicationRequest.sample
    (payloadOf BeginReplicationRequest.garbled) (payloadOf BeginReplicationRequest.sample)
    rfl rfl 0 0
  have p3 := RepConn.idle_pair BeginReplicationResponse.sample BeginReplicationRequest.sample
    (payloadOf BeginReplicationResponse.sample) (payloadOf BeginReplicationRequest.sample)
    rfl rfl 0 0
  have e2 := RepConn.RecvMessage_decodes
    (RepConn.fed 0 (frame (payloadOf BeginReplicationRequest.garbled)
      ++ frame (payloadOf BeginReplicationRequest.sample))) 0 BeginReplicationRequest.zero
    (payloadOf BeginReplicationRequest.garbled) (frame (payloadOf BeginReplicationRequest.sample))
    sample_lengths.2.2 (RepConn.fed_readable _ _ _ (by decide))
  have e3 := RepConn.RecvMessage_decodes
    (RepConn.fed 0 (frame (payloadOf BeginReplicationResponse.sample)
      ++ frame (payloadOf BeginReplicationRequest.sample))) 0 BeginReplicationResponse.used
    (payloadOf BeginReplicationResponse.sample) (frame (payloadOf BeginReplicationRequest.sample))
    sample_lengths.2.1 (RepConn.fed_readable _ _ _ (by decide))
  rw [garbled_decoded] at e2
  rw [used_decoded] at e3
  refine ⟨long_exchange (2 ^ 32) rfl, ⟨p2.1, p2.2.1, p2.2.2, ?_, ?_, rfl⟩,
    ⟨p3.1, p3.2.1, p3.2.2, ?_, ?_, by decide⟩, pending_exchange⟩
  · rw [e2]
  · rw [e2]
  · rw [e3]
  · rw [e3]; decide

/-- C10 (frame boundaries), amended.  A successful `RecvMessage` takes exactly
`4 + n` bytes off the incoming stream, `n` being the big-endian value of its
first 4 bytes, and leaves what follows.  Let `a` and `b` be values of the
message schemas whose strings are valid UTF-8 and whose payloads are shorter
than `2 ^ 32` bytes, sent by two successive successful `SendMessage` calls on a
writer with nothing pending.  The two calls deliver the frame of `a` followed by
the frame of `b`.  When the peer can obtain the first frame before the input
deadline of its first `RecvMessage` and both frames before the input deadline of
its second, and the destinations are of the schemas of `a` and `b` with maps
that hold nothing, the two calls succeed and leave destinations equal to `a` and
then to `b`, field by field.  For payloads of any type, framed one behind the
other, the outcome of the first call is that of `json.Unmarshal` on the first
payload and, when that is no error, the outcome of the second is that of
`json.Unmarshal` on the second. -/
theorem frameBoundaries (s r : RepConn) (t1 t2 t3 t4 : Nat) (a b d1 d2 : Message)
    (X Y : List Byte) (ha : a.Sound) (hb : b.Sound)
    (hd1 : d1.DestinationFor a) (hd2 : d2.DestinationFor b)
    (hla : a.payload.length < 2 ^ 32) (hlb : b.payload.length < 2 ^ 32)
    (hs1 : (s.sendAny t1 a).2 = none)
    (hs2 : ((s.sendAny t1 a).1.sendAny t2 b).2 = none)
    (hbuf : s.rw.Writer.buf = [])
    (hU1 : r.readable (some (t3 + repITimeout))
      = (s.sendAny t1 a).1.c.delivered.drop s.c.delivered.length ++ Y)
    (hU2 : r.readable (some (t4 + repITimeout))
      = ((s.sendAny t1 a).1.sendAny t2 b).1.c.delivered.drop s.c.delivered.length ++ X)
    (ht : t3 ≤ t4) :
    (∀ (γ : Type) [GoJSON γ] (r0 : RepConn) (now : Nat) (d : γ),
      (r0.RecvMessage now d).2.2 = none →
        4 + Uint32 (r0.stream.take 4) ≤ r0.stream.length ∧
        (r0.RecvMessage now d).1.stream = r0.stream.drop (4 + Uint32 (r0.stream.take 4))) ∧
    ((s.sendAny t1 a).1.sendAny t2 b).1.c.delivered
      = s.c.delivered ++ (frame a.payload ++ frame b.payload) ∧
    (r.recvAny t3 d1).2.2 = none ∧ Message.Equal (r.recvAny t3 d1).2.1 a ∧
    ((r.recvAny t3 d1).1.recvAny t4 d2).2.2 = none ∧
    Message.Equal ((r.recvAny t3 d1).1.recvAny t4 d2).2.1 b ∧
    (∀ (α β : Type) [GoJSON α] [GoJSON β] (e1 : α) (e2 : β) (px py X2 Y2 : List Byte),
      px.length < 2 ^ 32 → py.length < 2 ^ 32 →
      r.readable (some (t3 + repITimeout)) = frame px ++ Y2 →
      r.readable (some (t4 + repITimeout)) = frame px ++ (frame py ++ X2) →
      (r.RecvMessage t3 e1).2 = GoJSON.Unmarshal px e1 ∧
      ((GoJSON.Unmarshal px e1).2 = none →
        ((r.RecvMessage t3 e1).1.RecvMessage t4 e2).2 = GoJSON.Unmarshal py e2)) := by
  have hd1s := Message.send_one s t1 a hs1
  have hd2s := Message.send_one (s.sendAny t1 a).1 t2 b hs2
  have hdel1 : (s.sendAny t1 a).1.c.delivered = s.c.delivered ++ frame a.payload := by
    rw [hd1s.1, hbuf]
    simp
  have hdel : ((s.sendAny t1 a).1.sendAny t2 b).1.c.delivered
      = s.c.delivered ++ (frame a.payload ++ frame b.payload) := by
    rw [hd2s.1, hdel1, hd1s.2]
    simp
  rw [hdel1, List.drop_left] at hU1
  rw [hdel, List.drop_left, List.append_assoc] at hU2
  obtain ⟨f1, f2, f3⟩ := Message.recv_one a d1 ha hd1 hla r t3 Y hU1
  have hrest := f3 t4 ht
  rw [hU2, List.drop_left' (frame_length a.payload)] at hrest
  obtain ⟨g1, g2, _⟩ := Message.recv_one b d2 hb hd2 hlb (r.recvAny t3 d1).1 t4 X hrest
  refine ⟨?_, hdel, f1, f2, g1, g2, ?_⟩
  · intro γ _ r0 now d h
    exact RepConn.RecvMessage_consumes r0 now d h
  · intro α β _ _ e1 e2 px py X2 Y2 hx hy h1 h2
    exact RepConn.recv_pair r t3 t4 e1 e2 px py X2 Y2 hx hy ht h1 h2

/-- The request `{sdb1, 42, true}` and then the response `{"0": "abc123"}`, sent on
an idle connection.  The peer is handed the first frame at once and the second
after eleven minutes; it calls `RecvMessage` at once and again after two
minutes, and receives the request and then the response. -/
theorem frameBoundaries_witness :
    (RepConn.fedTwice 0 (frame (payloadOf BeginReplicationRequest.sample)) (11 * Minute)
        (frame (payloadOf BeginReplicationResponse.sample))).readable (some (0 + repITimeout))
      = frame (payloadOf BeginReplicationRequest.sample) ∧
    ((RepConn.fedTwice 0 (frame (payloadOf BeginReplicationRequest.sample)) (11 * Minute)
        (frame (payloadOf BeginReplicationResponse.sample))).recvAny 0
      (Message.beginRequest BeginReplicationRequest.zero)).2.2 = none ∧
    Message.Equal ((RepConn.fedTwice 0 (frame (payloadOf BeginReplicationRequest.sample))
        (11 * Minute) (frame (payloadOf BeginReplicationResponse.sample))).recvAny 0
      (Message.beginRequest BeginReplicationRequest.zero)).2.1
      (Message.beginRequest BeginReplicationRequest.sample) ∧
    (((RepConn.fedTwice 0 (frame (payloadOf BeginReplicationRequest.sample)) (11 * Minute)
        (frame (payloadOf BeginReplicationResponse.sample))).recvAny 0
      (Message.beginRequest BeginReplicationRequest.zero)).1.recvAny (2 * Minute)
        (Message.beginResponse BeginReplicationResponse.zero)).2.2 = none ∧
    Message.Equal (((RepConn.fedTwice 0 (frame (payloadOf BeginReplicationRequest.sample))
        (11 * Minute) (frame (payloadOf BeginReplicationResponse.sample))).recvAny 0
      (Message.beginRequest BeginReplicationRequest.zero)).1.recvAny (2 * Minute)
        (Message.beginResponse BeginReplicationResponse.zero)).2.1
      (Message.beginResponse BeginReplicationResponse.sample) :=
  have hp := RepConn.idle_pair BeginReplicationRequest.sample BeginReplicationResponse.sample
    (payloadOf BeginReplicationRequest.sample) (payloadOf BeginReplicationResponse.sample)
    rfl rfl 0 0
  have hd := RepConn.SendMessage_delivered RepConn.idle 0 BeginReplicationRequest.sample
    (payloadOf BeginReplicationRequest.sample) rfl hp.1
  have hearly := RepConn.fedTwice_early 0 (11 * Minute) (0 + repITimeout)
    (frame (payloadOf BeginReplicationRequest.sample))
    (frame (payloadOf BeginReplicationResponse.sample)) (by decide) (by decide)
  have hlate := RepConn.fedTwice_late 0 (11 * Minute) (2 * Minute + repITimeout)
    (frame (payloadOf BeginReplicationRequest.sample))
    (frame (payloadOf BeginReplicationResponse.sample)) (by decide) (by decide)
  have hfb := frameBoundaries RepConn.idle
    (RepConn.fedTwice 0 (frame (payloadOf BeginReplicationRequest.sample)) (11 * Minute)
        (frame (payloadOf BeginReplicationResponse.sample))) 0 0 0 (2 * Minute)
    (Message.beginRequest BeginReplicationRequest.sample)
    (Message.beginResponse BeginReplicationResponse.sample)
    (Message.beginRequest BeginReplicationRequest.zero)
    (Message.beginResponse BeginReplicationResponse.zero) [] []
    ⟨by decide, by decide⟩ sample_response_sound trivial (fun _ => rfl)
    sample_lengths.1 sample_lengths.2.1 hp.1 hp.2.1 rfl
    (by
      rw [hearly]
      show _ = (RepConn.idle.SendMessage 0 BeginReplicationRequest.sample).1.c.delivered.drop
        RepConn.idle.c.delivered.length ++ []
      rw [hd.1]
      simp [RepConn.idle, Conn.idle])
    (by
      rw [hlate]
      show _ = ((RepConn.idle.SendMessage 0 BeginReplicationRequest.sample).1.SendMessage 0
        BeginReplicationResponse.sample).1.c.delivered.drop
        RepConn.idle.c.delivered.length ++ []
      rw [hp.2.2]
      simp [RepConn.idle, Conn.idle])
    (Nat.zero_le _)
  ⟨hearly, hfb.2.2.1, hfb.2.2.2.1, hfb.2.2.2.2.1, hfb.2.2.2.2.2.1⟩

/-- One send of a request whose payload has `2 ^ 32 + 47` bytes, and its receipt:
the header declares 47 bytes, and the decoder rejects them. -/
theorem long_single (n : Nat) (hn : n = 2 ^ 32) :
    (RepConn.idle.SendMessage 0 (BeginReplicationRequest.long n)).2 = none ∧
    (RepConn.idle.SendMessage 0 (BeginReplicationRequest.long n)).1.c.delivered
      = frame (payloadOf (BeginReplicationRequest.long n)) ∧
    ((RepConn.fed 0 (frame (payloadOf (BeginReplicationRequest.long n)))).RecvMessage 0
        BeginReplicationRequest.zero).2
      = (BeginReplicationRequest.zero, some Error.ErrSyntax) := by
  have hs1 := RepConn.SendMessage_healthy RepConn.idle 0 (BeginReplicationRequest.long n)
    (payloadOf (BeginReplicationRequest.long n)) rfl rfl rfl rfl
  have hd1 := RepConn.SendMessage_delivered RepConn.idle 0 (BeginReplicationRequest.long n)
    (payloadOf (BeginReplicationRequest.long n)) rfl hs1
  refine ⟨hs1, ?_, ?_⟩
  · rw [hd1.1]
    simp [RepConn.idle, Conn.idle]
  · have hlen := payload_long_length n
    have hmod : (payloadOf (BeginReplicationRequest.long n)).length % 2 ^ 32 = 47 := by
      rw [hlen, hn]
      norm_num
    have hU : (RepConn.fed 0 (frame (payloadOf (BeginReplicationRequest.long n)))).readable
          (some (0 + repITimeout))
        = frame (payloadOf (BeginReplicationRequest.long n)) :=
      RepConn.fed_readable _ _ _ (by decide)
    have h4 : (frame (payloadOf (BeginReplicationRequest.long n))).take 4 = PutUint32 47 := by
      rw [frame, hmod]
      exact List.take_left' (PutUint32_length _)
    have hdrop : (frame (payloadOf (BeginReplicationRequest.long n))).drop 4
        = payloadOf (BeginReplicationRequest.long n) := by
      rw [frame, hmod]
      exact List.drop_left' (PutUint32_length _)
    have hu : Uint32 (PutUint32 47) = 47 := by decide
    obtain ⟨r1, _, hres⟩ := RepConn.RecvMessage_cases
      (RepConn.fed 0 (frame (payloadOf (BeginReplicationRequest.long n)))) 0
      BeginReplicationRequest.zero
    rw [hU, h4, hu, hdrop, payload_long_take n (by rw [hn]; norm_num),
      truncated_rejected] at hres
    rcases hres with ⟨hlt, _⟩ | ⟨_, _, h3⟩
    · exfalso
      simp only [frame_length, hlen] at hlt
      omega
    · rw [h3]

/-- A one-byte `Write` and then one send, and the receipt of what reached the
transport: the header the peer reads begins with the pending byte. -/
theorem pending_single :
    (RepConn.idle.Write 0 [0x41]).2.2 = none ∧
    ((RepConn.idle.Write 0 [0x41]).1.SendMessage 0 BeginReplicationRequest.sample).2 = none ∧
    ((RepConn.idle.Write 0 [0x41]).1.SendMessage 0 BeginReplicationRequest.sample).1.c.delivered
      = 0x41 :: frame (payloadOf BeginReplicationRequest.sample) ∧
    ((RepConn.fed 0 (0x41 :: frame (payloadOf BeginReplicationRequest.sample))).RecvMessage 0
        BeginReplicationRequest.zero).2.2 ≠ none := by
  have hw := RepConn.Write_buffered RepConn.idle 0 [0x41] rfl (by decide)
  have hs := RepConn.SendMessage_healthy (RepConn.idle.Write 0 [0x41]).1 0
    BeginReplicationRequest.sample (payloadOf BeginReplicationRequest.sample) rfl
    (by rw [hw]; rfl) (by rw [hw]; rfl) (by rw [hw]; rfl)
  have hd := (RepConn.SendMessage_delivered _ 0 BeginReplicationRequest.sample
    (payloadOf BeginReplicationRequest.sample) rfl hs).1
  refine ⟨by rw [hw], hs, ?_, ?_⟩
  · rw [hd, hw]
    rfl
  · obtain ⟨r1, _, hres⟩ := RepConn.RecvMessage_cases
      (RepConn.fed 0 (0x41 :: frame (payloadOf BeginReplicationRequest.sample))) 0
      BeginReplicationRequest.zero
    rcases hres with ⟨_, e, he⟩ | ⟨hlen, _, _⟩
    · rw [he]
      simp
    · exfalso
      revert hlen
      decide

/-- C1 as stated does not hold.  In each case `SendMessage` succeeds and the peer
is handed what it delivered.
(1) A `BeginReplicationRequest` whose `Device` is the byte `0xFF` is received
without error, and the destination's `Device` is the three bytes of U+FFFD.
(2) The response `{"0": "abc123"}` received into a destination that holds
`{"1": "x"}` leaves a map that still maps `"1"` to `"x"`.
(3) A request whose payload has `2 ^ 32 + 47` bytes is announced with the length
47; `RecvMessage` fails with a syntax error and leaves the destination alone.
(4) After a one-byte `Write`, which stays in the write buffer, the request
`{sdb1, 42, true}` is delivered behind that byte; `RecvMessage` fails. -/
theorem roundTrip_refuted :
    (Relays RepConn.idle 0 BeginReplicationRequest.garbled
        (RepConn.fed 0 (frame (payloadOf BeginReplicationRequest.garbled))) 0 ∧
      ((RepConn.fed 0 (frame (payloadOf BeginReplicationRequest.garbled))).RecvMessage 0
          BeginReplicationRequest.zero).2.2 = none ∧
      ((RepConn.fed 0 (frame (payloadOf BeginReplicationRequest.garbled))).RecvMessage 0
          BeginReplicationRequest.zero).2.1.Device = [0xEF, 0xBF, 0xBD] ∧
      BeginReplicationRequest.garbled.Device = [0xFF]) ∧
    (Relays RepConn.idle 0 BeginReplicationResponse.sample
        (RepConn.fed 0 (frame (payloadOf BeginReplicationResponse.sample))) 0 ∧
      ((RepConn.fed 0 (frame (payloadOf BeginReplicationResponse.sample))).RecvMessage 0
          BeginReplicationResponse.used).2.2 = none ∧
      StringMap.get? ((RepConn.fed 0 (frame (payloadOf BeginReplicationResponse.sample))).RecvMessage
          0 BeginReplicationResponse.used).2.1.Hashes (ascii "1") = some (ascii "x") ∧
      StringMap.get? BeginReplicationResponse.sample.Hashes (ascii "1") = none) ∧
    ((RepConn.idle.SendMessage 0 (BeginReplicationRequest.long (2 ^ 32))).2 = none ∧
      (RepConn.idle.SendMessage 0 (BeginReplicationRequest.long (2 ^ 32))).1.c.delivered
        = frame (payloadOf (BeginReplicationRequest.long (2 ^ 32))) ∧
      ((RepConn.fed 0 (frame (payloadOf (BeginReplicationRequest.long (2 ^ 32))))).RecvMessage 0
          BeginReplicationRequest.zero).2
        = (BeginReplicationRequest.zero, some Error.ErrSyntax)) ∧
    ((RepConn.idle.Write 0 [0x41]).2.2 = none ∧
      ((RepConn.idle.Write 0 [0x41]).1.SendMessage 0 BeginReplicationRequest.sample).2 = none ∧
      ((RepConn.idle.Write 0 [0x41]).1.SendMessage 0
          BeginReplicationRequest.sample).1.c.delivered
        = 0x41 :: frame (payloadOf BeginReplicationRequest.sample) ∧
      ((RepConn.fed 0 (0x41 :: frame (payloadOf BeginReplicationRequest.sample))).RecvMessage 0
          BeginReplicationRequest.zero).2.2 ≠ none) := by
  have r1 : Relays RepConn.idle 0 BeginReplicationRequest.garbled
      (RepConn.fed 0 (frame (payloadOf BeginReplicationRequest.garbled))) 0 :=
    Relays.idle_fed _ _ rfl sample_lengths.2.2 0 0 0 (by decide)
  have r2 : Relays RepConn.idle 0 BeginReplicationResponse.sample
      (RepConn.fed 0 (frame (payloadOf BeginReplicationResponse.sample))) 0 :=
    Relays.idle_fed _ _ rfl sample_lengths.2.1 0 0 0 (by decide)
  have e1 := RepConn.relay_recv _ _ 0 0 _ BeginReplicationRequest.zero
    (payloadOf BeginReplicationRequest.garbled) rfl r1
  have e2 := RepConn.relay_recv _ _ 0 0 _ BeginReplicationResponse.used
    (payloadOf BeginReplicationResponse.sample) rfl r2
  rw [garbled_decoded] at e1
  rw [used_decoded] at e2
  refine ⟨⟨r1, ?_, ?_, rfl⟩, ⟨r2, ?_, ?_, by decide⟩, long_single (2 ^ 32) rfl,
    pending_single⟩
  · rw [e1]
  · rw [e1]
  · rw [e2]
  · rw [e2]; decide

end Objectserver
